import Mathlib

/-!
Data Stream: the network simulation core.

A shallow embedding of `js/config.js`, `js/classes/Node.js`,
`js/classes/Connection.js` and `js/classes/GameState.js`, with the placement
preview `checkCanPlace` of `js/classes/NetworkRenderer.js` and the helpers of
`js/utils.js` that it calls.

Modelling conventions.

* JavaScript numbers are exact rationals (`ℚ`); identifiers, upgrade levels and
  the prestige counter are natural numbers.  Where `Math.ceil` or `Math.floor`
  turns the last bit of a double into a whole unit (`getNodeCost`,
  `calculateOfflineGains`), every operation is rounded to the nearest double by
  `roundDouble`.
* A JavaScript object reference to a `Node` is the node's `id`: a `Connection`
  stores the ids of its two endpoints, and a mutation of a node object is an
  update of the entry of the node list that carries this id.
* The static counter `Node.nextId` is the field `nextId` of the state.
* `Math.sqrt` is monotone and exact on `2500 = 50²` and `40000 = 200²`, so a
  comparison of a distance with `50` or `200` is the same comparison of the
  squared distance with `2500` or `40000`, and sorting by distance is sorting
  by squared distance.  Where the value of a distance enters a computation
  (`Connection.update`) the square root is a parameter `sqrt : ℚ → ℚ`.
* Fields that only drive the display (`glowIntensity`, `pulsePhase`,
  `particles`, `lastSaveTime`) and the `MEMORY` buffer, whose type has no entry in
  `NODE_TYPES`, are left out; `selectedNodeType` is an argument of `checkCanPlace`.
* `localStorage` and `Date.now()` are arguments of `save` and `load`: the stored
  item is absent, a text that `JSON.parse` rejects, or the parsed save object.
-/

namespace DataStream

/-! ## config.js -/

/-- The keys of `NODE_TYPES`. -/
inductive NodeType where
  | CORE | PROCESSOR | ROUTER | COMPRESSOR | CACHE | AMPLIFIER | OPTIMIZER
  deriving DecidableEq, Repr

/-- The `neighborEffect` entry of a node type. -/
inductive NeighborEffect where
  | bandwidthReduction (value : ℚ)
  | lossReduction (value : ℚ)
  | dataBoost (value : ℚ)
  | hybrid (bandwidthReduction dataBoost : ℚ)
  deriving DecidableEq

/-- One entry of `NODE_TYPES` (the fields the simulation reads). -/
structure NodeConfig where
  cost : ℚ
  bandwidthCost : ℚ
  dataRate : ℚ
  unique : Bool
  requiresPrestige : Option Nat
  neighborEffect : Option NeighborEffect
  deriving DecidableEq

/-- The table `NODE_TYPES` of `config.js`. -/
def NODE_TYPES : NodeType → NodeConfig
  | .CORE => ⟨0, 0, 2, true, none, none⟩
  | .PROCESSOR => ⟨10, 8, 6, false, none, none⟩
  | .ROUTER => ⟨15, 3, 0, false, none, some (.bandwidthReduction (1/2))⟩
  | .COMPRESSOR => ⟨20, 4, 0, false, none, some (.lossReduction (1/2))⟩
  | .CACHE => ⟨25, 3, 0, false, none, some (.dataBoost (13/10))⟩
  | .AMPLIFIER => ⟨35, 12, 0, false, none, some (.dataBoost (9/5))⟩
  | .OPTIMIZER => ⟨100, 8, 8, false, some 1, some (.hybrid (3/5) (5/4))⟩

def CANVAS_WIDTH : ℚ := 1200
def CANVAS_HEIGHT : ℚ := 800
def INITIAL_DATA : ℚ := 10
def INITIAL_BANDWIDTH : ℚ := 100
def INITIAL_INTEGRITY : ℚ := 100
def PRESTIGE_THRESHOLD : ℚ := 1000

/-! ## Node.js -/

/-- A `Node` object. -/
structure Node where
  id : Nat
  type : NodeType
  x : ℚ
  y : ℚ
  dataStored : ℚ
  dataRate : ℚ
  isActive : Bool
  connections : List Nat
  deriving DecidableEq

namespace Node

/-- The static configuration `this.config = NODE_TYPES[type]`. -/
def config (n : Node) : NodeConfig := NODE_TYPES n.type

/-- The constructor `new Node(type, x, y)` when `Node.nextId` is `nextId`; the
counter afterwards is `nextId + 1`. -/
def create (nextId : Nat) (type : NodeType) (x y : ℚ) : Node :=
  { id := nextId, type := type, x := x, y := y, dataStored := 0,
    dataRate := (NODE_TYPES type).dataRate, isActive := true, connections := [] }

/-- The method `connectTo(nodeId)`. -/
def connectTo (n : Node) (nodeId : Nat) : Node :=
  if n.connections.contains nodeId then n
  else { n with connections := n.connections ++ [nodeId] }

/-- The method `disconnectFrom(nodeId)`. -/
def disconnectFrom (n : Node) (nodeId : Nat) : Node :=
  { n with connections := n.connections.filter (fun i => i != nodeId) }

/-- The value `dx * dx + dy * dy` of which `distanceTo` takes the square root. -/
def distanceSqTo (n other : Node) : ℚ :=
  (n.x - other.x) * (n.x - other.x) + (n.y - other.y) * (n.y - other.y)

/-- The method `calculateDataBonus(allNodes)`. -/
def calculateDataBonus (n : Node) (allNodes : List Node) : ℚ :=
  n.connections.foldl (fun bonus neighborId =>
    match allNodes.find? (fun m => m.id == neighborId) with
    | none => bonus
    | some neighbor =>
      if !neighbor.isActive then bonus
      else match neighbor.config.neighborEffect with
        | some (.dataBoost value) => bonus * value
        | some (.hybrid _ dataBoost) => if dataBoost ≠ 0 then bonus * dataBoost else bonus
        | _ => bonus) 1

/-- The method `calculateBandwidthReduction(allNodes)`. -/
def calculateBandwidthReduction (n : Node) (allNodes : List Node) : ℚ :=
  n.connections.foldl (fun multiplier neighborId =>
    match allNodes.find? (fun m => m.id == neighborId) with
    | none => multiplier
    | some neighbor =>
      if !neighbor.isActive then multiplier
      else match neighbor.config.neighborEffect with
        | some (.bandwidthReduction value) => multiplier * value
        | some (.hybrid bandwidthReduction _) =>
          if bandwidthReduction ≠ 0 then multiplier * bandwidthReduction else multiplier
        | _ => multiplier) 1

/-- The method `calculateLossReduction(allNodes)`. -/
def calculateLossReduction (n : Node) (allNodes : List Node) : ℚ :=
  min (n.connections.foldl (fun reduction neighborId =>
    match allNodes.find? (fun m => m.id == neighborId) with
    | none => reduction
    | some neighbor =>
      if !neighbor.isActive then reduction
      else match neighbor.config.neighborEffect with
        | some (.lossReduction value) => reduction + value
        | _ => reduction) 0) (9 / 10)

/-- The method `update(deltaTime, allNodes)`, without the glow animation. -/
def update (n : Node) (deltaTime : ℚ) (allNodes : List Node) : Node :=
  if !n.isActive then n
  else if 0 < n.dataRate then
    { n with dataStored := n.dataStored + n.dataRate * n.calculateDataBonus allNodes * (deltaTime / 1000) }
  else n

/-- The method `addData(amount)` of a node that is not of type `MEMORY`. -/
def addData (n : Node) (amount : ℚ) : Node :=
  { n with dataStored := n.dataStored + amount }

/-- The method `extractData()`: the amount returned and the emptied node. -/
def extractData (n : Node) : ℚ × Node :=
  (n.dataStored, { n with dataStored := 0 })

end Node

/-- The object that `serialize()` returns and `Node.deserialize(data)` reads. -/
structure SavedNode where
  id : Nat
  type : NodeType
  x : ℚ
  y : ℚ
  dataStored : ℚ
  connections : List Nat
  isActive : Bool
  deriving DecidableEq

/-- The method `serialize()`. -/
def Node.serialize (n : Node) : SavedNode :=
  { id := n.id, type := n.type, x := n.x, y := n.y, dataStored := n.dataStored,
    connections := n.connections, isActive := n.isActive }

/-- The constructor `new Node(type, x, y)` with the static counter: the node made
when `Node.nextId` is `nextId`, and the value of `Node.nextId` afterwards
(`this.id = Node.nextId++`). -/
def Node.construct (nextId : Nat) (type : NodeType) (x y : ℚ) : Node × Nat :=
  (Node.create nextId type x y, nextId + 1)

/-- The static method `Node.deserialize(data)` when `Node.nextId` is `nextId`: the
node returned and the value of `Node.nextId` afterwards. -/
def Node.deserialize (nextId : Nat) (data : SavedNode) : Node × Nat :=
  let r := Node.construct nextId data.type data.x data.y
  let node1 := { r.1 with id := data.id }
  let node2 := { node1 with dataStored := data.dataStored }
  let node3 := { node2 with connections := data.connections }
  let node4 := { node3 with isActive := data.isActive }
  (node4, if r.2 ≤ data.id then data.id + 1 else r.2)

/-- A creation of a node object, by the constructor or by `Node.deserialize`. -/
inductive NodeEvent where
  | construct (type : NodeType) (x y : ℚ)
  | deserialize (data : SavedNode)

/-- One creation of a node object, on the pair of the counter `Node.nextId` and
the identifiers of the nodes created so far. -/
def NodeEvent.apply (st : Nat × List Nat) : NodeEvent → Nat × List Nat
  | .construct type x y =>
    ((Node.construct st.1 type x y).2, st.2 ++ [(Node.construct st.1 type x y).1.id])
  | .deserialize data =>
    ((Node.deserialize st.1 data).2, st.2 ++ [(Node.deserialize st.1 data).1.id])

/-- The squared distance `dx * dx + dy * dy` from the point `(x, y)` to a node,
with `dx = x - n.x` and `dy = y - n.y`. -/
def distSq (x y : ℚ) (n : Node) : ℚ :=
  (x - n.x) * (x - n.x) + (y - n.y) * (y - n.y)

/-- Replaces the node object with identifier `id` by its image under `f`. -/
def updateNode (nodes : List Node) (id : Nat) (f : Node → Node) : List Node :=
  nodes.map (fun n => if n.id = id then f n else n)

/-! ## Connection.js -/

/-- A `Connection` object; `fromNode` and `toNode` are the ids of the endpoints. -/
structure Connection where
  fromNode : Nat
  toNode : Nat
  flowRate : ℚ
  saturation : ℚ
  losses : ℚ
  deriving DecidableEq

namespace Connection

/-- The constructor `new Connection(fromNode, toNode)`. -/
def create (fromNode toNode : Node) : Connection :=
  { fromNode := fromNode.id, toNode := toNode.id, flowRate := 0, saturation := 0, losses := 0 }

/-- The static method `Connection.exists(fromNode, toNode, connections)`. -/
def «exists» (fromNode toNode : Node) (connections : List Connection) : Bool :=
  connections.any (fun conn =>
    (conn.fromNode == fromNode.id && conn.toNode == toNode.id) ||
    (conn.fromNode == toNode.id && conn.toNode == fromNode.id))

/-- The method `update(deltaTime, bandwidth, allNodes)`, without the particles:
the connection and the node list afterwards.  The endpoints are looked up by id;
a connection whose endpoint is not in the list is left as it is. -/
def update (sqrt : ℚ → ℚ) (conn : Connection) (deltaTime bandwidth : ℚ) (allNodes : List Node) :
    Connection × List Node :=
  match allNodes.find? (fun m => m.id == conn.fromNode),
      allNodes.find? (fun m => m.id == conn.toNode) with
  | some fromNode, some toNode =>
    let availableData := fromNode.dataStored
    let distance := sqrt (fromNode.distanceSqTo toNode)
    let idealBandwidth := (availableData / distance) * 100
    let saturation := min (idealBandwidth / bandwidth) 1
    let distanceLoss := min (distance / 500) (3 / 10)
    let saturationLoss := saturation * (1 / 5)
    let baseLosses := distanceLoss + saturationLoss
    let fromReduction := fromNode.calculateLossReduction allNodes
    let toReduction := toNode.calculateLossReduction allNodes
    let avgReduction := (fromReduction + toReduction) / 2
    let losses := max (baseLosses * (1 - avgReduction)) 0
    if 0 < availableData then
      let transferAmount := min availableData 1 * (deltaTime / 1000)
      let effectiveTransfer := transferAmount * (1 - losses)
      let nodes1 := updateNode allNodes conn.fromNode
        (fun m => { m with dataStored := m.dataStored - transferAmount })
      let nodes2 := updateNode nodes1 conn.toNode (fun m => m.addData effectiveTransfer)
      ({ conn with saturation := saturation, losses := losses, flowRate := effectiveTransfer },
        nodes2)
    else
      ({ conn with saturation := saturation, losses := losses, flowRate := 0 }, allNodes)
  | _, _ => (conn, allNodes)

end Connection

/-! ## Double-precision arithmetic

`Math.ceil` and `Math.floor` turn the last bit of a double into a whole unit, so
the two methods that apply them to a product of fractions, `getNodeCost` and
`calculateOfflineGains`, round the result of every operation to the nearest
double. -/

/-- Doubles or halves the fraction `n / d` until `2 ^ 52 ≤ n / d < 2 ^ 53`, in at
most `fuel` steps: the scaled numerator and denominator, and the exponent `e`
with `n / d = n' / d' * 2 ^ e`. -/
def scaleToMantissa : Nat → Nat → Nat → Int → Nat × Nat × Int
  | 0, n, d, e => (n, d, e)
  | fuel + 1, n, d, e =>
    if n < 2 ^ 52 * d then scaleToMantissa fuel (2 * n) d (e - 1)
    else if 2 ^ 53 * d ≤ n then scaleToMantissa fuel n (2 * d) (e + 1)
    else (n, d, e)

/-- The integer nearest to `n / d`, the even one of the two when `n / d` lies
halfway. -/
def roundHalfEven (n d : Nat) : Nat :=
  let q := n / d
  let r := n % d
  if 2 * r < d then q else if d < 2 * r then q + 1 else if q % 2 = 0 then q else q + 1

/-- The double nearest to `q` (IEEE 754 binary64, round to nearest, ties to
even), for a `q` whose magnitude is in the range of the normal doubles: a
mantissa of 53 bits times a power of two. -/
def roundDouble (q : ℚ) : ℚ :=
  if q = 0 then 0
  else
    let r := scaleToMantissa 2200 q.num.natAbs q.den 0
    let m := roundHalfEven r.1 r.2.1
    let v : ℚ := mkRat ((m : ℤ) * 2 ^ r.2.2.toNat) (2 ^ (-r.2.2).toNat)
    if q < 0 then -v else v

/-! ## GameState.js -/

/-- The object `permanentUpgrades`. -/
structure PermanentUpgrades where
  offlineRate : Nat
  coreProduction : Nat
  processorProduction : Nat
  nodeDiscount : Nat
  deriving DecidableEq

/-- A `GameState` object together with the static counter `Node.nextId`. -/
structure GameState where
  data : ℚ
  bandwidth : ℚ
  bandwidthUsed : ℚ
  integrity : ℚ
  consciousnessFragments : ℚ
  totalDataGenerated : ℚ
  totalDataLost : ℚ
  prestigeCount : Nat
  nodes : List Node
  connections : List Connection
  unlockedModules : List String
  permanentUpgrades : PermanentUpgrades
  isPaused : Bool
  gameTime : ℚ
  crashTriggered : Bool
  nextId : Nat
  deriving DecidableEq

/-- The result object `{ success, message?, ... }` of a command, with the
payload fields `node` of `addNode` (the node as the constructor and the upgrades
leave it; its state after the automatic connections is the entry of the node
list with its identifier) and `fragmentsGained` of `prestige`. -/
structure Outcome where
  success : Bool
  message : Option String
  node : Option Node
  fragmentsGained : Option ℤ
  deriving DecidableEq

/-- The object `{ success: false, message }`. -/
def Outcome.failure (msg : String) : Outcome := ⟨false, some msg, none, none⟩

/-- The object `{ success: true }`. -/
def Outcome.ok : Outcome := ⟨true, none, none, none⟩

/-- The function `isHubNode(nodeType)` of `utils.js`. -/
def isHubNode (nodeType : NodeType) : Bool := nodeType == .CORE || nodeType == .PROCESSOR

namespace GameState

/-- The method `applyUpgradesToNode(node)`. -/
def applyUpgradesToNode (s : GameState) (node : Node) : Node :=
  if node.type = .CORE then
    { node with dataRate := node.dataRate + s.permanentUpgrades.coreProduction }
  else if node.type = .PROCESSOR then
    { node with dataRate := node.dataRate + s.permanentUpgrades.processorProduction }
  else node

/-- The constructor `new GameState()` when `Node.nextId` is `nextId`. -/
def create (nextId : Nat) : GameState :=
  let s0 : GameState :=
    { data := INITIAL_DATA, bandwidth := INITIAL_BANDWIDTH, bandwidthUsed := 0,
      integrity := INITIAL_INTEGRITY, consciousnessFragments := 0,
      totalDataGenerated := 0, totalDataLost := 0, prestigeCount := 0,
      nodes := [], connections := [], unlockedModules := [],
      permanentUpgrades := ⟨0, 0, 0, 0⟩, isPaused := false, gameTime := 0,
      crashTriggered := false, nextId := nextId }
  let core := Node.create nextId .CORE (CANVAS_WIDTH / 2) (CANVAS_HEIGHT / 2)
  { s0 with nodes := s0.nodes ++ [s0.applyUpgradesToNode core], nextId := nextId + 1 }

/-- The method `getNodeCost(nodeType)`, in double precision: `0.05` is the double
nearest to `1 / 20`, and the product, the difference and the second product are
each rounded before `Math.ceil`. -/
def getNodeCost (s : GameState) (nodeType : NodeType) : ℚ :=
  let baseCost := (NODE_TYPES nodeType).cost
  let discount : ℚ := roundDouble (s.permanentUpgrades.nodeDiscount * roundDouble (1 / 20))
  (⌈roundDouble (baseCost * roundDouble (1 - discount))⌉ : ℤ)

/-- The rule `canConnectTo(nodeA, nodeB)` of `autoConnectNode`. -/
def canConnectTo (nodeA nodeB : Node) : Bool :=
  nodeA.type == .PROCESSOR || nodeA.type == .CORE ||
    nodeB.type == .PROCESSOR || nodeB.type == .CORE

/-- The list `nearbyNodes` of `autoConnectNode`: the candidates with their
squared distance, filtered, sorted by distance and cut to three. -/
def nearbyNodes (s : GameState) (newNode : Node) : List (Node × ℚ) :=
  ((((s.nodes.filter (fun n => n.id != newNode.id)).filter
      (fun n => canConnectTo newNode n)).map
      (fun n => (n, newNode.distanceSqTo n))).filter
      (fun item => decide (item.2 ≤ 40000))).insertionSort (fun a b => a.2 ≤ b.2) |>.take 3

/-- One round of the `forEach` of `autoConnectNode`. -/
def connectStep (newNode : Node) (s : GameState) (item : Node × ℚ) : GameState :=
  if Connection.exists newNode item.1 s.connections then s
  else
    { s with
      connections := s.connections ++ [Connection.create newNode item.1]
      nodes := updateNode (updateNode s.nodes newNode.id (fun n => n.connectTo item.1.id))
        item.1.id (fun n => n.connectTo newNode.id) }

/-- The method `autoConnectNode(newNode)`. -/
def autoConnectNode (s : GameState) (newNode : Node) : GameState :=
  (s.nearbyNodes newNode).foldl (connectStep newNode) s

/-- The third check of `addNode`, `canPlace`. -/
def canPlace (s : GameState) (x y : ℚ) : Bool :=
  s.nodes.all (fun n => decide (2500 ≤ distSq x y n))

/-- The value `tooCloseToRouter` of `addNode`. -/
def tooCloseToRouter (s : GameState) (x y : ℚ) : Bool :=
  s.nodes.any (fun n => if n.type ≠ .ROUTER then false else decide (distSq x y n < 40000))

/-- The value `canConnectToAny` of `addNode`. -/
def canConnectToAny (s : GameState) (type : NodeType) (x y : ℚ) : Bool :=
  s.nodes.any (fun n =>
    if 40000 < distSq x y n then false
    else type == .PROCESSOR || type == .CORE || n.type == .PROCESSOR || n.type == .CORE)

/-- The method `addNode(type, x, y)`. -/
def addNode (s : GameState) (type : NodeType) (x y : ℚ) : Outcome × GameState :=
  let nodeType := NODE_TYPES type
  let nodeCost := s.getNodeCost type
  if s.data < nodeCost then
    (Outcome.failure "Pas assez de Data", s)
  else if nodeType.unique && s.nodes.any (fun n => n.type == type) then
    (Outcome.failure "Nœud unique déjà présent", s)
  else if !s.canPlace x y then
    (Outcome.failure "Trop proche d\x27un autre nœud", s)
  else if type = .ROUTER ∧ s.tooCloseToRouter x y = true then
    (Outcome.failure "Routers ne peuvent pas être connectés entre eux", s)
  else if !s.canConnectToAny type x y then
    (Outcome.failure "Trop loin : aucune connexion possible !", s)
  else
    let node := s.applyUpgradesToNode (Node.create s.nextId type x y)
    let s1 := { s with nodes := s.nodes ++ [node], nextId := s.nextId + 1 }
    let s2 := { s1 with data := s1.data - nodeCost }
    (⟨true, none, some node, none⟩, s2.autoConnectNode node)

/-- One round of the `forEach` of the BFS of `isNetworkConnected`, on the pair
of the visited set (in insertion order) and the queue. -/
def visitNeighbor (excludedNodeId : Option Nat) (st : List Nat × List Nat) (neighborId : Nat) :
    List Nat × List Nat :=
  if excludedNodeId = some neighborId then st
  else if st.1.contains neighborId then st
  else (st.1 ++ [neighborId], st.2 ++ [neighborId])

/-- The `while (queue.length > 0)` loop of `isNetworkConnected`, run for at most
`fuel` rounds: the visited set when the queue is empty, `none` when the rounds
are used up before. -/
def bfsLoop (nodes : List Node) (excludedNodeId : Option Nat) :
    Nat → List Nat → List Nat → Option (List Nat)
  | _, visited, [] => some visited
  | 0, _, _ :: _ => none
  | fuel + 1, visited, currentId :: queue =>
    match nodes.find? (fun n => n.id == currentId) with
    | none => bfsLoop nodes excludedNodeId fuel visited queue
    | some currentNode =>
      let st := currentNode.connections.foldl (visitNeighbor excludedNodeId) (visited, queue)
      bfsLoop nodes excludedNodeId fuel st.1 st.2

/-- A number of rounds that the loop of `isNetworkConnected` never exceeds: every
round removes one identifier from the queue, and an identifier enters the queue
once, as the CORE or as an entry of a neighbour list. -/
def bfsFuel (nodes : List Node) : Nat :=
  1 + (nodes.map (fun n => n.connections.length)).sum

/-- The method `isNetworkConnected(excludedNodeId)`. -/
def isNetworkConnected (s : GameState) (excludedNodeId : Option Nat) : Bool :=
  match s.nodes.find? (fun n => n.type == .CORE) with
  | none => false
  | some core =>
    let nodesToCheck := s.nodes.filter
      (fun n => n.type != .CORE && decide (some n.id ≠ excludedNodeId))
    if nodesToCheck.length = 0 then true
    else
      match bfsLoop s.nodes excludedNodeId (bfsFuel s.nodes) [core.id] [core.id] with
      | none => false
      | some visited => nodesToCheck.all (fun n => visited.contains n.id)

/-- The method `createConnection(fromNode, toNode)`. -/
def createConnection (s : GameState) (fromNode toNode : Node) : Outcome × GameState :=
  if Connection.exists fromNode toNode s.connections then
    (Outcome.failure "Connexion déjà existante", s)
  else
    (Outcome.ok,
      { s with
        connections := s.connections ++ [Connection.create fromNode toNode]
        nodes := updateNode (updateNode s.nodes fromNode.id (fun n => n.connectTo toNode.id))
          toNode.id (fun n => n.connectTo fromNode.id) })

/-- The method `deleteNode(node)`. -/
def deleteNode (s : GameState) (node : Node) : Outcome × GameState :=
  if node.type = .CORE then
    (Outcome.failure "Impossible de supprimer le Core", s)
  else if !s.isNetworkConnected (some node.id) then
    (Outcome.failure "Suppression impossible : déconnecterait le réseau", s)
  else
    let s1 : GameState := { s with
      connections := s.connections.filter
        (fun conn => conn.fromNode != node.id && conn.toNode != node.id) }
    let s2 : GameState := { s1 with nodes := s1.nodes.map (fun n => n.disconnectFrom node.id) }
    (Outcome.ok, { s2 with nodes := s2.nodes.filter (fun n => n.id != node.id) })

/-- The method `calculatePrestigeReward()`. -/
def calculatePrestigeReward (s : GameState) : ℤ :=
  if s.data < PRESTIGE_THRESHOLD then 0 else ⌊s.data / 1000⌋

/-- The two statements `const core = this.nodes.find(n => n.type === 'CORE');
this.nodes = [core];` shared by `softReboot` and `prestige`.  Without a CORE the
source stores `[undefined]`; the model stores the empty list. -/
def keepCore (nodes : List Node) : List Node :=
  (nodes.find? (fun n => n.type == .CORE)).toList

/-- The method `prestige()`. -/
def prestige (s : GameState) : Outcome × GameState :=
  if s.data < PRESTIGE_THRESHOLD then
    (Outcome.failure "Pas assez de Data pour le Prestige", s)
  else
    let fragmentsGained := s.calculatePrestigeReward
    let s1 := { s with
      consciousnessFragments := s.consciousnessFragments + fragmentsGained
      prestigeCount := s.prestigeCount + 1 }
    let s2 := { s1 with data := INITIAL_DATA, integrity := INITIAL_INTEGRITY }
    (⟨true, some ("+" ++ toString fragmentsGained ++ " Fragments de Conscience"), none,
        some fragmentsGained⟩,
      { s2 with nodes := keepCore s2.nodes, connections := [] })

/-- The method `unlockModule(moduleName, cost)`. -/
def unlockModule (s : GameState) (moduleName : String) (cost : ℚ) : Outcome × GameState :=
  if s.consciousnessFragments < cost then
    (Outcome.failure "Pas assez de Fragments", s)
  else if s.unlockedModules.contains moduleName then
    (Outcome.failure "Module déjà débloqué", s)
  else
    (Outcome.ok,
      { s with
        consciousnessFragments := s.consciousnessFragments - cost
        unlockedModules := s.unlockedModules ++ [moduleName] })

/-- The method `softReboot()`, without the console message. -/
def softReboot (s : GameState) : GameState :=
  let s1 := { s with data := INITIAL_DATA, integrity := INITIAL_INTEGRITY }
  { s1 with nodes := keepCore s1.nodes, connections := [] }

/-- The callback that `checkCrash` runs itself, or hands to the crash dialog. -/
def crashReboot (s : GameState) : GameState :=
  { s.softReboot with isPaused := false, crashTriggered := false }

/-- The method `checkCrash()`; `windowGame` tells whether `window.game` is set,
in which case the reboot is left to the callback of the crash dialog. -/
def checkCrash (windowGame : Bool) (s : GameState) : GameState :=
  if s.integrity ≤ 0 ∧ s.crashTriggered = false then
    let s1 := { s with crashTriggered := true }
    let s2 := { s1 with isPaused := true }
    if windowGame then s2 else s2.crashReboot
  else s

/-- One round of the `forEach` of `collectData`, on the nodes already seen, the
`data` pool and `totalDataGenerated`. -/
def collectStep (acc : List Node × ℚ × ℚ) (node : Node) : List Node × ℚ × ℚ :=
  if 0 < node.dataStored then
    let r := node.extractData
    (acc.1 ++ [r.2], acc.2.1 + r.1, acc.2.2 + r.1)
  else (acc.1 ++ [node], acc.2.1, acc.2.2)

/-- The method `collectData()`. -/
def collectData (s : GameState) : GameState :=
  let acc := s.nodes.foldl collectStep ([], s.data, s.totalDataGenerated)
  { s with nodes := acc.1, data := acc.2.1, totalDataGenerated := acc.2.2 }

/-- The method `updateBandwidthUsage()`. -/
def updateBandwidthUsage (s : GameState) : GameState :=
  let used := s.nodes.foldl (fun sum node =>
    sum + node.config.bandwidthCost * node.calculateBandwidthReduction s.nodes) 0
  let s1 := { s with bandwidthUsed := used, bandwidth := INITIAL_BANDWIDTH }
  if s1.unlockedModules.contains "FRACTAL_ROUTING" then
    { s1 with bandwidth := s1.bandwidth * (23 / 20) }
  else s1

/-- The method `updateIntegrity(deltaTime)`. -/
def updateIntegrity (s : GameState) (deltaTime : ℚ) : GameState :=
  let s1 :=
    if s.bandwidth < s.bandwidthUsed then
      let overload := (s.bandwidthUsed - s.bandwidth) / s.bandwidth
      { s with integrity := s.integrity - overload * 5 * (deltaTime / 1000) }
    else s
  let s2 :=
    if s1.unlockedModules.contains "SELF_HEALING" then
      { s1 with integrity := s1.integrity + 1 * (deltaTime / 1000) }
    else s1
  { s2 with integrity := min (max s2.integrity 0) 100 }

/-- One round of the `forEach` over the connections in `update`, on the
connections already updated, the node list and `totalDataLost`: the connection
is updated on the node list left by the previous ones, and its losses are
counted. -/
def updateConnectionStep (sqrt : ℚ → ℚ) (deltaTime bandwidth : ℚ)
    (acc : List Connection × List Node × ℚ) (connection : Connection) :
    List Connection × List Node × ℚ :=
  let r := connection.update sqrt deltaTime bandwidth acc.2.1
  let lost :=
    if 0 < r.1.losses then acc.2.2 + r.1.flowRate * r.1.losses * (deltaTime / 1000)
    else acc.2.2
  (acc.1 ++ [r.1], r.2, lost)

/-- The `forEach` over the connections in `update`. -/
def updateConnections (sqrt : ℚ → ℚ) (s : GameState) (deltaTime : ℚ) : GameState :=
  let acc := s.connections.foldl (updateConnectionStep sqrt deltaTime s.bandwidth)
    ([], s.nodes, s.totalDataLost)
  { s with connections := acc.1, nodes := acc.2.1, totalDataLost := acc.2.2 }

/-- One round of the inner `forEach` of `load` that recreates the connections:
the neighbour identifier `targetId` of `node`. -/
def rebuildStep (nodes : List Node) (node : Node) (connections : List Connection)
    (targetId : Nat) : List Connection :=
  match nodes.find? (fun n => n.id == targetId) with
  | some targetNode =>
    if Connection.exists node targetNode connections then connections
    else connections ++ [Connection.create node targetNode]
  | none => connections

/-- The statements of `load` that recreate the connections from the neighbour
lists of the restored nodes (`this.connections = []` and the two nested
`forEach`). -/
def rebuildConnections (nodes : List Node) : List Connection :=
  nodes.foldl (fun connections node =>
    node.connections.foldl (rebuildStep nodes node) connections) []

/-- The statements of `update(deltaTime)` that come before the call of
`checkCrash`, for a game that is not paused.  `Node.update` reads of the other
nodes only `isActive` and `config`, which it does not change, so the `forEach`
over the nodes is a map. -/
def updateBeforeCrashCheck (sqrt : ℚ → ℚ) (s : GameState) (deltaTime : ℚ) : GameState :=
  let s1 := { s with gameTime := s.gameTime + deltaTime }
  let s2 := { s1 with nodes := s1.nodes.map (fun n => n.update deltaTime s1.nodes) }
  let s3 := updateConnections sqrt s2 deltaTime
  let s4 := s3.collectData
  let s5 := s4.updateBandwidthUsage
  s5.updateIntegrity deltaTime

/-- The method `update(deltaTime)`; `generateConsciousness` does nothing. -/
def update (sqrt : ℚ → ℚ) (windowGame : Bool) (s : GameState) (deltaTime : ℚ) : GameState :=
  if s.isPaused then s
  else (s.updateBeforeCrashCheck sqrt deltaTime).checkCrash windowGame

end GameState

/-! ## Example states -/

/-- A fresh game whose `data` was raised to 100. -/
def richStart : GameState := { GameState.create 0 with data := 100 }

/-- The game `richStart` after a ROUTER was placed 100 units to the right of the
CORE. -/
def coreRouter : GameState := (richStart.addNode .ROUTER 700 400).2

/-- A game with the data of the prestige threshold. -/
def thresholdStart : GameState := { GameState.create 0 with data := 1000 }

/-- The chain CORE - PROCESSOR - ROUTER: in `richStart` a PROCESSOR was placed 150
units to the right of the CORE and a ROUTER 150 units further, out of reach of
the CORE. -/
def chain : GameState :=
  ((richStart.addNode .PROCESSOR 750 400).2.addNode .ROUTER 900 400).2

/-- The PROCESSOR of `chain`. -/
def chainProcessor : Node :=
  { id := 1, type := .PROCESSOR, x := 750, y := 400, dataStored := 0, dataRate := 6,
    isActive := true, connections := [0, 2] }

/-- The ROUTER of `chain`. -/
def chainRouter : Node :=
  { id := 2, type := .ROUTER, x := 900, y := 400, dataStored := 0, dataRate := 0,
    isActive := true, connections := [1] }

/-- The CORE of `chain`. -/
def chainCore : Node :=
  { id := 0, type := .CORE, x := 600, y := 400, dataStored := 0, dataRate := 2,
    isActive := true, connections := [1] }

/-- A PROCESSOR that holds one unit of data, 100 units to the left of
`flowTarget`. -/
def flowSource : Node :=
  { id := 0, type := .PROCESSOR, x := 0, y := 0, dataStored := 1, dataRate := 6,
    isActive := true, connections := [1] }

/-- A CORE that holds no data, 100 units to the right of `flowSource`. -/
def flowTarget : Node :=
  { id := 1, type := .CORE, x := 100, y := 0, dataStored := 0, dataRate := 2,
    isActive := true, connections := [0] }

/-- The connection from `flowSource` to `flowTarget`. -/
def flowLink : Connection := Connection.create flowSource flowTarget

/-- A game whose network asks for more bandwidth than the 100 units there are: the
CORE and nine AMPLIFIER nodes of 12 units each, not linked to anything. -/
def overloaded : GameState :=
  { GameState.create 0 with
    nodes := (GameState.create 0).nodes ++
      (List.range 9).map (fun i => Node.create (i + 1) .AMPLIFIER (100 * (i : ℚ)) 0)
    nextId := 10 }

/-! ## Predicates of the specification -/

/-- The part of a node that no method changes: identifier, type and position. -/
def Node.ident (n : Node) : Nat × NodeType × ℚ × ℚ := (n.id, n.type, n.x, n.y)

/-- The discipline of the identifier counter `Node.nextId`: the nodes of the graph
have pairwise different identifiers, all below the counter, and the endpoints of
the connections are below the counter. -/
def IdsFresh (s : GameState) : Prop :=
  (s.nodes.map (fun n => n.id)).Nodup ∧ (∀ n ∈ s.nodes, n.id < s.nextId) ∧
    ∀ c ∈ s.connections, c.fromNode < s.nextId ∧ c.toNode < s.nextId

/-- An existing node that `addNode(type, x, y)` may link to the new node: within
200 units of `(x, y)` and forming a hub pair with the new type. -/
def Eligible (type : NodeType) (x y : ℚ) (n : Node) : Prop :=
  distSq x y n ≤ 40000 ∧
    (type = .CORE ∨ type = .PROCESSOR ∨ n.type = .CORE ∨ n.type = .PROCESSOR)

instance (type : NodeType) (x y : ℚ) (n : Node) : Decidable (Eligible type x y n) := by
  unfold Eligible
  infer_instance

/-- One step of the search of `isNetworkConnected`: `b` is an entry, other than
the excluded identifier, of the neighbour list of the node found for `a`. -/
def ListEdge (nodes : List Node) (excludedNodeId : Option Nat) (a b : Nat) : Prop :=
  ∃ node, nodes.find? (fun n => n.id == a) = some node ∧ b ∈ node.connections ∧
    excludedNodeId ≠ some b

/-- Every node that is neither a CORE nor the excluded one is reached from the
first CORE along the neighbour lists, without entering the excluded node. -/
def ListConnected (s : GameState) (excludedNodeId : Option Nat) : Prop :=
  ∃ core, s.nodes.find? (fun n => n.type == .CORE) = some core ∧
    ∀ n ∈ s.nodes, n.type ≠ .CORE → some n.id ≠ excludedNodeId →
      Relation.ReflTransGen (ListEdge s.nodes excludedNodeId) core.id n.id

/-- The identifiers `a` and `b` are the two ends of a connection of the
collection. -/
def Joined (connections : List Connection) (a b : Nat) : Prop :=
  ∃ c ∈ connections, (c.fromNode = a ∧ c.toNode = b) ∨ (c.fromNode = b ∧ c.toNode = a)

/-- The connections `c` and `d` join the same unordered pair of identifiers. -/
def SamePair (c d : Connection) : Prop :=
  (c.fromNode = d.fromNode ∧ c.toNode = d.toNode) ∨
    (c.fromNode = d.toNode ∧ c.toNode = d.fromNode)

instance (c d : Connection) : Decidable (SamePair c d) := by
  unfold SamePair
  infer_instance

/-- Every node that is not a CORE is reached from the first CORE along the
connections of the collection. -/
def ConnectedToCore (nodes : List Node) (connections : List Connection) : Prop :=
  ∃ core, nodes.find? (fun n => n.type == .CORE) = some core ∧
    ∀ n ∈ nodes, n.type ≠ .CORE →
      Relation.ReflTransGen (Joined connections) core.id n.id

instance (connections : List Connection) (a b : Nat) : Decidable (Joined connections a b) := by
  unfold Joined
  infer_instance

/-- The neighbour lists agree with the connection collection: the ends of every
connection are nodes of the graph, every entry `b` of the neighbour list of a
node `a` of the graph is joined to `a` by a connection, and every connection
with an end at `a` has its other end in the neighbour list of `a`. -/
def NeighboursAgree (s : GameState) : Prop :=
  (∀ c ∈ s.connections, (∃ n ∈ s.nodes, n.id = c.fromNode) ∧ (∃ n ∈ s.nodes, n.id = c.toNode)) ∧
    ∀ a ∈ s.nodes,
      (∀ b ∈ a.connections, Joined s.connections a.id b) ∧
      (∀ c ∈ s.connections, (c.fromNode = a.id → c.toNode ∈ a.connections) ∧
        (c.toNode = a.id → c.fromNode ∈ a.connections))

instance (s : GameState) : Decidable (NeighboursAgree s) := by
  unfold NeighboursAgree
  infer_instance

/-- The states of a game started by `new GameState()` when `Node.nextId` was
`id0`, after any sequence of ticks and commands.  `createConnection` and
`deleteNode` receive node objects of the graph; a tick runs with or without a
crash dialog, whose callback is `crashReboot`. -/
inductive Reachable (id0 : Nat) : GameState → Prop
  | create : Reachable id0 (GameState.create id0)
  | update (sqrt : ℚ → ℚ) (windowGame : Bool) (deltaTime : ℚ) {s : GameState} :
      Reachable id0 s → Reachable id0 (s.update sqrt windowGame deltaTime)
  | addNode (type : NodeType) (x y : ℚ) {s : GameState} :
      Reachable id0 s → Reachable id0 (s.addNode type x y).2
  | createConnection (a b : Node) {s : GameState} :
      Reachable id0 s → a ∈ s.nodes → b ∈ s.nodes → Reachable id0 (s.createConnection a b).2
  | deleteNode (n : Node) {s : GameState} :
      Reachable id0 s → n ∈ s.nodes → Reachable id0 (s.deleteNode n).2
  | prestige {s : GameState} : Reachable id0 s → Reachable id0 s.prestige.2
  | unlockModule (moduleName : String) (cost : ℚ) {s : GameState} :
      Reachable id0 s → Reachable id0 (s.unlockModule moduleName cost).2
  | crashReboot {s : GameState} : Reachable id0 s → Reachable id0 s.crashReboot

/-- The invariant behind the single CORE: the identifiers of the nodes are
pairwise different and below the counter, and the only node of type CORE is the
one made by the constructor, with identifier `id0` at the centre of the canvas. -/
def CoreInv (id0 : Nat) (s : GameState) : Prop :=
  ((s.nodes.map Node.ident).map (fun p => p.1)).Nodup ∧
    (∀ p ∈ s.nodes.map Node.ident, p.1 < s.nextId) ∧
    (s.nodes.map Node.ident).filter (fun p => p.2.1 == .CORE) = [(id0, .CORE, 600, 400)]

instance distanceOrderTotal : IsTotal (Node × ℚ) (fun a b => a.2 ≤ b.2) :=
  ⟨fun a b => le_total a.2 b.2⟩

instance distanceOrderTrans : IsTrans (Node × ℚ) (fun a b => a.2 ≤ b.2) :=
  ⟨fun _ _ _ h1 h2 => le_trans h1 h2⟩

/-- The share of the neighbour identifier in the sum of loss reductions of the
specification: the `lossReduction` value of the neighbour when it is present in
`allNodes`, active and has an effect of that type, and 0 otherwise. -/
def lossReductionOf (allNodes : List Node) (neighborId : Nat) : ℚ :=
  match allNodes.find? (fun m => m.id == neighborId) with
  | none => 0
  | some neighbor =>
    if neighbor.isActive then
      match (NODE_TYPES neighbor.type).neighborEffect with
      | some (.lossReduction value) => value
      | _ => 0
    else 0

/-- The factor of the neighbour identifier in the product of data boosts of the
specification: the value of a `dataBoost` effect, the `dataBoost` field of a
`hybrid` effect, and 1 for a neighbour that is absent, inactive or has another
effect or none. -/
def dataBoostOf (allNodes : List Node) (neighborId : Nat) : ℚ :=
  match allNodes.find? (fun m => m.id == neighborId) with
  | none => 1
  | some neighbor =>
    if neighbor.isActive then
      match (NODE_TYPES neighbor.type).neighborEffect with
      | some (.dataBoost value) => value
      | some (.hybrid _ dataBoost) => dataBoost
      | _ => 1
    else 1

/-- The factor of the neighbour identifier in the product of bandwidth reductions
of the specification: the value of a `bandwidthReduction` effect, the
`bandwidthReduction` field of a `hybrid` effect, and 1 otherwise. -/
def bandwidthReductionOf (allNodes : List Node) (neighborId : Nat) : ℚ :=
  match allNodes.find? (fun m => m.id == neighborId) with
  | none => 1
  | some neighbor =>
    if neighbor.isActive then
      match (NODE_TYPES neighbor.type).neighborEffect with
      | some (.bandwidthReduction value) => value
      | some (.hybrid bandwidthReduction _) => bandwidthReduction
      | _ => 1
    else 1

/-- The five placement checks in the wording of the specification, in which a
ROUTER is refused when an existing ROUTER is at distance `<= 200`. -/
def PlacementChecksAsStated (s : GameState) (type : NodeType) (x y : ℚ) : Prop :=
  s.getNodeCost type ≤ s.data ∧
  ((NODE_TYPES type).unique = false ∨ ∀ n ∈ s.nodes, n.type ≠ type) ∧
  (∀ n ∈ s.nodes, 2500 ≤ distSq x y n) ∧
  (type = .ROUTER → ∀ n ∈ s.nodes, n.type = .ROUTER → ¬ distSq x y n ≤ 40000) ∧
  (∃ n ∈ s.nodes, distSq x y n ≤ 40000 ∧
    (type = .CORE ∨ type = .PROCESSOR ∨ n.type = .CORE ∨ n.type = .PROCESSOR))

/-! ## NetworkRenderer.js and utils.js -/

/-- The value `dx * dx + dy * dy` of which `calculateDistance(pointA, pointB)` takes
the square root, with `dx = pointB.x - pointA.x` and `dy = pointB.y - pointA.y`. -/
def calculateDistanceSq (pointAx pointAy pointBx pointBy : ℚ) : ℚ :=
  (pointBx - pointAx) * (pointBx - pointAx) + (pointBy - pointAy) * (pointBy - pointAy)

/-- The function `canNodesConnect(typeA, typeB)` of `utils.js`. -/
def canNodesConnect (typeA typeB : NodeType) : Bool := isHubNode typeA || isHubNode typeB

/-- The method `checkCanPlace(gameState, x, y)` of `NetworkRenderer`;
`selectedNodeType` is the field of that name of the game state, which is set
whenever the preview is drawn. -/
def checkCanPlace (gameState : GameState) (selectedNodeType : NodeType) (x y : ℚ) : Bool :=
  let type := selectedNodeType
  let minDistanceOk := gameState.nodes.all
    (fun node => decide (2500 ≤ calculateDistanceSq x y node.x node.y))
  if !minDistanceOk then false
  else
    let canConnect := gameState.nodes.any (fun node =>
      if 40000 < calculateDistanceSq x y node.x node.y then false
      else canNodesConnect type node.type)
    if !canConnect then false
    else if type = .ROUTER ∧ gameState.nodes.any (fun n =>
        if n.type ≠ .ROUTER then false
        else decide (calculateDistanceSq x y n.x n.y < 40000)) = true then false
    else true

/-! ## Invariants of the wiring -/

/-- The part of a node that a tick leaves as it is: everything but the stored
data. -/
def Node.shape (n : Node) : Nat × NodeType × ℚ × ℚ × ℚ × Bool × List Nat :=
  (n.id, n.type, n.x, n.y, n.dataRate, n.isActive, n.connections)

/-- The two ends of a connection. -/
def Connection.ends (c : Connection) : Nat × Nat := (c.fromNode, c.toNode)

/-- What every command keeps of the agreement between the neighbour lists and the
connection collection: the two ends of a connection are nodes of the graph that
list each other; an entry of a neighbour list that is the identifier of another
node of the graph is joined to its owner by a connection; and every entry of a
neighbour list is below the identifier counter. -/
def Wired (s : GameState) : Prop :=
  (∀ c ∈ s.connections, ∃ a ∈ s.nodes, ∃ b ∈ s.nodes, a.id = c.fromNode ∧ b.id = c.toNode ∧
    c.toNode ∈ a.connections ∧ c.fromNode ∈ b.connections) ∧
  (∀ a ∈ s.nodes, ∀ b ∈ a.connections, b ≠ a.id → (∃ n ∈ s.nodes, n.id = b) →
    Joined s.connections a.id b) ∧
  (∀ a ∈ s.nodes, ∀ b ∈ a.connections, b < s.nextId)

/-- No two connections of the list join the same unordered pair of identifiers. -/
def NoParallel (connections : List Connection) : Prop :=
  connections.Pairwise (fun c d => ¬ SamePair c d)

instance (connections : List Connection) : Decidable (NoParallel connections) := by
  unfold NoParallel
  infer_instance

/-! ## More example states -/

/-- A fresh game in which the 10 units of data were spent on a PROCESSOR, placed
100 units to the right of the CORE. -/
def onePlaced : GameState := ((GameState.create 0).addNode .PROCESSOR 700 400).2

/-- A fresh game after 45 seconds of ticks (here one tick), in which the CORE
earned 90 units of data. -/
def earned : GameState := (GameState.create 0).update (fun q => q) false 45000

/-- The game `earned` of a player who has been through a prestige and bought nine
levels of the permanent upgrade `nodeDiscount`. -/
def discounted : GameState :=
  { earned with prestigeCount := 1, permanentUpgrades := ⟨0, 0, 0, 9⟩ }

/-- The game `earned` after four PROCESSORs were placed around the CORE, at 100
units to its right, to its left, below and above. -/
def crowded : GameState :=
  ((((earned.addNode .PROCESSOR 700 400).2.addNode .PROCESSOR 500 400).2.addNode
    .PROCESSOR 600 500).2.addNode .PROCESSOR 600 300).2

/-- Some node of the list with identifier `a` has `b` in its neighbour list. -/
def Lists (nodes : List Node) (a b : Nat) : Prop :=
  ∃ m ∈ nodes, m.id = a ∧ b ∈ m.connections

/-- Every node of the graph is reached from the identifier `id0` along the
neighbour lists. -/
def CoreReach (id0 : Nat) (s : GameState) : Prop :=
  ∀ n ∈ s.nodes, Relation.ReflTransGen (Lists s.nodes) id0 n.id

/-- What the two `connectTo` calls that follow a new connection between the
identifiers `a` and `b` make of the node `m`. -/
def linkEnds (a b : Nat) (m : Node) : Node :=
  let m1 := if m.id = a then m.connectTo b else m
  if m1.id = b then m1.connectTo a else m1

/-! ## Saving and loading (GameState.js) -/

/-- The object `saveData` that `save()` writes, as `load()` finds it after
`JSON.parse`.  The model covers the saves that carry the numeric fields and
`permanentUpgrades`; the array `nodes`, the array `unlockedModules` and
`lastSaveTime` may be missing. -/
structure SaveData where
  data : ℚ
  bandwidth : ℚ
  integrity : ℚ
  consciousnessFragments : ℚ
  totalDataGenerated : ℚ
  totalDataLost : ℚ
  prestigeCount : Nat
  nodes : Option (List SavedNode)
  unlockedModules : Option (List String)
  permanentUpgrades : PermanentUpgrades
  gameTime : ℚ
  lastSaveTime : Option ℚ
  deriving DecidableEq

/-- What `localStorage.getItem('datastream_save')` returns: nothing, a text on
which `JSON.parse` throws, or a text that parses to a save object. -/
inductive StoredSave where
  | absent
  | unparsable
  | parsed (data : SaveData)
  deriving DecidableEq

/-- The result object `{ success, message?, offlineGains?, offlineMinutes? }` of
`load`. -/
structure LoadOutcome where
  success : Bool
  message : Option String
  offlineGains : Option ℤ
  offlineMinutes : Option ℤ
  deriving DecidableEq

/-- The object that `save()` stores when `Date.now()` is `now`. -/
def GameState.save (s : GameState) (now : ℚ) : SaveData :=
  { data := s.data, bandwidth := s.bandwidth, integrity := s.integrity,
    consciousnessFragments := s.consciousnessFragments,
    totalDataGenerated := s.totalDataGenerated, totalDataLost := s.totalDataLost,
    prestigeCount := s.prestigeCount, nodes := some (s.nodes.map (fun n => n.serialize)),
    unlockedModules := some s.unlockedModules, permanentUpgrades := s.permanentUpgrades,
    gameTime := s.gameTime, lastSaveTime := some now }

/-- The method `calculateOfflineGains(offlineTime)`, in double precision: every
sum, product and quotient of the method is rounded before `Math.floor` (the bonus
that `calculateDataBonus` returns is taken as it is). -/
def GameState.calculateOfflineGains (s : GameState) (offlineTime : ℚ) : ℤ :=
  let productionRate := s.nodes.foldl (fun rate node =>
    if 0 < node.dataRate then
      roundDouble (rate + roundDouble (node.dataRate * node.calculateDataBonus s.nodes))
    else rate) 0
  let baseOfflineRate : ℚ := 1 / 4
  let upgradeBonus : ℚ := roundDouble (s.permanentUpgrades.offlineRate * roundDouble (1 / 20))
  let offlineRate := roundDouble (baseOfflineRate + upgradeBonus)
  let offlineGains :=
    roundDouble (roundDouble (productionRate * roundDouble (offlineTime / 1000)) * offlineRate)
  ⌊offlineGains⌋

/-- One round of `data.nodes.map(nodeData => Node.deserialize(nodeData))`, on the
nodes restored so far and the counter `Node.nextId`. -/
def GameState.deserializeStep (acc : List Node × Nat) (nodeData : SavedNode) : List Node × Nat :=
  let r := Node.deserialize acc.2 nodeData
  (acc.1 ++ [r.1], r.2)

/-- The method `load()`, when `localStorage` holds `stored` and `Date.now()` is
`now`.  `JSON.parse` throws before any assignment; a save without the array
`nodes` makes `data.nodes.map` throw after the assignments that precede it; the
`catch` turns both into the failure result. -/
def GameState.load (s : GameState) (stored : StoredSave) (now : ℚ) : LoadOutcome × GameState :=
  match stored with
  | .absent => (⟨false, some "Aucune sauvegarde trouvée", none, none⟩, s)
  | .unparsable => (⟨false, some "Erreur de chargement", none, none⟩, s)
  | .parsed data =>
    let s1 : GameState := { s with
      data := data.data
      bandwidth := data.bandwidth
      integrity := data.integrity
      consciousnessFragments := data.consciousnessFragments
      totalDataGenerated := data.totalDataGenerated
      totalDataLost := data.totalDataLost
      prestigeCount := data.prestigeCount
      unlockedModules := data.unlockedModules.getD []
      permanentUpgrades := data.permanentUpgrades
      gameTime := data.gameTime }
    match data.nodes with
    | none => (⟨false, some "Erreur de chargement", none, none⟩, s1)
    | some savedNodes =>
      let r := savedNodes.foldl GameState.deserializeStep ([], s1.nextId)
      let s2 : GameState := { s1 with nodes := r.1, nextId := r.2 }
      let s3 : GameState := { s2 with nodes := s2.nodes.map s2.applyUpgradesToNode }
      let s4 : GameState := { s3 with connections := GameState.rebuildConnections s3.nodes }
      let lastSave := match data.lastSaveTime with
        | some t => if t = 0 then now else t
        | none => now
      let offlineTime := now - lastSave
      if 60000 < offlineTime then
        let offlineGains := s4.calculateOfflineGains offlineTime
        (⟨true, none, some offlineGains, some ⌊offlineTime / 60000⌋⟩,
          { s4 with data := s4.data + offlineGains })
      else (⟨true, none, none, none⟩, s4)

/-- A save object without the array `nodes`. -/
def saveWithoutNodes : SaveData :=
  { data := 5, bandwidth := 100, integrity := 100, consciousnessFragments := 0,
    totalDataGenerated := 0, totalDataLost := 0, prestigeCount := 0, nodes := none,
    unlockedModules := some [], permanentUpgrades := ⟨0, 0, 0, 0⟩, gameTime := 0,
    lastSaveTime := some 1 }

/-- A square root for the example states: exact on the squared distances 10000
and 40000, and a rational approximation on 20000. -/
def sqrtApprox (q : ℚ) : ℚ :=
  if q = 10000 then 100 else if q = 40000 then 200 else if q = 20000 then 1414 / 10 else q

/-- The game `onePlaced` after 150 seconds of ticks (here one tick), which bring
the data above the prestige threshold, and a prestige. -/
def afterPrestige : GameState := ((onePlaced.update sqrtApprox false 150000).prestige).2

/-- The game `earned` after three PROCESSORs were placed around the CORE, 150
seconds of ticks and a prestige: the CORE is alone again. -/
def secondRun : GameState :=
  (((((earned.addNode .PROCESSOR 700 400).2.addNode .PROCESSOR 500 400).2.addNode
    .PROCESSOR 600 500).2.update sqrtApprox false 150000).prestige).2

/-- A new session that starts from the save of `secondRun`: the page is loaded
again, so `Node.nextId` starts at 0, `new GameState()` is followed by `load()`,
and after 45 seconds of ticks a PROCESSOR is placed 100 units to the right of the
CORE and a second one 200 units further, out of reach of the CORE. -/
def reloaded : GameState :=
  (((((GameState.create 0).load (.parsed (secondRun.save 1)) 1).2.update sqrtApprox false
    45000).addNode .PROCESSOR 700 400).2.addNode .PROCESSOR 900 400).2

end DataStream

/-! # Theorems -/

namespace DataStream

open GameState

/-! ## Placement: the checks of `addNode` -/

theorem canPlace_iff (s : GameState) (x y : ℚ) :
    s.canPlace x y = true ↔ ∀ n ∈ s.nodes, 2500 ≤ distSq x y n := by
  simp [GameState.canPlace]

theorem tooCloseToRouter_iff (s : GameState) (x y : ℚ) :
    s.tooCloseToRouter x y = true ↔
      ∃ n ∈ s.nodes, n.type = .ROUTER ∧ distSq x y n < 40000 := by
  simp only [GameState.tooCloseToRouter, List.any_eq_true]
  constructor
  · rintro ⟨n, hn, h⟩
    by_cases ht : n.type = .ROUTER
    · exact ⟨n, hn, ht, by simpa [ht] using h⟩
    · simp [ht] at h
  · rintro ⟨n, hn, ht, h⟩
    exact ⟨n, hn, by simpa [ht] using h⟩

theorem canConnectToAny_iff (s : GameState) (type : NodeType) (x y : ℚ) :
    s.canConnectToAny type x y = true ↔
      ∃ n ∈ s.nodes, distSq x y n ≤ 40000 ∧
        (type = .PROCESSOR ∨ type = .CORE ∨ n.type = .PROCESSOR ∨ n.type = .CORE) := by
  simp only [GameState.canConnectToAny, List.any_eq_true]
  constructor
  · rintro ⟨n, hn, h⟩
    by_cases hd : 40000 < distSq x y n
    · simp [hd] at h
    · refine ⟨n, hn, not_lt.mp hd, ?_⟩
      simpa [hd, or_assoc] using h
  · rintro ⟨n, hn, hd, h⟩
    refine ⟨n, hn, ?_⟩
    simpa [not_lt.mpr hd, or_assoc] using h

theorem unique_check_iff (s : GameState) (type : NodeType) :
    ((NODE_TYPES type).unique && s.nodes.any (fun n => n.type == type)) = false ↔
      ((NODE_TYPES type).unique = false ∨ ∀ n ∈ s.nodes, n.type ≠ type) := by
  cases h : (NODE_TYPES type).unique <;> simp

end DataStream

namespace DataStream

open GameState

/-- The successful branch of `addNode`. -/
theorem addNode_success_iff (s : GameState) (type : NodeType) (x y : ℚ) :
    (s.addNode type x y).1.success = true ↔
      (¬ s.data < s.getNodeCost type) ∧
      ((NODE_TYPES type).unique && s.nodes.any (fun n => n.type == type)) = false ∧
      s.canPlace x y = true ∧
      ¬ (type = .ROUTER ∧ s.tooCloseToRouter x y = true) ∧
      s.canConnectToAny type x y = true := by
  unfold GameState.addNode
  simp only []
  split_ifs with h1 h2 h3 h4 h5 <;> simp_all [Outcome.failure]

end DataStream

namespace DataStream

open GameState

/-- C1 (the code at the failing input): in the game `coreRouter` a second ROUTER
placed at `(500, 400)`, at distance exactly 200 from the ROUTER and 100 from the
CORE, is accepted by `addNode`, although the fourth check as stated (no ROUTER at
distance `<= 200`, the range in which two nodes are connected) fails. -/
theorem addNode_checks_as_stated_counterexample :
    (coreRouter.addNode .ROUTER 500 400).1.success = true ∧
      ¬ PlacementChecksAsStated coreRouter .ROUTER 500 400 := by
  unfold PlacementChecksAsStated
  decide!

/-- The success condition of `addNode(type, x, y)` as it is coded: it succeeds if
and only if (1) `data` is at least the discounted cost, (2) the type is not unique-flagged or no node of the
type exists, (3) every node is at distance at least 50, (4) if the type is
ROUTER, every existing ROUTER is at distance at least 200 (none is at distance
strictly below 200), and (5) some node at distance at most 200 forms a hub pair
with the new type. -/
theorem addNode_success_iff_checks (s : GameState) (type : NodeType) (x y : ℚ) :
    (s.addNode type x y).1.success = true ↔
      (s.getNodeCost type ≤ s.data ∧
      ((NODE_TYPES type).unique = false ∨ ∀ n ∈ s.nodes, n.type ≠ type) ∧
      (∀ n ∈ s.nodes, 2500 ≤ distSq x y n) ∧
      (type = .ROUTER → ∀ n ∈ s.nodes, n.type = .ROUTER → 40000 ≤ distSq x y n) ∧
      (∃ n ∈ s.nodes, distSq x y n ≤ 40000 ∧
        (type = .CORE ∨ type = .PROCESSOR ∨ n.type = .CORE ∨ n.type = .PROCESSOR))) := by
  rw [addNode_success_iff, unique_check_iff, canPlace_iff, tooCloseToRouter_iff,
    canConnectToAny_iff, not_lt]
  refine and_congr Iff.rfl (and_congr Iff.rfl (and_congr Iff.rfl (and_congr ?_ ?_)))
  · constructor
    · intro h ht n hn hr
      by_contra hlt
      exact h ⟨ht, n, hn, hr, not_le.mp hlt⟩
    · rintro h ⟨ht, n, hn, hr, hlt⟩
      exact absurd (h ht n hn hr) (not_le.mpr hlt)
  · constructor
    · rintro ⟨n, hn, hd, h⟩
      exact ⟨n, hn, hd, by tauto⟩
    · rintro ⟨n, hn, hd, h⟩
      exact ⟨n, hn, hd, by tauto⟩

end DataStream

namespace DataStream

open GameState

/-- C7: whenever `addNode` fails it returns a result with `success = false` and a
non-empty message, and the state (data, nodes, connections, neighbour lists, the
id counter and every other field) is the one before the call. -/
theorem addNode_failure_unchanged (s : GameState) (type : NodeType) (x y : ℚ)
    (h : (s.addNode type x y).1.success = false) :
    (∃ msg, (s.addNode type x y).1.message = some msg ∧ msg ≠ "") ∧
      (s.addNode type x y).2 = s := by
  unfold GameState.addNode at h ⊢
  simp only [] at h ⊢
  split_ifs at h ⊢ with h1 h2 h3 h4 h5
  · exact ⟨⟨_, rfl, by decide⟩, rfl⟩
  · exact ⟨⟨_, rfl, by decide⟩, rfl⟩
  · exact ⟨⟨_, rfl, by decide⟩, rfl⟩
  · exact ⟨⟨_, rfl, by decide⟩, rfl⟩
  · exact ⟨⟨_, rfl, by decide⟩, rfl⟩

/-- C7, witness: on a fresh game (data 10) a ROUTER (cost 15) is refused. -/
theorem addNode_failure_unchanged_witness :
    ((GameState.create 0).addNode .ROUTER 700 400).1.success = false ∧
      ((∃ msg, ((GameState.create 0).addNode .ROUTER 700 400).1.message = some msg ∧ msg ≠ "") ∧
        ((GameState.create 0).addNode .ROUTER 700 400).2 = GameState.create 0) :=
  ⟨by decide!, addNode_failure_unchanged (GameState.create 0) .ROUTER 700 400 (by decide!)⟩

/-- C8 (the code at the failing input): in the game `coreRouter` (data 85, ROUTER
cost 15) the point `(900, 400)` is at distance at least 50 from every node and
within 200 units (exactly 200) of the ROUTER, yet `addNode` does not answer with
the router-adjacency message: it answers with the reachability message. -/
theorem addNode_router_message_counterexample :
    (coreRouter.getNodeCost .ROUTER ≤ coreRouter.data ∧
      (∀ n ∈ coreRouter.nodes, 2500 ≤ distSq 900 400 n) ∧
      (∃ n ∈ coreRouter.nodes, n.type = .ROUTER ∧ distSq 900 400 n ≤ 40000)) ∧
      (coreRouter.addNode .ROUTER 900 400).1 =
        Outcome.failure "Trop loin : aucune connexion possible !" ∧
      (coreRouter.addNode .ROUTER 900 400).1 ≠
        Outcome.failure "Routers ne peuvent pas être connectés entre eux" := by
  decide!

/-- The order of the checks of `addNode` as it is coded: cost, uniqueness, minimum
separation, router adjacency, reachability, with the message of the first check
that fails, the router-adjacency check being strict (an existing ROUTER at
distance below 200).  In particular a ROUTER that the player
can pay, placed at distance at least 50 from every node and at distance strictly
below 200 from an existing ROUTER, is refused with the router-adjacency
message. -/
theorem addNode_first_failing_check (s : GameState) (type : NodeType) (x y : ℚ) :
    (s.data < s.getNodeCost type →
      (s.addNode type x y).1 = Outcome.failure "Pas assez de Data") ∧
    (s.getNodeCost type ≤ s.data →
      ((NODE_TYPES type).unique = true ∧ ∃ n ∈ s.nodes, n.type = type) →
      (s.addNode type x y).1 = Outcome.failure "Nœud unique déjà présent") ∧
    (s.getNodeCost type ≤ s.data →
      ((NODE_TYPES type).unique = false ∨ ∀ n ∈ s.nodes, n.type ≠ type) →
      (∃ n ∈ s.nodes, distSq x y n < 2500) →
      (s.addNode type x y).1 = Outcome.failure "Trop proche d\x27un autre nœud") ∧
    (s.getNodeCost type ≤ s.data →
      ((NODE_TYPES type).unique = false ∨ ∀ n ∈ s.nodes, n.type ≠ type) →
      (∀ n ∈ s.nodes, 2500 ≤ distSq x y n) →
      (type = .ROUTER ∧ ∃ n ∈ s.nodes, n.type = .ROUTER ∧ distSq x y n < 40000) →
      (s.addNode type x y).1 =
        Outcome.failure "Routers ne peuvent pas être connectés entre eux") ∧
    (s.getNodeCost type ≤ s.data →
      ((NODE_TYPES type).unique = false ∨ ∀ n ∈ s.nodes, n.type ≠ type) →
      (∀ n ∈ s.nodes, 2500 ≤ distSq x y n) →
      (type = .ROUTER → ∀ n ∈ s.nodes, n.type = .ROUTER → 40000 ≤ distSq x y n) →
      (¬ ∃ n ∈ s.nodes, distSq x y n ≤ 40000 ∧
        (type = .PROCESSOR ∨ type = .CORE ∨ n.type = .PROCESSOR ∨ n.type = .CORE)) →
      (s.addNode type x y).1 = Outcome.failure "Trop loin : aucune connexion possible !") ∧
    (s.getNodeCost .ROUTER ≤ s.data →
      (∀ n ∈ s.nodes, 2500 ≤ distSq x y n) →
      (∃ n ∈ s.nodes, n.type = .ROUTER ∧ distSq x y n < 40000) →
      (s.addNode .ROUTER x y).1 =
        Outcome.failure "Routers ne peuvent pas être connectés entre eux") := by
  have key : ∀ t : NodeType,
      s.getNodeCost t ≤ s.data →
      ((NODE_TYPES t).unique = false ∨ ∀ n ∈ s.nodes, n.type ≠ t) →
      (∀ n ∈ s.nodes, 2500 ≤ distSq x y n) →
      (t = .ROUTER ∧ ∃ n ∈ s.nodes, n.type = .ROUTER ∧ distSq x y n < 40000) →
      (s.addNode t x y).1 =
        Outcome.failure "Routers ne peuvent pas être connectés entre eux" := by
    intro t hc hu hs hr
    obtain ⟨rfl, hr⟩ := hr
    have hr : NodeType.ROUTER = NodeType.ROUTER ∧
        ∃ n ∈ s.nodes, n.type = .ROUTER ∧ distSq x y n < 40000 := ⟨rfl, hr⟩
    have h1 : ¬ s.data < s.getNodeCost .ROUTER := not_lt.mpr hc
    have h2 := (unique_check_iff s .ROUTER).mpr hu
    have h3 := (canPlace_iff s x y).mpr hs
    have h4 : s.tooCloseToRouter x y = true := (tooCloseToRouter_iff s x y).mpr hr.2
    unfold GameState.addNode
    simp [h1, h2, h3, h4]
  refine ⟨?_, ?_, ?_, ?_, ?_, ?_⟩
  · intro h1
    unfold GameState.addNode
    simp [h1]
  · intro hc hu
    have h1 : ¬ s.data < s.getNodeCost type := not_lt.mpr hc
    have h2 : ((NODE_TYPES type).unique && s.nodes.any (fun n => n.type == type)) = true := by
      simpa using hu
    unfold GameState.addNode
    simp only [h1, h2, if_true, if_false]
  · intro hc hu hs
    have h1 : ¬ s.data < s.getNodeCost type := not_lt.mpr hc
    have h2 := (unique_check_iff s type).mpr hu
    have h3 : s.canPlace x y = false := by
      rw [← Bool.not_eq_true, canPlace_iff]
      push_neg
      exact hs
    unfold GameState.addNode
    simp [h1, h2, h3]
  · exact key type
  · intro hc hu hs hr hn
    have h1 : ¬ s.data < s.getNodeCost type := not_lt.mpr hc
    have h2 := (unique_check_iff s type).mpr hu
    have h3 := (canPlace_iff s x y).mpr hs
    have h4 : ¬ (type = .ROUTER ∧ s.tooCloseToRouter x y = true) := by
      rw [tooCloseToRouter_iff]
      rintro ⟨ht, n, hn', hr', hlt⟩
      exact absurd (hr ht n hn' hr') (not_le.mpr hlt)
    have h5 : s.canConnectToAny type x y = false := by
      rw [← Bool.not_eq_true, canConnectToAny_iff]
      exact hn
    unfold GameState.addNode
    simp [h1, h2, h3, h4, h5]
  · intro hc hs hr
    exact key .ROUTER hc (Or.inl rfl) hs ⟨rfl, hr⟩

end DataStream

namespace DataStream

open GameState

/-! ## Prestige -/

/-- C10: with `data >= 1000`, `prestige()` succeeds, grants `floor(data/1000) >= 1`
fragments, increments `prestigeCount`, sets `data` to 10 and `integrity` to 100,
keeps of the nodes only the CORE, empties the connections and leaves
`permanentUpgrades` and `unlockedModules` as they are; with `data < 1000` it fails
and the state is the one before the call. -/
theorem prestige_spec (s : GameState) :
    (1000 ≤ s.data →
      s.prestige.1.success = true ∧
      s.prestige.1.fragmentsGained = some ⌊s.data / 1000⌋ ∧
      1 ≤ ⌊s.data / 1000⌋ ∧
      s.prestige.2.consciousnessFragments = s.consciousnessFragments + ⌊s.data / 1000⌋ ∧
      s.prestige.2.prestigeCount = s.prestigeCount + 1 ∧
      s.prestige.2.data = 10 ∧
      s.prestige.2.integrity = 100 ∧
      (∀ core, s.nodes.find? (fun n => n.type == .CORE) = some core →
        s.prestige.2.nodes = [core]) ∧
      s.prestige.2.connections = [] ∧
      s.prestige.2.permanentUpgrades = s.permanentUpgrades ∧
      s.prestige.2.unlockedModules = s.unlockedModules) ∧
    (s.data < 1000 → s.prestige.1.success = false ∧ s.prestige.2 = s) := by
  constructor
  · intro h
    have h1 : ¬ s.data < PRESTIGE_THRESHOLD := by
      simpa [PRESTIGE_THRESHOLD] using h
    have h2 : (1 : ℤ) ≤ ⌊s.data / 1000⌋ := by
      rw [Int.le_floor]
      rw [le_div_iff₀ (by norm_num)]
      simpa using h
    have h3 : s.calculatePrestigeReward = ⌊s.data / 1000⌋ := by
      simp [GameState.calculatePrestigeReward, h1]
    unfold GameState.prestige
    rw [if_neg h1]
    refine ⟨rfl, ?_, h2, ?_, rfl, rfl, rfl, ?_, rfl, rfl, rfl⟩
    · simp only [h3]
    · simp only [h3]
    · intro core hc
      simp only [keepCore, hc, Option.toList]
  · intro h
    have h1 : s.data < PRESTIGE_THRESHOLD := by
      simpa [PRESTIGE_THRESHOLD] using h
    unfold GameState.prestige
    simp [h1, Outcome.failure]

/-- C10, witness: with `data = 1000` the prestige grants exactly one fragment. -/
theorem prestige_spec_witness :
    (1000 ≤ thresholdStart.data ∧ thresholdStart.prestige.1.success = true) ∧
      thresholdStart.prestige.1.fragmentsGained = some 1 ∧
      thresholdStart.prestige.2.consciousnessFragments = 1 :=
  ⟨⟨by decide!, ((prestige_spec thresholdStart).1 (by decide!)).1⟩, by decide!, by decide!⟩

end DataStream

namespace DataStream

open GameState

/-! ## What the methods leave of a node: identifier, type and position -/

theorem Node.ident_update (n : Node) (deltaTime : ℚ) (allNodes : List Node) :
    (n.update deltaTime allNodes).ident = n.ident := by
  unfold Node.update
  split_ifs <;> rfl

theorem Node.ident_connectTo (n : Node) (i : Nat) : (n.connectTo i).ident = n.ident := by
  unfold Node.connectTo
  split_ifs <;> rfl

theorem map_ident_updateNode (nodes : List Node) (id : Nat) (f : Node → Node)
    (hf : ∀ n, (f n).ident = n.ident) :
    (updateNode nodes id f).map Node.ident = nodes.map Node.ident := by
  unfold updateNode
  rw [List.map_map]
  apply List.map_congr_left
  intro n _
  simp only [Function.comp]
  split_ifs
  · exact hf n
  · rfl

theorem Connection.map_ident_update (sqrt : ℚ → ℚ) (conn : Connection) (deltaTime bandwidth : ℚ)
    (allNodes : List Node) :
    (conn.update sqrt deltaTime bandwidth allNodes).2.map Node.ident =
      allNodes.map Node.ident := by
  unfold Connection.update
  split
  · simp only []
    split_ifs
    · simp only []
      refine (map_ident_updateNode _ _ _ ?_).trans (map_ident_updateNode _ _ _ ?_) <;>
        intro m <;> rfl
    · rfl
  · rfl

theorem foldl_updateConnectionStep_ident (sqrt : ℚ → ℚ) (deltaTime bandwidth : ℚ)
    (conns : List Connection) (acc : List Connection × List Node × ℚ) :
    (conns.foldl (updateConnectionStep sqrt deltaTime bandwidth) acc).2.1.map Node.ident =
      acc.2.1.map Node.ident := by
  induction conns generalizing acc with
  | nil => rfl
  | cons c cs ih =>
    rw [List.foldl_cons, ih]
    exact Connection.map_ident_update sqrt c deltaTime bandwidth acc.2.1

theorem map_ident_updateConnections (sqrt : ℚ → ℚ) (s : GameState) (deltaTime : ℚ) :
    (updateConnections sqrt s deltaTime).nodes.map Node.ident = s.nodes.map Node.ident :=
  foldl_updateConnectionStep_ident sqrt deltaTime s.bandwidth s.connections _

theorem foldl_collectStep_ident (nodes : List Node) (acc : List Node × ℚ × ℚ) :
    (nodes.foldl collectStep acc).1.map Node.ident =
      acc.1.map Node.ident ++ nodes.map Node.ident := by
  induction nodes generalizing acc with
  | nil => simp
  | cons n ns ih =>
    rw [List.foldl_cons, ih]
    unfold GameState.collectStep
    split_ifs <;> simp [Node.extractData, Node.ident]

theorem map_ident_collectData (s : GameState) :
    s.collectData.nodes.map Node.ident = s.nodes.map Node.ident := by
  have := foldl_collectStep_ident s.nodes ([], s.data, s.totalDataGenerated)
  simpa [GameState.collectData] using this

end DataStream

namespace DataStream

open GameState

/-! ## The tick and the crash transition -/

/-- The fields that the statements of `update` before `checkCrash` leave as they
are, and the identifiers, types and positions of the nodes. -/
theorem updateBeforeCrashCheck_frame (sqrt : ℚ → ℚ) (s : GameState) (deltaTime : ℚ) :
    (s.updateBeforeCrashCheck sqrt deltaTime).nodes.map Node.ident = s.nodes.map Node.ident ∧
    (s.updateBeforeCrashCheck sqrt deltaTime).unlockedModules = s.unlockedModules ∧
    (s.updateBeforeCrashCheck sqrt deltaTime).crashTriggered = s.crashTriggered ∧
    (s.updateBeforeCrashCheck sqrt deltaTime).isPaused = s.isPaused ∧
    (s.updateBeforeCrashCheck sqrt deltaTime).nextId = s.nextId ∧
    (s.updateBeforeCrashCheck sqrt deltaTime).consciousnessFragments =
      s.consciousnessFragments ∧
    (s.updateBeforeCrashCheck sqrt deltaTime).prestigeCount = s.prestigeCount ∧
    (s.updateBeforeCrashCheck sqrt deltaTime).permanentUpgrades = s.permanentUpgrades := by
  have hn : (s.updateBeforeCrashCheck sqrt deltaTime).nodes.map Node.ident =
      s.nodes.map Node.ident := by
    have h1 : (s.updateBeforeCrashCheck sqrt deltaTime).nodes =
        (updateConnections sqrt { s with
          gameTime := s.gameTime + deltaTime
          nodes := s.nodes.map (fun n => n.update deltaTime s.nodes) } deltaTime).collectData.nodes := by
      unfold GameState.updateBeforeCrashCheck GameState.updateIntegrity
        GameState.updateBandwidthUsage
      simp only []
      split_ifs <;> rfl
    rw [h1, map_ident_collectData, map_ident_updateConnections]
    simp only [List.map_map]
    apply List.map_congr_left
    intro n _
    exact Node.ident_update n deltaTime s.nodes
  refine ⟨hn, ?_⟩
  unfold GameState.updateBeforeCrashCheck GameState.updateIntegrity
    GameState.updateBandwidthUsage
  simp only []
  split_ifs <;> exact ⟨rfl, rfl, rfl, rfl, rfl, rfl, rfl⟩

end DataStream

namespace DataStream

open GameState

theorem bandwidthUsed_of_cores (nodes allNodes : List Node)
    (h : ∀ n ∈ nodes, n.type = .CORE) :
    nodes.foldl (fun sum node =>
      sum + node.config.bandwidthCost * node.calculateBandwidthReduction allNodes) 0 = 0 := by
  induction nodes with
  | nil => rfl
  | cons n ns ih =>
    have hn : n.config.bandwidthCost = 0 := by
      simp [Node.config, h n (List.mem_cons_self n ns), NODE_TYPES]
    rw [List.foldl_cons, hn]
    simpa using ih (fun m hm => h m (List.mem_cons_of_mem n hm))

theorem updateBandwidthUsage_of_cores (s : GameState) (h : ∀ n ∈ s.nodes, n.type = .CORE) :
    s.updateBandwidthUsage.bandwidthUsed = 0 ∧ 100 ≤ s.updateBandwidthUsage.bandwidth ∧
      s.updateBandwidthUsage.integrity = s.integrity := by
  unfold GameState.updateBandwidthUsage
  simp only []
  rw [bandwidthUsed_of_cores s.nodes s.nodes h]
  split_ifs
  · refine ⟨rfl, ?_, rfl⟩
    simp only [INITIAL_BANDWIDTH]
    norm_num
  · refine ⟨rfl, ?_, rfl⟩
    simp only [INITIAL_BANDWIDTH]
    norm_num

theorem updateIntegrity_full (s : GameState) (deltaTime : ℚ) (hb : s.bandwidthUsed ≤ s.bandwidth)
    (hi : s.integrity = 100) (hdt : 0 ≤ deltaTime) :
    (s.updateIntegrity deltaTime).integrity = 100 := by
  have hdt' : 0 ≤ deltaTime / 1000 := div_nonneg hdt (by norm_num)
  unfold GameState.updateIntegrity
  simp only [not_lt.mpr hb, if_false]
  split_ifs
  · simp only [hi]
    rw [max_eq_left (by linarith), min_eq_right (by linarith)]
  · simp only [hi]
    norm_num

theorem integrity_after_tick_of_cores (sqrt : ℚ → ℚ) (s : GameState) (deltaTime : ℚ)
    (hcore : ∀ n ∈ s.nodes, n.type = .CORE) (hi : s.integrity = 100) (hdt : 0 ≤ deltaTime) :
    (s.updateBeforeCrashCheck sqrt deltaTime).integrity = 100 := by
  unfold GameState.updateBeforeCrashCheck
  simp only []
  set s4 := (updateConnections sqrt { s with
    gameTime := s.gameTime + deltaTime
    nodes := s.nodes.map (fun n => n.update deltaTime s.nodes) } deltaTime).collectData with hs4
  have hident : s4.nodes.map Node.ident = s.nodes.map Node.ident := by
    rw [hs4, map_ident_collectData, map_ident_updateConnections]
    simp only [List.map_map]
    apply List.map_congr_left
    intro n _
    exact Node.ident_update n deltaTime s.nodes
  have hcore4 : ∀ n ∈ s4.nodes, n.type = .CORE := by
    intro n hn
    have : n.ident ∈ s.nodes.map Node.ident := by
      rw [← hident]
      exact List.mem_map_of_mem _ hn
    obtain ⟨m, hm, hmn⟩ := List.mem_map.mp this
    have ht : m.type = n.type := congrArg (fun p => p.2.1) hmn
    rw [← ht]
    exact hcore m hm
  have hi4 : s4.integrity = 100 := hi
  obtain ⟨h0, hb, hsame⟩ := updateBandwidthUsage_of_cores s4 hcore4
  apply updateIntegrity_full _ _ _ _ hdt
  · rw [h0]
    linarith
  · rw [hsame, hi4]

end DataStream

namespace DataStream

open GameState

theorem keepCore_type (nodes : List Node) : ∀ n ∈ keepCore nodes, n.type = .CORE := by
  intro n hn
  unfold GameState.keepCore at hn
  cases hf : nodes.find? (fun n => n.type == .CORE) with
  | none => simp [hf] at hn
  | some c =>
    simp only [hf, Option.toList, List.mem_singleton] at hn
    have := List.find?_some hf
    rw [hn]
    simpa using this

theorem keepCore_of_find (nodes : List Node) (core : Node)
    (h : nodes.find? (fun n => n.type == .CORE) = some core) : keepCore nodes = [core] := by
  simp only [GameState.keepCore, h, Option.toList]

theorem checkCrash_idle (s : GameState) (w : Bool)
    (h : ¬ (s.integrity ≤ 0 ∧ s.crashTriggered = false)) : s.checkCrash w = s := by
  unfold GameState.checkCrash
  rw [if_neg h]

/-- C9: `checkCrash` starts the crash transition exactly when `integrity <= 0` and
the latch `crashTriggered` is not set (otherwise it changes nothing).  With a
crash dialog the latch and the pause are set and the reboot is left to the
dialog.  Without one the reboot completes at once: the nodes are the CORE alone,
the connections are empty, `data` is 10 and `integrity` 100, the fragments, the
prestige counter, the upgrades and the modules are as before, the latch is
cleared and the game is not paused; in the tick that follows (`deltaTime >= 0`)
the integrity before the check is 100, so that `checkCrash` changes nothing. -/
theorem checkCrash_spec (s : GameState) :
    (¬ (s.integrity ≤ 0 ∧ s.crashTriggered = false) → ∀ w, s.checkCrash w = s) ∧
    ((s.integrity ≤ 0 ∧ s.crashTriggered = false) →
      s.checkCrash true = { s with crashTriggered := true, isPaused := true } ∧
      (∀ core, s.nodes.find? (fun n => n.type == .CORE) = some core →
        (s.checkCrash false).nodes = [core]) ∧
      (s.checkCrash false).connections = [] ∧
      (s.checkCrash false).data = 10 ∧
      (s.checkCrash false).integrity = 100 ∧
      (s.checkCrash false).consciousnessFragments = s.consciousnessFragments ∧
      (s.checkCrash false).prestigeCount = s.prestigeCount ∧
      (s.checkCrash false).permanentUpgrades = s.permanentUpgrades ∧
      (s.checkCrash false).unlockedModules = s.unlockedModules ∧
      (s.checkCrash false).crashTriggered = false ∧
      (s.checkCrash false).isPaused = false ∧
      ∀ (sqrt : ℚ → ℚ) (deltaTime : ℚ), 0 ≤ deltaTime →
        ((s.checkCrash false).updateBeforeCrashCheck sqrt deltaTime).integrity = 100 ∧
        ((s.checkCrash false).updateBeforeCrashCheck sqrt deltaTime).crashTriggered = false ∧
        ∀ w, (s.checkCrash false).update sqrt w deltaTime =
          (s.checkCrash false).updateBeforeCrashCheck sqrt deltaTime) := by
  constructor
  · intro h w
    exact checkCrash_idle s w h
  · intro h
    have hT : s.checkCrash true = { s with crashTriggered := true, isPaused := true } := by
      unfold GameState.checkCrash
      rw [if_pos h]
      rfl
    have hF : s.checkCrash false =
        GameState.crashReboot { s with crashTriggered := true, isPaused := true } := by
      unfold GameState.checkCrash
      rw [if_pos h]
      rfl
    refine ⟨hT, ?_, ?_, ?_, ?_, ?_, ?_, ?_, ?_, ?_, ?_, ?_⟩
    · intro core hc
      rw [hF]
      exact keepCore_of_find s.nodes core hc
    · rw [hF]; rfl
    · rw [hF]; rfl
    · rw [hF]; rfl
    · rw [hF]; rfl
    · rw [hF]; rfl
    · rw [hF]; rfl
    · rw [hF]; rfl
    · rw [hF]; rfl
    · rw [hF]; rfl
    · intro sqrt deltaTime hdt
      have hi : ((s.checkCrash false).updateBeforeCrashCheck sqrt deltaTime).integrity = 100 := by
        apply integrity_after_tick_of_cores _ _ _ _ _ hdt
        · rw [hF]
          exact keepCore_type s.nodes
        · rw [hF]; rfl
      have hp : (s.checkCrash false).isPaused = false := by rw [hF]; rfl
      refine ⟨hi, ?_, ?_⟩
      · rw [(updateBeforeCrashCheck_frame sqrt _ deltaTime).2.2.1, hF]
        rfl
      · intro w
        unfold GameState.update
        rw [hp]
        simp only [Bool.false_eq_true, if_false]
        apply checkCrash_idle
        rw [hi]
        norm_num

/-- C9, witness: a fresh game whose integrity fell to 0 reboots to the CORE
alone. -/
theorem checkCrash_spec_witness :
    ({ GameState.create 0 with integrity := 0 } : GameState).integrity ≤ 0 ∧
      (({ GameState.create 0 with integrity := 0 } : GameState).checkCrash false).integrity
        = 100 :=
  ⟨by decide!, ((checkCrash_spec { GameState.create 0 with integrity := 0 }).2
    ⟨by decide!, by decide!⟩).2.2.2.2.1⟩

end DataStream

namespace DataStream

open GameState

/-! ## The effect of a successful `addNode` -/

theorem map_updateNode_of_invariant {β : Type} (g : Node → β) (nodes : List Node) (id : Nat)
    (f : Node → Node) (hf : ∀ n, g (f n) = g n) :
    (updateNode nodes id f).map g = nodes.map g := by
  unfold updateNode
  rw [List.map_map]
  apply List.map_congr_left
  intro n _
  simp only [Function.comp]
  split_ifs
  · exact hf n
  · rfl

theorem connectStep_frame {β : Type} (g : Node → β) (hg : ∀ n i, g (Node.connectTo n i) = g n)
    (newNode : Node) (s : GameState) (item : Node × ℚ) :
    (connectStep newNode s item).nodes.map g = s.nodes.map g ∧
      (connectStep newNode s item).data = s.data ∧
      (connectStep newNode s item).nextId = s.nextId := by
  unfold GameState.connectStep
  split_ifs
  · exact ⟨rfl, rfl, rfl⟩
  · refine ⟨?_, rfl, rfl⟩
    exact (map_updateNode_of_invariant g _ _ _ (fun n => hg n _)).trans
      (map_updateNode_of_invariant g _ _ _ (fun n => hg n _))

theorem foldl_connectStep_frame {β : Type} (g : Node → β)
    (hg : ∀ n i, g (Node.connectTo n i) = g n) (newNode : Node) (items : List (Node × ℚ))
    (s : GameState) :
    (items.foldl (connectStep newNode) s).nodes.map g = s.nodes.map g ∧
      (items.foldl (connectStep newNode) s).data = s.data ∧
      (items.foldl (connectStep newNode) s).nextId = s.nextId := by
  induction items generalizing s with
  | nil => exact ⟨rfl, rfl, rfl⟩
  | cons a as ih =>
    rw [List.foldl_cons]
    obtain ⟨h1, h2, h3⟩ := ih (connectStep newNode s a)
    obtain ⟨k1, k2, k3⟩ := connectStep_frame g hg newNode s a
    exact ⟨h1.trans k1, h2.trans k2, h3.trans k3⟩

/-- The state returned by a successful `addNode`. -/
theorem addNode_success_state (s : GameState) (type : NodeType) (x y : ℚ)
    (h : (s.addNode type x y).1.success = true) :
    (s.addNode type x y).2 =
      GameState.autoConnectNode
        { s with
          nodes := s.nodes ++ [s.applyUpgradesToNode (Node.create s.nextId type x y)]
          nextId := s.nextId + 1
          data := s.data - s.getNodeCost type }
        (s.applyUpgradesToNode (Node.create s.nextId type x y)) := by
  unfold GameState.addNode at h ⊢
  simp only [] at h ⊢
  split_ifs at h ⊢
  all_goals first | rfl | simp [Outcome.failure] at h

theorem applyUpgradesToNode_fields (s : GameState) (n : Node) :
    (s.applyUpgradesToNode n).id = n.id ∧ (s.applyUpgradesToNode n).type = n.type ∧
      (s.applyUpgradesToNode n).x = n.x ∧ (s.applyUpgradesToNode n).y = n.y ∧
      (s.applyUpgradesToNode n).dataStored = n.dataStored ∧
      (s.applyUpgradesToNode n).connections = n.connections := by
  unfold GameState.applyUpgradesToNode
  split_ifs <;> exact ⟨rfl, rfl, rfl, rfl, rfl, rfl⟩

/-- Without a discount the cost of a node is its base cost. -/
theorem getNodeCost_of_no_discount (s : GameState) (type : NodeType)
    (h : s.permanentUpgrades.nodeDiscount = 0) : s.getNodeCost type = (NODE_TYPES type).cost := by
  unfold GameState.getNodeCost
  rw [h]
  cases type <;> decide!

/-- At every level of `nodeDiscount` that can be bought (0 to 10) the doubles of
`getNodeCost` give the ceiling of `baseCost * (1 - 0.05 * level)`, but for the
OPTIMIZER at level 9. -/
theorem getNodeCost_eq_ceil (s : GameState) (type : NodeType)
    (hmax : s.permanentUpgrades.nodeDiscount ≤ 10)
    (hne : ¬ (s.permanentUpgrades.nodeDiscount = 9 ∧ type = .OPTIMIZER)) :
    s.getNodeCost type =
      ((⌈(NODE_TYPES type).cost * (1 - (1 / 20 : ℚ) * s.permanentUpgrades.nodeDiscount)⌉ : ℤ) :
        ℚ) := by
  unfold GameState.getNodeCost
  generalize s.permanentUpgrades.nodeDiscount = level at hmax hne
  interval_cases level <;> cases type <;> first | decide! | exact absurd ⟨rfl, rfl⟩ hne

/-- The effect of a successful `addNode(type, x, y)`: it lowers `data` by exactly
`getNodeCost(type)`, which is `ceil(baseCost * (1 - 0.05 * nodeDiscount))` at
every level up to 10 but for the OPTIMIZER at level 9, appends exactly one node,
with the given type and position, stored data 0 and the identifier `Node.nextId`,
and leaves identifier, type, position and stored data of the existing nodes as
they are; the new identifier differs from the identifier of every node already
present, all of which are below the counter. -/
theorem addNode_success_effect (s : GameState) (type : NodeType) (x y : ℚ)
    (h : (s.addNode type x y).1.success = true) :
    (s.permanentUpgrades.nodeDiscount ≤ 10 →
      ¬ (s.permanentUpgrades.nodeDiscount = 9 ∧ type = .OPTIMIZER) →
      s.getNodeCost type =
        ((⌈(NODE_TYPES type).cost *
          (1 - (1 / 20 : ℚ) * s.permanentUpgrades.nodeDiscount)⌉ : ℤ) : ℚ)) ∧
    (s.addNode type x y).2.data = s.data - s.getNodeCost type ∧
    (s.addNode type x y).2.nodes.map (fun n => (n.id, n.type, n.x, n.y, n.dataStored)) =
      s.nodes.map (fun n => (n.id, n.type, n.x, n.y, n.dataStored)) ++
        [(s.nextId, type, x, y, 0)] ∧
    ((∀ n ∈ s.nodes, n.id < s.nextId) → ∀ n ∈ s.nodes, n.id ≠ s.nextId) := by
  refine ⟨getNodeCost_eq_ceil s type, ?_, ?_, ?_⟩
  · rw [addNode_success_state s type x y h]
    exact (foldl_connectStep_frame Node.ident Node.ident_connectTo _ _ _).2.1
  · rw [addNode_success_state s type x y h]
    have hg : ∀ (n : Node) (i : Nat),
        (fun n : Node => (n.id, n.type, n.x, n.y, n.dataStored)) (n.connectTo i) =
          (fun n : Node => (n.id, n.type, n.x, n.y, n.dataStored)) n := by
      intro n i
      unfold Node.connectTo
      split_ifs <;> rfl
    rw [GameState.autoConnectNode, (foldl_connectStep_frame _ hg _ _ _).1]
    obtain ⟨h1, h2, h3, h4, h5, _⟩ :=
      applyUpgradesToNode_fields s (Node.create s.nextId type x y)
    simp only [List.map_append, List.map_cons, List.map_nil]
    rw [h1, h2, h3, h4, h5]
    rfl
  · intro hlt n hn
    exact Nat.ne_of_lt (hlt n hn)

end DataStream

namespace DataStream

open GameState

theorem nearbyNodes_eq (s : GameState) (node : Node) (type : NodeType) (x y : ℚ)
    (hfresh : ∀ n ∈ s.nodes, n.id < s.nextId)
    (hid : node.id = s.nextId) (ht : node.type = type) (hx : node.x = x) (hy : node.y = y)
    (s2 : GameState) (hs2 : s2.nodes = s.nodes ++ [node]) :
    s2.nearbyNodes node =
      ((((s.nodes.filter (fun n => decide (Eligible type x y n))).map
        (fun n => (n, distSq x y n))).insertionSort (fun a b => a.2 ≤ b.2)).take 3) := by
  unfold GameState.nearbyNodes
  rw [hs2, List.filter_append]
  have h1 : s.nodes.filter (fun n => n.id != node.id) = s.nodes := by
    rw [List.filter_eq_self]
    intro n hn
    have := hfresh n hn
    simp only [bne_iff_ne, ne_eq, hid]
    omega
  have h2 : [node].filter (fun n => n.id != node.id) = [] := by simp
  rw [h1, h2, List.append_nil, List.filter_map, List.filter_filter]
  have h3 : (fun n : Node => (n, node.distanceSqTo n)) = fun n => (n, distSq x y n) := by
    funext n
    simp only [Node.distanceSqTo, hx, hy, distSq]
  rw [h3]
  congr 3
  apply List.filter_congr
  intro n _
  rw [Bool.eq_iff_iff]
  simp only [Function.comp, GameState.canConnectTo, Eligible, ht, Bool.and_eq_true,
    Bool.or_eq_true, decide_eq_true_eq, beq_iff_eq]
  tauto
end DataStream

namespace DataStream

open GameState

theorem Connection.exists_append_single (a b : Node) (cs : List Connection) (c : Connection) :
    Connection.exists a b (cs ++ [c]) =
      (Connection.exists a b cs ||
        ((c.fromNode == a.id && c.toNode == b.id) || (c.fromNode == b.id && c.toNode == a.id))) := by
  simp [Connection.exists]

theorem connectStep_of_not_exists (newNode : Node) (s : GameState) (item : Node × ℚ)
    (h : Connection.exists newNode item.1 s.connections = false) :
    connectStep newNode s item =
      { s with
        connections := s.connections ++ [Connection.create newNode item.1]
        nodes := updateNode (updateNode s.nodes newNode.id (fun n => n.connectTo item.1.id))
          item.1.id (fun n => n.connectTo newNode.id) } := by
  unfold GameState.connectStep
  rw [h]
  rfl

theorem foldl_connectStep_fresh (newNode : Node) (items : List (Node × ℚ)) (s : GameState)
    (hnd : (items.map (fun it => it.1.id)).Nodup)
    (hne : ∀ it ∈ items, it.1.id ≠ newNode.id)
    (hex : ∀ it ∈ items, Connection.exists newNode it.1 s.connections = false) :
    (items.foldl (connectStep newNode) s).connections =
        s.connections ++ items.map (fun it => Connection.create newNode it.1) ∧
      (items.foldl (connectStep newNode) s).nodes =
        items.foldl (fun ns it =>
          updateNode (updateNode ns newNode.id (fun n => n.connectTo it.1.id))
            it.1.id (fun n => n.connectTo newNode.id)) s.nodes := by
  induction items generalizing s with
  | nil => simp
  | cons a as ih =>
    rw [List.map_cons, List.nodup_cons] at hnd
    rw [List.foldl_cons, List.foldl_cons,
      connectStep_of_not_exists newNode s a (hex a (List.mem_cons_self a as))]
    have hex' : ∀ it ∈ as, Connection.exists newNode it.1
        (s.connections ++ [Connection.create newNode a.1]) = false := by
      intro it hit
      rw [Connection.exists_append_single, hex it (List.mem_cons_of_mem a hit)]
      have h1 : a.1.id ≠ it.1.id := by
        intro heq
        apply hnd.1
        rw [heq]
        exact List.mem_map_of_mem (fun it => it.1.id) hit
      have h2 : newNode.id ≠ it.1.id := fun heq => hne it (List.mem_cons_of_mem a hit) heq.symm
      simp [Connection.create, h1, h2]
    obtain ⟨h1, h2⟩ := ih
      { s with
        connections := s.connections ++ [Connection.create newNode a.1]
        nodes := updateNode (updateNode s.nodes newNode.id (fun n => n.connectTo a.1.id))
          a.1.id (fun n => n.connectTo newNode.id) }
      hnd.2 (fun it hit => hne it (List.mem_cons_of_mem a hit)) hex'
    constructor
    · rw [h1]
      simp
    · rw [h2]

theorem mem_updateNode (nodes : List Node) (id : Nat) (f : Node → Node) (m : Node)
    (hm : m ∈ nodes) : (if m.id = id then f m else m) ∈ updateNode nodes id f := by
  unfold updateNode
  exact List.mem_map_of_mem (fun n => if n.id = id then f n else n) hm

theorem Node.connectTo_id (n : Node) (i : Nat) : (n.connectTo i).id = n.id := by
  unfold Node.connectTo
  split_ifs <;> rfl

theorem Node.mem_connectTo (n : Node) (i : Nat) : i ∈ (n.connectTo i).connections := by
  unfold Node.connectTo
  split_ifs with h
  · simpa using h
  · simp

theorem Node.mem_connectTo_of_mem (n : Node) (i j : Nat) (h : j ∈ n.connections) :
    j ∈ (n.connectTo i).connections := by
  unfold Node.connectTo
  split_ifs
  · exact h
  · simp [h]

theorem Node.connectTo_of_not_mem (n : Node) (i : Nat) (h : i ∉ n.connections) :
    (n.connectTo i).connections = n.connections ++ [i] := by
  unfold Node.connectTo
  rw [if_neg (by simpa using h)]

/-- A node with the identifier survives a `connectTo` on the list. -/
theorem updateNode_connectTo_has (nodes : List Node) (id k i : Nat)
    (h : ∃ m ∈ nodes, m.id = i) :
    ∃ m ∈ updateNode nodes id (fun n => n.connectTo k), m.id = i := by
  obtain ⟨m, hm, hi⟩ := h
  refine ⟨_, mem_updateNode nodes id (fun n => n.connectTo k) m hm, ?_⟩
  split_ifs
  · rw [Node.connectTo_id, hi]
  · exact hi

theorem updateNode_connectTo_keeps (nodes : List Node) (id k i j : Nat)
    (h : ∃ m ∈ nodes, m.id = i ∧ j ∈ m.connections) :
    ∃ m ∈ updateNode nodes id (fun n => n.connectTo k), m.id = i ∧ j ∈ m.connections := by
  obtain ⟨m, hm, hi, hj⟩ := h
  refine ⟨_, mem_updateNode nodes id (fun n => n.connectTo k) m hm, ?_⟩
  split_ifs
  · exact ⟨by rw [Node.connectTo_id, hi], Node.mem_connectTo_of_mem m k j hj⟩
  · exact ⟨hi, hj⟩

theorem updateNode_connectTo_adds (nodes : List Node) (id k : Nat)
    (h : ∃ m ∈ nodes, m.id = id) :
    ∃ m ∈ updateNode nodes id (fun n => n.connectTo k), m.id = id ∧ k ∈ m.connections := by
  obtain ⟨m, hm, hi⟩ := h
  refine ⟨_, mem_updateNode nodes id (fun n => n.connectTo k) m hm, ?_⟩
  rw [if_pos hi]
  exact ⟨by rw [Node.connectTo_id, hi], Node.mem_connectTo m k⟩

end DataStream

namespace DataStream

open GameState

/-- The node list after the rounds of `autoConnectNode` that create a connection. -/
theorem foldl_links_has (newId : Nat) (items : List (Node × ℚ)) (ns : List Node) (i : Nat)
    (h : ∃ m ∈ ns, m.id = i) :
    ∃ m ∈ items.foldl (fun ns it =>
        updateNode (updateNode ns newId (fun n => n.connectTo it.1.id))
          it.1.id (fun n => n.connectTo newId)) ns, m.id = i := by
  induction items generalizing ns with
  | nil => exact h
  | cons a as ih =>
    rw [List.foldl_cons]
    exact ih _ (updateNode_connectTo_has _ _ _ _ (updateNode_connectTo_has _ _ _ _ h))

theorem foldl_links_keeps (newId : Nat) (items : List (Node × ℚ)) (ns : List Node) (i j : Nat)
    (h : ∃ m ∈ ns, m.id = i ∧ j ∈ m.connections) :
    ∃ m ∈ items.foldl (fun ns it =>
        updateNode (updateNode ns newId (fun n => n.connectTo it.1.id))
          it.1.id (fun n => n.connectTo newId)) ns, m.id = i ∧ j ∈ m.connections := by
  induction items generalizing ns with
  | nil => exact h
  | cons a as ih =>
    rw [List.foldl_cons]
    exact ih _ (updateNode_connectTo_keeps _ _ _ _ _ (updateNode_connectTo_keeps _ _ _ _ _ h))

theorem foldl_links_chosen (newId : Nat) (items : List (Node × ℚ)) (ns : List Node)
    (h : ∀ it ∈ items, ∃ m ∈ ns, m.id = it.1.id) :
    ∀ it ∈ items, ∃ m ∈ items.foldl (fun ns it =>
        updateNode (updateNode ns newId (fun n => n.connectTo it.1.id))
          it.1.id (fun n => n.connectTo newId)) ns, m.id = it.1.id ∧ newId ∈ m.connections := by
  induction items generalizing ns with
  | nil => intro it hit; cases hit
  | cons a as ih =>
    intro it hit
    rw [List.foldl_cons]
    rcases List.mem_cons.mp hit with rfl | hit'
    · apply foldl_links_keeps
      apply updateNode_connectTo_adds
      exact updateNode_connectTo_has _ _ _ _ (h it (List.mem_cons_self it as))
    · apply ih _ _ it hit'
      intro it' hit''
      exact updateNode_connectTo_has _ _ _ _
        (updateNode_connectTo_has _ _ _ _ (h it' (List.mem_cons_of_mem a hit'')))

theorem foldl_links_new (newId : Nat) (items : List (Node × ℚ)) (ns : List Node) (m : Node)
    (hm : m ∈ ns) (hid : m.id = newId)
    (hnd : (items.map (fun it => it.1.id)).Nodup)
    (hne : ∀ it ∈ items, it.1.id ≠ newId)
    (hpre : ∀ it ∈ items, it.1.id ∉ m.connections) :
    ∃ m' ∈ items.foldl (fun ns it =>
        updateNode (updateNode ns newId (fun n => n.connectTo it.1.id))
          it.1.id (fun n => n.connectTo newId)) ns,
      m'.id = newId ∧ m'.connections = m.connections ++ items.map (fun it => it.1.id) := by
  induction items generalizing ns m with
  | nil => exact ⟨m, hm, hid, by simp⟩
  | cons a as ih =>
    rw [List.map_cons, List.nodup_cons] at hnd
    rw [List.foldl_cons]
    have ha : a.1.id ≠ newId := hne a (List.mem_cons_self a as)
    have h1 : m.connectTo a.1.id ∈ updateNode ns newId (fun n => n.connectTo a.1.id) := by
      have := mem_updateNode ns newId (fun n => n.connectTo a.1.id) m hm
      rwa [if_pos hid] at this
    have h2 : m.connectTo a.1.id ∈
        updateNode (updateNode ns newId (fun n => n.connectTo a.1.id)) a.1.id
          (fun n => n.connectTo newId) := by
      have := mem_updateNode _ a.1.id (fun n => n.connectTo newId) _ h1
      rwa [if_neg (by rw [Node.connectTo_id, hid]; exact fun h => ha h.symm)] at this
    have hc : (m.connectTo a.1.id).connections = m.connections ++ [a.1.id] :=
      Node.connectTo_of_not_mem m a.1.id (hpre a (List.mem_cons_self a as))
    obtain ⟨m', hm', hid', hconn⟩ := ih _ (m.connectTo a.1.id) h2
      (by rw [Node.connectTo_id, hid]) hnd.2
      (fun it hit => hne it (List.mem_cons_of_mem a hit))
      (by
        intro it hit
        rw [hc, List.mem_append, List.mem_singleton]
        rintro (h | h)
        · exact hpre it (List.mem_cons_of_mem a hit) h
        · apply hnd.1
          rw [← h]
          exact List.mem_map_of_mem (fun it => it.1.id) hit)
    refine ⟨m', hm', hid', ?_⟩
    rw [hconn, hc]
    simp

end DataStream

namespace DataStream

open GameState

/-- What `autoConnectNode` does for the node of a successful `addNode`, in a state
that obeys the discipline of the identifier counter. -/
theorem autoConnect_after_addNode (s : GameState) (type : NodeType) (x y : ℚ) (hfresh : IdsFresh s)
    (h : (s.addNode type x y).1.success = true) :
    1 ≤ (s.nodes.filter (fun n => decide (Eligible type x y n))).length ∧
    ∃ chosen : List Node,
      chosen.Nodup ∧
      chosen.length = min 3 (s.nodes.filter (fun n => decide (Eligible type x y n))).length ∧
      (∀ c ∈ chosen, c ∈ s.nodes ∧ Eligible type x y c) ∧
      (∀ c ∈ chosen, ∀ e ∈ s.nodes, Eligible type x y e → e ∉ chosen →
        distSq x y c ≤ distSq x y e) ∧
      (s.addNode type x y).2.connections =
        s.connections ++ chosen.map (fun c => ⟨s.nextId, c.id, 0, 0, 0⟩) ∧
      (∃ new ∈ (s.addNode type x y).2.nodes,
        new.id = s.nextId ∧ new.connections = chosen.map (fun c => c.id)) ∧
      (∀ c ∈ chosen, ∃ c' ∈ (s.addNode type x y).2.nodes,
        c'.id = c.id ∧ s.nextId ∈ c'.connections) := by
  obtain ⟨hnd, hlt, hconn⟩ := hfresh
  obtain ⟨f1, f2, f3, f4, -, f6⟩ := applyUpgradesToNode_fields s (Node.create s.nextId type x y)
  have hstate := addNode_success_state s type x y h
  generalize s.applyUpgradesToNode (Node.create s.nextId type x y) = node at f1 f2 f3 f4 f6 hstate
  have hid : node.id = s.nextId := f1
  have ht : node.type = type := f2
  have hx : node.x = x := f3
  have hy : node.y = y := f4
  have hc0 : node.connections = [] := f6
  have hnear := nearbyNodes_eq s node type x y hlt hid ht hx hy
    { s with nodes := s.nodes ++ [node], nextId := s.nextId + 1,
             data := s.data - s.getNodeCost type } rfl
  rw [GameState.autoConnectNode, hnear] at hstate
  -- the candidates
  have hE : ∀ n, n ∈ s.nodes.filter (fun n => decide (Eligible type x y n)) ↔
      n ∈ s.nodes ∧ Eligible type x y n := by
    intro n
    simp [List.mem_filter]
  have hk : 1 ≤ (s.nodes.filter (fun n => decide (Eligible type x y n))).length := by
    obtain ⟨n, hn, hd, hh⟩ := (canConnectToAny_iff s type x y).mp
      ((addNode_success_iff s type x y).mp h).2.2.2.2
    exact List.length_pos_of_mem ((hE n).mpr ⟨hn, hd, by tauto⟩)
  refine ⟨hk, ?_⟩
  generalize hEdef : s.nodes.filter (fun n => decide (Eligible type x y n)) = E at hstate hE hk ⊢
  have hEsub : E.Sublist s.nodes := hEdef ▸ List.filter_sublist s.nodes
  set L := E.map (fun n => (n, distSq x y n)) with hL
  have hperm : (L.insertionSort (fun a b => a.2 ≤ b.2)).Perm L := List.perm_insertionSort _ L
  have hsorted : (L.insertionSort (fun a b => a.2 ≤ b.2)).Sorted (fun a b => a.2 ≤ b.2) :=
    List.sorted_insertionSort _ L
  generalize L.insertionSort (fun a b => a.2 ≤ b.2) = S at hstate hperm hsorted
  have hfst : L.map Prod.fst = E := by
    rw [hL, List.map_map]
    exact List.map_id E
  have hmemS : ∀ it ∈ S, it.1 ∈ E ∧ it.2 = distSq x y it.1 := by
    intro it hit
    have := hperm.subset hit
    rw [hL, List.mem_map] at this
    obtain ⟨n, hn, rfl⟩ := this
    exact ⟨hn, rfl⟩
  have hTS : (S.take 3).Sublist S := List.take_sublist 3 S
  have hmemT : ∀ it ∈ S.take 3, it.1 ∈ E ∧ it.2 = distSq x y it.1 :=
    fun it hit => hmemS it (hTS.subset hit)
  have hidsS : (S.map (fun it => it.1.id)).Nodup := by
    have h1 : (S.map (fun it => it.1.id)).Perm (L.map (fun it => it.1.id)) := hperm.map _
    rw [h1.nodup_iff]
    have h2 : L.map (fun it => it.1.id) = E.map (fun n => n.id) := by
      rw [hL, List.map_map]
      rfl
    rw [h2]
    exact (hEsub.map _).nodup hnd
  have hidsT : ((S.take 3).map (fun it => it.1.id)).Nodup := (hTS.map _).nodup hidsS
  have hneT : ∀ it ∈ S.take 3, it.1.id ≠ node.id := by
    intro it hit
    have := hlt it.1 (hEsub.subset (hmemT it hit).1)
    rw [hid]
    omega
  have hexT : ∀ it ∈ S.take 3, Connection.exists node it.1 s.connections = false := by
    intro it hit
    have h1 := hlt it.1 (hEsub.subset (hmemT it hit).1)
    unfold Connection.exists
    rw [List.any_eq_false]
    intro c hc
    have := hconn c hc
    simp only [hid, Bool.or_eq_true, Bool.and_eq_true, beq_iff_eq, not_or, not_and]
    constructor
    · intro h2; omega
    · intro _ h2; omega
  obtain ⟨hc, hn⟩ := foldl_connectStep_fresh node (S.take 3)
    { s with nodes := s.nodes ++ [node], nextId := s.nextId + 1,
             data := s.data - s.getNodeCost type } hidsT hneT hexT
  rw [← hstate] at hc hn
  refine ⟨(S.take 3).map Prod.fst, ?_, ?_, ?_, ?_, ?_, ?_, ?_⟩
  · -- distinct
    have h1 : ((S.take 3).map Prod.fst).map (fun n => n.id) =
        (S.take 3).map (fun it => it.1.id) := by
      rw [List.map_map]
      rfl
    exact List.Nodup.of_map _ (h1 ▸ hidsT)
  · rw [List.length_map, List.length_take, hperm.length_eq, hL, List.length_map]
  · intro c hcm
    obtain ⟨it, hit, rfl⟩ := List.mem_map.mp hcm
    exact (hE it.1).mp (hmemT it hit).1
  · intro c hcm e he hel hnot
    obtain ⟨it, hit, rfl⟩ := List.mem_map.mp hcm
    have heL : (e, distSq x y e) ∈ L := by
      rw [hL]
      exact List.mem_map_of_mem _ ((hE e).mpr ⟨he, hel⟩)
    have heS : (e, distSq x y e) ∈ S.take 3 ++ S.drop 3 := by
      rw [List.take_append_drop]
      exact hperm.symm.subset heL
    rcases List.mem_append.mp heS with h1 | h1
    · exact absurd (List.mem_map_of_mem Prod.fst h1) hnot
    · have hp : (S.take 3 ++ S.drop 3).Pairwise (fun a b => a.2 ≤ b.2) := by
        rw [List.take_append_drop]
        exact hsorted
      have := (List.pairwise_append.mp hp).2.2 it hit _ h1
      rw [(hmemT it hit).2] at this
      exact this
  · rw [hc, List.map_map]
    congr 1
    apply List.map_congr_left
    intro it _
    simp [Connection.create, hid]
  · obtain ⟨m', hm', hid', hconn'⟩ := foldl_links_new node.id (S.take 3) (s.nodes ++ [node]) node
      (by simp) rfl hidsT hneT (by simp [hc0])
    refine ⟨m', ?_, ?_, ?_⟩
    · rw [hn]; exact hm'
    · rw [hid', hid]
    · rw [hconn', hc0, List.nil_append, List.map_map]
      rfl
  · intro c hcm
    obtain ⟨it, hit, rfl⟩ := List.mem_map.mp hcm
    have := foldl_links_chosen node.id (S.take 3) (s.nodes ++ [node])
      (fun it' hit' => ⟨it'.1, by
        simp only [List.mem_append]
        exact Or.inl (hEsub.subset (hmemT it' hit').1), rfl⟩) it hit
    obtain ⟨m, hm, h1, h2⟩ := this
    exact ⟨m, by rw [hn]; exact hm, h1, by rw [← hid]; exact h2⟩

end DataStream

namespace DataStream

open GameState

theorem create_nodes (id0 : Nat) :
    (GameState.create id0).nodes =
      [{ id := id0, type := .CORE, x := 600, y := 400, dataStored := 0, dataRate := 2 + (0 : ℕ),
         isActive := true, connections := [] }] := by
  simp [GameState.create, GameState.applyUpgradesToNode, Node.create, NODE_TYPES, CANVAS_WIDTH,
    CANVAS_HEIGHT]
  norm_num

theorem create_idsFresh (id0 : Nat) : IdsFresh (GameState.create id0) := by
  refine ⟨?_, ?_, ?_⟩
  · rw [create_nodes]; simp
  · rw [create_nodes]
    intro n hn
    simp only [List.mem_singleton] at hn
    rw [hn]
    simp [GameState.create]
  · intro c hc
    simp [GameState.create] at hc

/-- A PROCESSOR placed between 50 and 200 units from the CORE of a fresh game is
accepted and linked to the CORE by one connection. -/
theorem fresh_processor_links_core (id0 : Nat) (x y : ℚ)
    (h50 : 2500 ≤ (x - 600) * (x - 600) + (y - 400) * (y - 400))
    (h200 : (x - 600) * (x - 600) + (y - 400) * (y - 400) ≤ 40000) :
    ((GameState.create id0).addNode .PROCESSOR x y).1.success = true ∧
      ((GameState.create id0).addNode .PROCESSOR x y).2.connections =
        [⟨id0 + 1, id0, 0, 0, 0⟩] := by
  have hs : ((GameState.create id0).addNode .PROCESSOR x y).1.success = true := by
    rw [addNode_success_iff, unique_check_iff, canPlace_iff, tooCloseToRouter_iff,
      canConnectToAny_iff, create_nodes]
    refine ⟨?_, Or.inl rfl, ?_, ?_, ?_⟩
    · rw [getNodeCost_of_no_discount _ _ rfl]
      simp [GameState.create, NODE_TYPES, INITIAL_DATA]
    · simpa [distSq] using h50
    · simp
    · simpa [distSq] using h200
  refine ⟨hs, ?_⟩
  obtain ⟨-, chosen, hnd, hlen, hmem, -, hconn, -, -⟩ :=
    autoConnect_after_addNode _ .PROCESSOR x y (create_idsFresh id0) hs
  rw [create_nodes] at hlen hmem
  have hE : Eligible .PROCESSOR x y
      { id := id0, type := .CORE, x := 600, y := 400, dataStored := 0, dataRate := 2 + (0 : ℕ),
        isActive := true, connections := [] } := ⟨by simpa [distSq] using h200, Or.inr (Or.inl rfl)⟩
  simp only [List.filter_cons, hE, decide_True, if_true, List.filter_nil, List.length_singleton]
    at hlen
  have h1 : chosen.length = 1 := by simpa using hlen
  obtain ⟨c, rfl⟩ := List.length_eq_one.mp h1
  have hc := (hmem c (List.mem_singleton_self c)).1
  simp only [List.mem_singleton] at hc
  rw [hconn, hc]
  simp [GameState.create]

/-- C5: after a successful `addNode` in a state that obeys the discipline of the
identifier counter, the new node (identifier `Node.nextId`) is linked to exactly
`min(3, k)` existing nodes, `k >= 1` being the number of existing nodes within 200
units that form a hub pair with it: the nodes linked are pairwise different and
eligible, no eligible node left out is strictly closer than a linked one, one
connection per linked node is appended to the collection, the neighbour list of
the new node holds exactly the linked identifiers and every linked node holds the
new identifier.  In a fresh game a PROCESSOR placed between 50 and 200 units from
the CORE gets exactly one connection, to the CORE. -/
theorem addNode_autoConnect :
    (∀ (s : GameState) (type : NodeType) (x y : ℚ), IdsFresh s →
      (s.addNode type x y).1.success = true →
      1 ≤ (s.nodes.filter (fun n => decide (Eligible type x y n))).length ∧
      ∃ chosen : List Node,
        chosen.Nodup ∧
        chosen.length = min 3 (s.nodes.filter (fun n => decide (Eligible type x y n))).length ∧
        (∀ c ∈ chosen, c ∈ s.nodes ∧ Eligible type x y c) ∧
        (∀ c ∈ chosen, ∀ e ∈ s.nodes, Eligible type x y e → e ∉ chosen →
          distSq x y c ≤ distSq x y e) ∧
        (s.addNode type x y).2.connections =
          s.connections ++ chosen.map (fun c => ⟨s.nextId, c.id, 0, 0, 0⟩) ∧
        (∃ new ∈ (s.addNode type x y).2.nodes,
          new.id = s.nextId ∧ new.connections = chosen.map (fun c => c.id)) ∧
        (∀ c ∈ chosen, ∃ c' ∈ (s.addNode type x y).2.nodes,
          c'.id = c.id ∧ s.nextId ∈ c'.connections)) ∧
    (∀ (id0 : Nat) (x y : ℚ),
      2500 ≤ (x - 600) * (x - 600) + (y - 400) * (y - 400) →
      (x - 600) * (x - 600) + (y - 400) * (y - 400) ≤ 40000 →
      ((GameState.create id0).addNode .PROCESSOR x y).1.success = true ∧
        ((GameState.create id0).addNode .PROCESSOR x y).2.connections =
          [⟨id0 + 1, id0, 0, 0, 0⟩]) :=
  ⟨autoConnect_after_addNode, fresh_processor_links_core⟩

/-- C5, witness: a PROCESSOR placed 100 units to the right of the CORE of a fresh
game is linked to the CORE and to nothing else. -/
theorem addNode_autoConnect_witness :
    ((GameState.create 0).addNode .PROCESSOR 700 400).1.success = true ∧
      ((GameState.create 0).addNode .PROCESSOR 700 400).2.connections = [⟨1, 0, 0, 0, 0⟩] ∧
      ((GameState.create 0).addNode .PROCESSOR 700 400).2.nodes.map (fun n => n.connections) =
        [[1], [0]] :=
  ⟨(addNode_autoConnect.2 0 700 400 (by norm_num) (by norm_num)).1,
    (addNode_autoConnect.2 0 700 400 (by norm_num) (by norm_num)).2, by decide!⟩

/-- The PROCESSOR bought in a fresh game costs the 10 units of data the game
starts with. -/
theorem addNode_success_effect_witness :
    ((GameState.create 0).addNode .PROCESSOR 700 400).1.success = true ∧
      ((GameState.create 0).addNode .PROCESSOR 700 400).2.data =
        (GameState.create 0).data - (GameState.create 0).getNodeCost .PROCESSOR ∧
      ((GameState.create 0).addNode .PROCESSOR 700 400).2.data = 0 :=
  ⟨by decide!,
    (addNode_success_effect (GameState.create 0) .PROCESSOR 700 400 (by decide!)).2.1,
    by decide!⟩

end DataStream

namespace DataStream

open GameState

/-! ## The single CORE -/

theorem CoreInv.of_same {id0 : Nat} {s t : GameState} (h : CoreInv id0 s)
    (hn : t.nodes.map Node.ident = s.nodes.map Node.ident) (hi : t.nextId = s.nextId) :
    CoreInv id0 t := by
  unfold CoreInv at h ⊢
  rw [hn, hi]
  exact h

theorem CoreInv.core_lt {id0 : Nat} {s : GameState} (h : CoreInv id0 s) : id0 < s.nextId := by
  have : (id0, NodeType.CORE, (600 : ℚ), (400 : ℚ)) ∈
      (s.nodes.map Node.ident).filter (fun p => p.2.1 == .CORE) := by
    rw [h.2.2]
    exact List.mem_singleton_self _
  exact h.2.1 _ (List.mem_filter.mp this).1

theorem CoreInv.of_core {id0 : Nat} {s t : GameState} (h : CoreInv id0 s)
    (hn : t.nodes.map Node.ident = [(id0, .CORE, 600, 400)]) (hi : t.nextId = s.nextId) :
    CoreInv id0 t := by
  have hlt := h.core_lt
  unfold CoreInv
  rw [hn, hi]
  refine ⟨by simp, ?_, by simp⟩
  intro p hp
  simp only [List.mem_singleton] at hp
  rw [hp]
  exact hlt

theorem CoreInv.of_append {id0 : Nat} {s t : GameState} (h : CoreInv id0 s) (type : NodeType)
    (x y : ℚ) (ht : type ≠ .CORE)
    (hn : t.nodes.map Node.ident = s.nodes.map Node.ident ++ [(s.nextId, type, x, y)])
    (hi : t.nextId = s.nextId + 1) : CoreInv id0 t := by
  obtain ⟨h1, h2, h3⟩ := h
  unfold CoreInv
  rw [hn, hi]
  refine ⟨?_, ?_, ?_⟩
  · rw [List.map_append, List.nodup_append]
    refine ⟨h1, by simp, ?_⟩
    intro a ha hb
    simp only [List.map_cons, List.map_nil, List.mem_singleton] at hb
    obtain ⟨p, hp, rfl⟩ := List.mem_map.mp ha
    have := h2 p hp
    omega
  · intro p hp
    rcases List.mem_append.mp hp with hp | hp
    · exact Nat.lt_succ_of_lt (h2 p hp)
    · simp only [List.mem_singleton] at hp
      rw [hp]
      exact Nat.lt_succ_self _
  · rw [List.filter_append, h3]
    simp [ht]

theorem CoreInv.of_filter {id0 : Nat} {s t : GameState} (h : CoreInv id0 s) (e : Nat)
    (he : e ≠ id0)
    (hn : t.nodes.map Node.ident = (s.nodes.map Node.ident).filter (fun p => p.1 != e))
    (hi : t.nextId = s.nextId) : CoreInv id0 t := by
  obtain ⟨h1, h2, h3⟩ := h
  unfold CoreInv
  rw [hn, hi]
  refine ⟨?_, ?_, ?_⟩
  · exact ((List.filter_sublist _).map _).nodup h1
  · intro p hp
    exact h2 p (List.mem_filter.mp hp).1
  · rw [List.filter_filter]
    have : (s.nodes.map Node.ident).filter (fun p => p.2.1 == NodeType.CORE && p.1 != e) =
        ((s.nodes.map Node.ident).filter (fun p => p.2.1 == NodeType.CORE)).filter
          (fun p => p.1 != e) := by
      rw [List.filter_filter]
      apply List.filter_congr
      intro p _
      exact Bool.and_comm _ _
    rw [this, h3]
    simp [Ne.symm he]

theorem find?_eq_head?_filter (p : Node → Bool) (l : List Node) :
    l.find? p = (l.filter p).head? := by
  induction l with
  | nil => rfl
  | cons a as ih =>
    by_cases h : p a = true
    · rw [List.find?_cons_of_pos _ h, List.filter_cons_of_pos h]
      rfl
    · rw [List.find?_cons_of_neg _ h, List.filter_cons_of_neg h, ih]

theorem CoreInv.find_core {id0 : Nat} {s : GameState} (h : CoreInv id0 s) :
    ∃ core, s.nodes.find? (fun n => n.type == .CORE) = some core ∧
      core.ident = (id0, .CORE, 600, 400) ∧ s.nodes.filter (fun n => n.type == .CORE) = [core] := by
  have h3 := h.2.2
  rw [List.filter_map] at h3
  have hf : (fun p : Nat × NodeType × ℚ × ℚ => p.2.1 == NodeType.CORE) ∘ Node.ident =
      fun n => n.type == .CORE := rfl
  rw [hf] at h3
  cases hl : s.nodes.filter (fun n => n.type == .CORE) with
  | nil => rw [hl] at h3; simp at h3
  | cons c cs =>
    rw [hl] at h3
    simp only [List.map_cons, List.cons.injEq, List.map_eq_nil_iff] at h3
    obtain ⟨hc, hcs⟩ := h3
    subst hcs
    refine ⟨c, ?_, hc, rfl⟩
    rw [find?_eq_head?_filter, hl]
    rfl

theorem CoreInv.keepCore {id0 : Nat} {s : GameState} (h : CoreInv id0 s) :
    (keepCore s.nodes).map Node.ident = [(id0, .CORE, 600, 400)] := by
  obtain ⟨core, hf, hc, -⟩ := h.find_core
  rw [keepCore_of_find s.nodes core hf]
  simp [hc]

theorem CoreInv.ne_core_id {id0 : Nat} {s : GameState} (h : CoreInv id0 s) (n : Node)
    (hn : n ∈ s.nodes) (ht : n.type ≠ .CORE) : n.id ≠ id0 := by
  intro heq
  obtain ⟨core, -, hc, hfil⟩ := h.find_core
  have hcm : core ∈ s.nodes := by
    have : core ∈ s.nodes.filter (fun n => n.type == .CORE) := by
      rw [hfil]; exact List.mem_singleton_self _
    exact (List.mem_filter.mp this).1
  have hinj := List.inj_on_of_nodup_map h.1 (List.mem_map_of_mem Node.ident hn)
    (List.mem_map_of_mem Node.ident hcm)
    (by rw [hc]; exact heq)
  have : n.type = core.type := congrArg (fun p => p.2.1) hinj
  have hct : core.type = .CORE := congrArg (fun p => p.2.1) hc
  exact ht (this.trans hct)

end DataStream

namespace DataStream

open GameState

theorem addNode_failure_state (s : GameState) (type : NodeType) (x y : ℚ)
    (h : (s.addNode type x y).1.success = false) : (s.addNode type x y).2 = s := by
  unfold GameState.addNode at h ⊢
  simp only [] at h ⊢
  split_ifs at h ⊢ <;> rfl

theorem CoreInv.create (id0 : Nat) : CoreInv id0 (GameState.create id0) := by
  unfold CoreInv
  rw [create_nodes]
  refine ⟨by simp, ?_, by simp [Node.ident]⟩
  intro p hp
  simp only [List.map_cons, List.map_nil, List.mem_singleton] at hp
  rw [hp]
  simp [GameState.create, Node.ident]

theorem CoreInv.crashReboot {id0 : Nat} {s : GameState} (h : CoreInv id0 s) :
    CoreInv id0 s.crashReboot := by
  refine h.of_core ?_ ?_
  · exact h.keepCore
  · rfl

theorem CoreInv.checkCrash {id0 : Nat} {s : GameState} (h : CoreInv id0 s) (w : Bool) :
    CoreInv id0 (s.checkCrash w) := by
  unfold GameState.checkCrash
  split_ifs
  · refine h.of_same ?_ ?_ <;> rfl
  · refine h.of_core ?_ ?_
    · exact h.keepCore
    · rfl
  · exact h

theorem CoreInv.update {id0 : Nat} {s : GameState} (h : CoreInv id0 s) (sqrt : ℚ → ℚ)
    (w : Bool) (deltaTime : ℚ) : CoreInv id0 (s.update sqrt w deltaTime) := by
  unfold GameState.update
  split_ifs
  · exact h
  · apply CoreInv.checkCrash
    have hf := updateBeforeCrashCheck_frame sqrt s deltaTime
    exact h.of_same hf.1 hf.2.2.2.2.1

theorem CoreInv.addNode {id0 : Nat} {s : GameState} (h : CoreInv id0 s) (type : NodeType)
    (x y : ℚ) : CoreInv id0 (s.addNode type x y).2 := by
  cases hs : (s.addNode type x y).1.success with
  | false => rw [addNode_failure_state s type x y hs]; exact h
  | true =>
    have ht : type ≠ .CORE := by
      rintro rfl
      have hu := ((addNode_success_iff s .CORE x y).mp hs).2.1
      rw [unique_check_iff] at hu
      obtain ⟨core, hf, hc, -⟩ := h.find_core
      have hm := List.mem_of_find?_eq_some hf
      have hct : core.type = .CORE := congrArg (fun p => p.2.1) hc
      rcases hu with hu | hu
      · simp [NODE_TYPES] at hu
      · exact hu core hm hct
    have hst := addNode_success_state s type x y hs
    obtain ⟨f1, f2, f3, f4, -, -⟩ := applyUpgradesToNode_fields s (Node.create s.nextId type x y)
    apply h.of_append type x y ht
    · rw [hst, GameState.autoConnectNode,
        (foldl_connectStep_frame Node.ident Node.ident_connectTo _ _ _).1]
      simp only [List.map_append, List.map_cons, List.map_nil]
      congr 2
      simp only [Node.ident, f1, f2, f3, f4]
      rfl
    · rw [hst, GameState.autoConnectNode,
        (foldl_connectStep_frame Node.ident Node.ident_connectTo _ _ _).2.2]

theorem CoreInv.createConnection {id0 : Nat} {s : GameState} (h : CoreInv id0 s) (a b : Node) :
    CoreInv id0 (s.createConnection a b).2 := by
  unfold GameState.createConnection
  split_ifs
  · exact h
  · refine h.of_same ?_ ?_
    · exact (map_ident_updateNode _ _ _ (fun n => Node.ident_connectTo n _)).trans
        (map_ident_updateNode _ _ _ (fun n => Node.ident_connectTo n _))
    · rfl

theorem map_ident_delete (nodes : List Node) (e : Nat) :
    ((nodes.map (fun m => m.disconnectFrom e)).filter (fun m => m.id != e)).map Node.ident =
      (nodes.map Node.ident).filter (fun p => p.1 != e) := by
  induction nodes with
  | nil => rfl
  | cons a as ih =>
    rw [List.map_cons, List.map_cons]
    by_cases h : a.id = e
    · rw [List.filter_cons_of_neg (by simpa [Node.disconnectFrom] using h),
        List.filter_cons_of_neg (by simpa [Node.ident] using h), ih]
    · rw [List.filter_cons_of_pos (by simpa [Node.disconnectFrom] using h),
        List.filter_cons_of_pos (by simpa [Node.ident] using h), List.map_cons, ih]
      rfl

theorem CoreInv.deleteNode {id0 : Nat} {s : GameState} (h : CoreInv id0 s) (n : Node)
    (hn : n ∈ s.nodes) : CoreInv id0 (s.deleteNode n).2 := by
  unfold GameState.deleteNode
  split_ifs with h1 h2
  · exact h
  · exact h
  · refine h.of_filter n.id (h.ne_core_id n hn h1) ?_ ?_
    · exact map_ident_delete s.nodes n.id
    · rfl

theorem CoreInv.prestige {id0 : Nat} {s : GameState} (h : CoreInv id0 s) :
    CoreInv id0 s.prestige.2 := by
  unfold GameState.prestige
  split_ifs
  · exact h
  · refine h.of_core ?_ ?_
    · exact h.keepCore
    · rfl

theorem CoreInv.unlockModule {id0 : Nat} {s : GameState} (h : CoreInv id0 s) (k : String)
    (cost : ℚ) : CoreInv id0 (s.unlockModule k cost).2 := by
  unfold GameState.unlockModule
  split_ifs
  · exact h
  · exact h
  · refine h.of_same ?_ ?_ <;> rfl

theorem Reachable.coreInv {id0 : Nat} {s : GameState} (h : Reachable id0 s) : CoreInv id0 s := by
  induction h with
  | create => exact CoreInv.create id0
  | update sqrt w dt _ ih => exact ih.update sqrt w dt
  | addNode type x y _ ih => exact ih.addNode type x y
  | createConnection a b _ _ _ ih => exact ih.createConnection a b
  | deleteNode n _ hn ih => exact ih.deleteNode n hn
  | prestige _ ih => exact ih.prestige
  | unlockModule k c _ ih => exact ih.unlockModule k c
  | crashReboot _ ih => exact ih.crashReboot


/-- C4: in every state reachable from a freshly constructed game by ticks,
`addNode`, `createConnection`, `deleteNode`, `prestige`, `unlockModule` and crash
reboots, exactly one node has type CORE, and it is the node of the constructor
(its identifier, at the centre of the canvas); `deleteNode` on a CORE returns a
failure result and changes nothing, and `addNode('CORE', x, y)` fails. -/
theorem core_unique (id0 : Nat) (s : GameState) (h : Reachable id0 s) :
    (∃ core, s.nodes.filter (fun n => n.type == .CORE) = [core] ∧
      core.id = id0 ∧ core.x = CANVAS_WIDTH / 2 ∧ core.y = CANVAS_HEIGHT / 2) ∧
    (∀ core ∈ s.nodes, core.type = .CORE →
      (s.deleteNode core).1 = Outcome.failure "Impossible de supprimer le Core" ∧
      (s.deleteNode core).2 = s) ∧
    (∀ x y, (s.addNode .CORE x y).1.success = false) := by
  have hinv := h.coreInv
  obtain ⟨core, hf, hc, hfil⟩ := hinv.find_core
  refine ⟨⟨core, hfil, ?_, ?_, ?_⟩, ?_, ?_⟩
  · exact congrArg (fun p => p.1) hc
  · have : core.x = 600 := congrArg (fun p => p.2.2.1) hc
    rw [this, CANVAS_WIDTH]
    norm_num
  · have : core.y = 400 := congrArg (fun p => p.2.2.2) hc
    rw [this, CANVAS_HEIGHT]
    norm_num
  · intro c _ hct
    unfold GameState.deleteNode
    rw [if_pos hct]
    exact ⟨rfl, rfl⟩
  · intro x y
    rw [← Bool.not_eq_true, addNode_success_iff, unique_check_iff]
    rintro ⟨-, hu, -⟩
    have hm := List.mem_of_find?_eq_some hf
    have hct : core.type = .CORE := congrArg (fun p => p.2.1) hc
    rcases hu with hu | hu
    · simp [NODE_TYPES] at hu
    · exact hu core hm hct

/-- C4, witness: a fresh game in which a PROCESSOR was bought and a tick of 100 ms
has run. -/
theorem core_unique_witness :
    Reachable 0 (((GameState.create 0).addNode .PROCESSOR 700 400).2.update
        (fun q => q) false 100) ∧
      ∀ x y, ((((GameState.create 0).addNode .PROCESSOR 700 400).2.update
        (fun q => q) false 100).addNode .CORE x y).1.success = false :=
  ⟨Reachable.update (fun q => q) false 100 (Reachable.addNode .PROCESSOR 700 400 Reachable.create),
    (core_unique 0 _ (Reachable.update (fun q => q) false 100
      (Reachable.addNode .PROCESSOR 700 400 Reachable.create))).2.2⟩

end DataStream

namespace DataStream

open GameState

/-! ## The breadth-first search of `isNetworkConnected` -/

theorem foldl_visitNeighbor (e : Option Nat) (nbrs : List Nat) (st : List Nat × List Nat) :
    ∃ new : List Nat,
      nbrs.foldl (visitNeighbor e) st = (st.1 ++ new, st.2 ++ new) ∧
      new.Nodup ∧ (∀ w ∈ new, w ∈ nbrs ∧ e ≠ some w ∧ w ∉ st.1) ∧
      (∀ w ∈ nbrs, e ≠ some w → w ∈ st.1 ∨ w ∈ new) := by
  induction nbrs generalizing st with
  | nil => exact ⟨[], by simp, List.nodup_nil, by simp, by simp⟩
  | cons a as ih =>
    rw [List.foldl_cons]
    by_cases h1 : e = some a
    · have hv : visitNeighbor e st a = st := by
        unfold GameState.visitNeighbor
        rw [if_pos h1]
      rw [hv]
      obtain ⟨new, h2, h3, h4, h5⟩ := ih st
      refine ⟨new, h2, h3, ?_, ?_⟩
      · intro w hw
        exact ⟨List.mem_cons_of_mem a (h4 w hw).1, (h4 w hw).2⟩
      · intro w hw hne
        rcases List.mem_cons.mp hw with rfl | hw'
        · exact absurd h1 hne
        · exact h5 w hw' hne
    · by_cases h2 : a ∈ st.1
      · have hv : visitNeighbor e st a = st := by
          unfold GameState.visitNeighbor
          rw [if_neg h1, if_pos (by simpa using h2)]
        rw [hv]
        obtain ⟨new, k2, k3, k4, k5⟩ := ih st
        refine ⟨new, k2, k3, ?_, ?_⟩
        · intro w hw
          exact ⟨List.mem_cons_of_mem a (k4 w hw).1, (k4 w hw).2⟩
        · intro w hw hne
          rcases List.mem_cons.mp hw with rfl | hw'
          · exact Or.inl h2
          · exact k5 w hw' hne
      · have hv : visitNeighbor e st a = (st.1 ++ [a], st.2 ++ [a]) := by
          unfold GameState.visitNeighbor
          rw [if_neg h1, if_neg (by simpa using h2)]
        rw [hv]
        obtain ⟨new, k2, k3, k4, k5⟩ := ih (st.1 ++ [a], st.2 ++ [a])
        refine ⟨a :: new, ?_, ?_, ?_, ?_⟩
        · rw [k2]
          simp
        · rw [List.nodup_cons]
          refine ⟨?_, k3⟩
          intro ha
          exact (k4 a ha).2.2 (by simp)
        · intro w hw
          rcases List.mem_cons.mp hw with rfl | hw'
          · exact ⟨List.mem_cons_self _ _, h1, h2⟩
          · obtain ⟨m1, m2, m3⟩ := k4 w hw'
            refine ⟨List.mem_cons_of_mem a m1, m2, ?_⟩
            intro hm
            exact m3 (by simp [hm])
        · intro w hw hne
          rcases List.mem_cons.mp hw with rfl | hw'
          · exact Or.inr (List.mem_cons_self _ _)
          · rcases k5 w hw' hne with h | h
            · simp only [List.mem_append, List.mem_singleton] at h
              rcases h with h | h
              · exact Or.inl h
              · exact Or.inr (h ▸ List.mem_cons_self _ _)
            · exact Or.inr (List.mem_cons_of_mem a h)

theorem card_sdiff_append (U : Finset Nat) (visited new : List Nat) (hn : new.Nodup)
    (hU : ∀ w ∈ new, w ∈ U) (hd : ∀ w ∈ new, w ∉ visited) :
    (U \ (visited ++ new).toFinset).card + new.length = (U \ visited.toFinset).card := by
  have h1 : U \ (visited ++ new).toFinset = (U \ visited.toFinset) \ new.toFinset := by
    rw [List.toFinset_append, Finset.sdiff_union_distrib]
    ext a
    simp only [Finset.mem_inter, Finset.mem_sdiff, List.mem_toFinset]
    tauto
  have h2 : new.toFinset ⊆ U \ visited.toFinset := by
    intro a ha
    rw [List.mem_toFinset] at ha
    simp only [Finset.mem_sdiff, List.mem_toFinset]
    exact ⟨hU a ha, hd a ha⟩
  rw [h1, Finset.card_sdiff h2, List.toFinset_card_of_nodup hn]
  have := Finset.card_le_card h2
  rw [List.toFinset_card_of_nodup hn] at this
  omega

theorem bfsLoop_spec (nodes : List Node) (e : Option Nat) (c0 : Nat) (U : Finset Nat)
    (hU : ∀ nd ∈ nodes, ∀ w ∈ nd.connections, w ∈ U) :
    ∀ (fuel : Nat) (visited queue : List Nat),
      (∀ v ∈ visited, Relation.ReflTransGen (ListEdge nodes e) c0 v) →
      c0 ∈ visited →
      (∀ q ∈ queue, q ∈ visited) →
      (∀ v ∈ visited, v ∈ queue ∨ ∀ w, ListEdge nodes e v w → w ∈ visited) →
      (U \ visited.toFinset).card + queue.length ≤ fuel →
      ∃ res, bfsLoop nodes e fuel visited queue = some res ∧
        ∀ v, v ∈ res ↔ Relation.ReflTransGen (ListEdge nodes e) c0 v := by
  intro fuel
  induction fuel with
  | zero =>
    intro visited queue ha hb hd hc hpot
    cases queue with
    | nil =>
      refine ⟨visited, by simp [GameState.bfsLoop], fun v => ⟨ha v, ?_⟩⟩
      intro hr
      induction hr with
      | refl => exact hb
      | tail _ hstep ih =>
        rcases hc _ ih with h | h
        · cases h
        · exact h _ hstep
    | cons cur q => simp at hpot
  | succ fuel ihf =>
    intro visited queue ha hb hd hc hpot
    cases queue with
    | nil =>
      refine ⟨visited, by simp [GameState.bfsLoop], fun v => ⟨ha v, ?_⟩⟩
      intro hr
      induction hr with
      | refl => exact hb
      | tail _ hstep ih =>
        rcases hc _ ih with h | h
        · cases h
        · exact h _ hstep
    | cons cur q =>
      have hcur : Relation.ReflTransGen (ListEdge nodes e) c0 cur :=
        ha cur (hd cur (List.mem_cons_self cur q))
      simp only [List.length_cons] at hpot
      cases hfind : nodes.find? (fun n => n.id == cur) with
      | none =>
        have heq : bfsLoop nodes e (fuel + 1) visited (cur :: q) = bfsLoop nodes e fuel visited q := by
          simp [GameState.bfsLoop, hfind]
        rw [heq]
        apply ihf visited q ha hb (fun x hx => hd x (List.mem_cons_of_mem cur hx))
        · intro v hv
          rcases hc v hv with h | h
          · rcases List.mem_cons.mp h with rfl | h'
            · right
              intro w hw
              obtain ⟨nd, hnd, -⟩ := hw
              rw [hfind] at hnd
              cases hnd
            · exact Or.inl h'
          · exact Or.inr h
        · omega
      | some nd =>
        obtain ⟨new, hfold, hnodup, hnew, hall⟩ := foldl_visitNeighbor e nd.connections (visited, q)
        have heq : bfsLoop nodes e (fuel + 1) visited (cur :: q) =
            bfsLoop nodes e fuel (visited ++ new) (q ++ new) := by
          simp [GameState.bfsLoop, hfind, hfold]
        rw [heq]
        have hndm : nd ∈ nodes := List.mem_of_find?_eq_some hfind
        apply ihf (visited ++ new) (q ++ new)
        · intro v hv
          rcases List.mem_append.mp hv with h | h
          · exact ha v h
          · exact hcur.tail ⟨nd, hfind, (hnew v h).1, (hnew v h).2.1⟩
        · exact List.mem_append_left _ hb
        · intro x hx
          rcases List.mem_append.mp hx with h | h
          · exact List.mem_append_left _ (hd x (List.mem_cons_of_mem cur h))
          · exact List.mem_append_right _ h
        · intro v hv
          rcases List.mem_append.mp hv with h | h
          · rcases hc v h with h' | h'
            · rcases List.mem_cons.mp h' with rfl | h''
              · right
                intro w hw
                obtain ⟨nd', hnd', hw1, hw2⟩ := hw
                rw [hfind] at hnd'
                cases hnd'
                rcases hall w hw1 hw2 with h3 | h3
                · exact List.mem_append_left _ h3
                · exact List.mem_append_right _ h3
              · exact Or.inl (List.mem_append_left _ h'')
            · right
              intro w hw
              exact List.mem_append_left _ (h' w hw)
          · exact Or.inl (List.mem_append_right _ h)
        · have := card_sdiff_append U visited new hnodup
            (fun w hw => hU nd hndm w (hnew w hw).1) (fun w hw => (hnew w hw).2.2)
          rw [List.length_append]
          omega

end DataStream

namespace DataStream

open GameState

theorem bfsLoop_from_core (nodes : List Node) (e : Option Nat) (c0 : Nat) :
    ∃ res, bfsLoop nodes e (bfsFuel nodes) [c0] [c0] = some res ∧
      ∀ v, v ∈ res ↔ Relation.ReflTransGen (ListEdge nodes e) c0 v := by
  apply bfsLoop_spec nodes e c0 ((nodes.map (fun n => n.connections)).flatten.toFinset)
  · intro nd hnd w hw
    rw [List.mem_toFinset, List.mem_flatten]
    exact ⟨nd.connections, List.mem_map_of_mem _ hnd, hw⟩
  · intro v hv
    rw [List.mem_singleton] at hv
    rw [hv]
  · exact List.mem_singleton_self c0
  · intro q hq
    exact hq
  · intro v hv
    exact Or.inl hv
  · have h1 := Finset.card_le_card (Finset.sdiff_subset
      (s := (nodes.map (fun n => n.connections)).flatten.toFinset) (t := [c0].toFinset))
    have h2 := List.toFinset_card_le (nodes.map (fun n => n.connections)).flatten
    rw [List.length_flatten, List.map_map] at h2
    unfold GameState.bfsFuel
    simp only [List.length_singleton]
    have h3 : (List.length ∘ fun n : Node => n.connections) = fun n => n.connections.length := rfl
    rw [h3] at h2
    omega

/-- The search of `isNetworkConnected` finishes within its bound and answers
whether every node to check is reached from the first CORE along the neighbour
lists. -/
theorem isNetworkConnected_iff (s : GameState) (e : Option Nat) :
    s.isNetworkConnected e = true ↔ ListConnected s e := by
  unfold GameState.isNetworkConnected ListConnected
  cases hcore : s.nodes.find? (fun n => n.type == .CORE) with
  | none => simp
  | some core =>
    simp only [Option.some.injEq, exists_eq_left']
    obtain ⟨res, hres, hmem⟩ := bfsLoop_from_core s.nodes e core.id
    split_ifs with hlen
    · simp only [true_iff]
      intro n hn ht hne
      have : n ∈ s.nodes.filter (fun n => n.type != .CORE && decide (some n.id ≠ e)) := by
        rw [List.mem_filter]
        exact ⟨hn, by simp [ht, hne]⟩
      rw [List.length_eq_zero] at hlen
      rw [hlen] at this
      cases this
    · rw [hres]
      simp only [List.all_eq_true, List.mem_filter, Bool.and_eq_true, bne_iff_ne, ne_eq,
        decide_eq_true_eq, List.contains_eq_any_beq, List.any_eq_true, beq_iff_eq,
        and_imp]
      constructor
      · intro h n hn ht hne
        obtain ⟨v, hv, hveq⟩ := h n hn ht hne
        exact (hmem n.id).mp (hveq ▸ hv)
      · intro h n hn ht hne
        exact ⟨n.id, (hmem n.id).mpr (h n hn ht hne), rfl⟩

end DataStream

namespace DataStream

open GameState

/-! ## Deletion keeps the network connected -/

theorem find?_id_of_mem (nodes : List Node) (u : Nat) (h : ∃ n ∈ nodes, n.id = u) :
    ∃ node, nodes.find? (fun n => n.id == u) = some node ∧ node.id = u ∧ node ∈ nodes := by
  cases hf : nodes.find? (fun n => n.id == u) with
  | none =>
    obtain ⟨n, hn, hid⟩ := h
    rw [List.find?_eq_none] at hf
    exact absurd (by simpa using hid) (hf n hn)
  | some node =>
    exact ⟨node, rfl, by simpa using List.find?_some hf, List.mem_of_find?_eq_some hf⟩

/-- Under agreement, a path along the neighbour lists that avoids `e` is a path
along the connections that do not touch `e`. -/
theorem listReach_to_joined (s : GameState) (e c0 : Nat) (hag : NeighboursAgree s)
    (hc0 : c0 ≠ e) (v : Nat)
    (h : Relation.ReflTransGen (ListEdge s.nodes (some e)) c0 v) :
    Relation.ReflTransGen
      (Joined (s.connections.filter (fun c => c.fromNode != e && c.toNode != e))) c0 v ∧
      v ≠ e := by
  induction h with
  | refl => exact ⟨Relation.ReflTransGen.refl, hc0⟩
  | @tail u w _ hstep ih =>
    obtain ⟨node, hfind, hw, hne⟩ := hstep
    have hwe : w ≠ e := fun h => hne (by rw [h])
    have hid : node.id = u := by simpa using List.find?_some hfind
    obtain ⟨c, hc, hj⟩ := (hag.2 node (List.mem_of_find?_eq_some hfind)).1 w hw
    refine ⟨ih.1.tail ⟨c, ?_, ?_⟩, hwe⟩
    · rw [List.mem_filter]
      refine ⟨hc, ?_⟩
      rcases hj with ⟨h1, h2⟩ | ⟨h1, h2⟩
      · simp [h1, h2, hid, ih.2, hwe]
      · simp [h1, h2, hid, ih.2, hwe]
    · rw [← hid]
      exact hj

theorem joined_to_listReach (s : GameState) (e c0 : Nat) (hag : NeighboursAgree s) (v : Nat)
    (h : Relation.ReflTransGen
      (Joined (s.connections.filter (fun c => c.fromNode != e && c.toNode != e))) c0 v) :
    Relation.ReflTransGen (ListEdge s.nodes (some e)) c0 v := by
  induction h with
  | refl => exact Relation.ReflTransGen.refl
  | @tail u w _ hstep ih =>
    obtain ⟨c, hc, hj⟩ := hstep
    rw [List.mem_filter] at hc
    obtain ⟨hc, hce⟩ := hc
    simp only [Bool.and_eq_true, bne_iff_ne, ne_eq] at hce
    have hu : ∃ n ∈ s.nodes, n.id = u := by
      rcases hj with ⟨h1, _⟩ | ⟨_, h2⟩
      · rw [← h1]; exact (hag.1 c hc).1
      · rw [← h2]; exact (hag.1 c hc).2
    obtain ⟨node, hfind, hid, hmem⟩ := find?_id_of_mem s.nodes u hu
    refine ih.tail ⟨node, hfind, ?_, ?_⟩
    · rcases hj with ⟨h1, h2⟩ | ⟨h1, h2⟩
      · rw [← h2]
        exact ((hag.2 node hmem).2 c hc).1 (h1.trans hid.symm)
      · rw [← h1]
        exact ((hag.2 node hmem).2 c hc).2 (h2.trans hid.symm)
    · rcases hj with ⟨_, h2⟩ | ⟨h1, _⟩
      · rw [← h2]
        intro h
        exact hce.2 (Option.some.inj h).symm
      · rw [← h1]
        intro h
        exact hce.1 (Option.some.inj h).symm

theorem find?_filter_of_keeps (nodes : List Node) (p q : Node → Bool)
    (h : ∀ n ∈ nodes, q n = true → p n = true) :
    (nodes.filter p).find? q = nodes.find? q := by
  induction nodes with
  | nil => rfl
  | cons a as ih =>
    have ih' := ih (fun n hn => h n (List.mem_cons_of_mem a hn))
    by_cases hq : q a = true
    · have hp := h a (List.mem_cons_self a as) hq
      rw [List.filter_cons_of_pos hp, List.find?_cons_of_pos _ hq, List.find?_cons_of_pos _ hq]
    · by_cases hp : p a = true
      · rw [List.filter_cons_of_pos hp, List.find?_cons_of_neg _ hq, List.find?_cons_of_neg _ hq,
          ih']
      · rw [List.filter_cons_of_neg hp, List.find?_cons_of_neg _ hq, ih']

/-- With distinct identifiers, no CORE carries the identifier of a node that is not
a CORE. -/
theorem core_id_ne (nodes : List Node) (hnd : (nodes.map (fun n => n.id)).Nodup) (n : Node)
    (hn : n ∈ nodes) (ht : n.type ≠ .CORE) (c : Node) (hc : c ∈ nodes) (hct : c.type = .CORE) :
    c.id ≠ n.id := by
  intro h
  have := List.inj_on_of_nodup_map hnd hc hn h
  rw [this] at hct
  exact ht hct

/-- Under agreement and with distinct identifiers, the answer of
`isNetworkConnected(n.id)` is the connectivity of the graph without `n`. -/
theorem listConnected_iff_connectedToCore (s : GameState) (n : Node) (hag : NeighboursAgree s)
    (hnd : (s.nodes.map (fun m => m.id)).Nodup) (hn : n ∈ s.nodes) (ht : n.type ≠ .CORE) :
    ListConnected s (some n.id) ↔
      ConnectedToCore (s.nodes.filter (fun m => m.id != n.id))
        (s.connections.filter (fun c => c.fromNode != n.id && c.toNode != n.id)) := by
  have hfind : (s.nodes.filter (fun m => m.id != n.id)).find? (fun m => m.type == .CORE) =
      s.nodes.find? (fun m => m.type == .CORE) := by
    apply find?_filter_of_keeps
    intro c hc hct
    simpa using core_id_ne s.nodes hnd n hn ht c hc (by simpa using hct)
  unfold ListConnected ConnectedToCore
  rw [hfind]
  constructor
  · rintro ⟨core, hcore, hall⟩
    refine ⟨core, hcore, ?_⟩
    intro m hm hmt
    rw [List.mem_filter] at hm
    have hne : core.id ≠ n.id := core_id_ne s.nodes hnd n hn ht core
      (List.mem_of_find?_eq_some hcore) (by simpa using List.find?_some hcore)
    exact (listReach_to_joined s n.id core.id hag hne m.id
      (hall m hm.1 hmt (by simpa using hm.2))).1
  · rintro ⟨core, hcore, hall⟩
    refine ⟨core, hcore, ?_⟩
    intro m hm hmt hne
    apply joined_to_listReach s n.id core.id hag
    apply hall m _ hmt
    rw [List.mem_filter]
    exact ⟨hm, by simpa using hne⟩

theorem connectedToCore_congr (nodes1 nodes2 : List Node) (conns : List Connection)
    (h : nodes1.map Node.ident = nodes2.map Node.ident) (hc : ConnectedToCore nodes1 conns) :
    ConnectedToCore nodes2 conns := by
  obtain ⟨core, hcore, hall⟩ := hc
  have hq : (fun m : Node => m.type == NodeType.CORE) =
      (fun p : Nat × NodeType × ℚ × ℚ => p.2.1 == NodeType.CORE) ∘ Node.ident := rfl
  have h1 : (nodes1.find? (fun m => m.type == .CORE)).map Node.ident =
      (nodes2.find? (fun m => m.type == .CORE)).map Node.ident := by
    rw [hq, ← List.find?_map, ← List.find?_map, h]
  rw [hcore] at h1
  cases hcore2 : nodes2.find? (fun m => m.type == .CORE) with
  | none => rw [hcore2] at h1; cases h1
  | some core2 =>
    rw [hcore2] at h1
    simp only [Option.map_some', Option.some.injEq] at h1
    have hid : core.id = core2.id := congrArg (fun p => p.1) h1
    refine ⟨core2, hcore2, ?_⟩
    intro m hm hmt
    have : m.ident ∈ nodes1.map Node.ident := by
      rw [h]
      exact List.mem_map_of_mem _ hm
    obtain ⟨m1, hm1, heq⟩ := List.mem_map.mp this
    have h2 : m1.id = m.id := congrArg (fun p => p.1) heq
    have h3 : m1.type = m.type := congrArg (fun p => p.2.1) heq
    rw [← hid, ← h2]
    exact hall m1 hm1 (by rw [h3]; exact hmt)


theorem deleteNode_success_iff (s : GameState) (n : Node) :
    (s.deleteNode n).1.success = true ↔
      n.type ≠ .CORE ∧ s.isNetworkConnected (some n.id) = true := by
  unfold GameState.deleteNode
  split_ifs with h1 h2
  · simp [Outcome.failure, h1]
  · simp only [Bool.not_eq_true', Bool.not_eq_true] at h2
    simp [Outcome.failure, h2]
  · simp only [Bool.not_eq_true', Bool.not_eq_false] at h2
    simp [Outcome.ok, h1, h2]

theorem deleteNode_success_state (s : GameState) (n : Node)
    (h : (s.deleteNode n).1.success = true) :
    (s.deleteNode n).2 =
      { s with
        connections := s.connections.filter
          (fun conn => conn.fromNode != n.id && conn.toNode != n.id)
        nodes := (s.nodes.map (fun m => m.disconnectFrom n.id)).filter
          (fun m => m.id != n.id) } := by
  obtain ⟨h1, h2⟩ := (deleteNode_success_iff s n).mp h
  unfold GameState.deleteNode
  rw [if_neg h1, if_neg (by simp [h2])]

theorem deleteNode_failure_state (s : GameState) (n : Node)
    (h : (s.deleteNode n).1.success = false) : (s.deleteNode n).2 = s := by
  unfold GameState.deleteNode at h ⊢
  split_ifs at h ⊢
  · rfl
  · rfl
  · simp [Outcome.ok] at h

/-- C2: in a state whose neighbour lists agree with the connection collection
(and whose node objects have pairwise different identifiers), for a node `n` of
the graph that is not a CORE: if `deleteNode(n)` succeeds, every remaining
non-CORE node of the resulting state is reached from the CORE along the remaining
connections; and `isNetworkConnected(n.id)` is true exactly when the graph
without `n` and without the connections of `n` is connected to the CORE. -/
theorem deleteNode_keeps_connected (s : GameState) (n : Node) (hag : NeighboursAgree s)
    (hnd : (s.nodes.map (fun m => m.id)).Nodup) (hn : n ∈ s.nodes) (ht : n.type ≠ .CORE) :
    ((s.deleteNode n).1.success = true →
      ConnectedToCore (s.deleteNode n).2.nodes (s.deleteNode n).2.connections) ∧
    (s.isNetworkConnected (some n.id) = true ↔
      ConnectedToCore (s.nodes.filter (fun m => m.id != n.id))
        (s.connections.filter (fun c => c.fromNode != n.id && c.toNode != n.id))) := by
  have hiff := (isNetworkConnected_iff s (some n.id)).trans
    (listConnected_iff_connectedToCore s n hag hnd hn ht)
  refine ⟨?_, hiff⟩
  intro hs
  have hc := hiff.mp ((deleteNode_success_iff s n).mp hs).2
  rw [deleteNode_success_state s n hs]
  refine connectedToCore_congr _ _ _ ?_ hc
  rw [map_ident_delete, List.filter_map]
  rfl

/-- C2, witness: deleting the ROUTER at the end of the chain CORE - PROCESSOR -
ROUTER succeeds and leaves the PROCESSOR connected to the CORE. -/
theorem deleteNode_keeps_connected_witness :
    (chain.deleteNode chainRouter).1.success = true ∧
      ConnectedToCore (chain.deleteNode chainRouter).2.nodes
        (chain.deleteNode chainRouter).2.connections :=
  ⟨by decide!, (deleteNode_keeps_connected chain chainRouter (by decide!) (by decide!)
    (by decide!) (by decide!)).1 (by decide!)⟩

/-- What `deleteNode` refuses: for a node `n` that is not a CORE, if removing `n`
would leave a remaining non-CORE node unreachable from the CORE, `deleteNode(n)`
returns failure and the state (nodes, connections, neighbour lists, data and
every other field) is the one before the call.  This holds in every state for
reachability along the neighbour lists, which is what the search follows, and in
the states whose neighbour lists agree with the collection for reachability along
the connections. -/
theorem deleteNode_refuses_disconnection (s : GameState) (n : Node) (ht : n.type ≠ .CORE) :
    (¬ ListConnected s (some n.id) →
      (s.deleteNode n).1.success = false ∧ (s.deleteNode n).2 = s) ∧
    (NeighboursAgree s → (s.nodes.map (fun m => m.id)).Nodup → n ∈ s.nodes →
      ¬ ConnectedToCore (s.nodes.filter (fun m => m.id != n.id))
        (s.connections.filter (fun c => c.fromNode != n.id && c.toNode != n.id)) →
      (s.deleteNode n).1.success = false ∧ (s.deleteNode n).2 = s) := by
  have key : ¬ ListConnected s (some n.id) →
      (s.deleteNode n).1.success = false ∧ (s.deleteNode n).2 = s := by
    intro h
    have hf : (s.deleteNode n).1.success = false := by
      rw [← Bool.not_eq_true, deleteNode_success_iff]
      rintro ⟨-, h2⟩
      exact h ((isNetworkConnected_iff s (some n.id)).mp h2)
    exact ⟨hf, deleteNode_failure_state s n hf⟩
  refine ⟨key, ?_⟩
  intro hag hnd hn hc
  exact key (fun hl => hc ((listConnected_iff_connectedToCore s n hag hnd hn ht).mp hl))

/-- In the chain CORE - PROCESSOR - ROUTER, deleting the PROCESSOR would cut the
ROUTER off, and `deleteNode` refuses. -/
theorem deleteNode_refuses_disconnection_witness :
    chainProcessor ∈ chain.nodes ∧ chainProcessor.type ≠ .CORE ∧
      ¬ ListConnected chain (some chainProcessor.id) ∧
      (chain.deleteNode chainProcessor).1.success = false ∧
      (chain.deleteNode chainProcessor).2 = chain :=
  have hl : ¬ ListConnected chain (some chainProcessor.id) :=
    fun h => absurd ((isNetworkConnected_iff chain (some chainProcessor.id)).mpr h) (by decide!)
  ⟨by decide!, by decide!, hl,
    (deleteNode_refuses_disconnection chain chainProcessor (by decide!)).1 hl⟩

end DataStream

namespace DataStream

open GameState

/-! ## The discipline of the identifier counter in reachable states -/

theorem Connection.update_ends (sqrt : ℚ → ℚ) (conn : Connection) (deltaTime bandwidth : ℚ)
    (allNodes : List Node) :
    (conn.update sqrt deltaTime bandwidth allNodes).1.fromNode = conn.fromNode ∧
      (conn.update sqrt deltaTime bandwidth allNodes).1.toNode = conn.toNode := by
  unfold Connection.update
  split
  · simp only []
    split_ifs <;> exact ⟨rfl, rfl⟩
  · exact ⟨rfl, rfl⟩

theorem foldl_updateConnectionStep_ends (sqrt : ℚ → ℚ) (deltaTime bandwidth : ℚ)
    (conns : List Connection) (acc : List Connection × List Node × ℚ) (bound : Nat)
    (hacc : ∀ c ∈ acc.1, c.fromNode < bound ∧ c.toNode < bound)
    (hconns : ∀ c ∈ conns, c.fromNode < bound ∧ c.toNode < bound) :
    ∀ c ∈ (conns.foldl (updateConnectionStep sqrt deltaTime bandwidth) acc).1,
      c.fromNode < bound ∧ c.toNode < bound := by
  induction conns generalizing acc with
  | nil => exact hacc
  | cons a as ih =>
    rw [List.foldl_cons]
    apply ih
    · intro c hc
      unfold GameState.updateConnectionStep at hc
      simp only [List.mem_append, List.mem_singleton] at hc
      rcases hc with hc | hc
      · exact hacc c hc
      · obtain ⟨h1, h2⟩ := Connection.update_ends sqrt a deltaTime bandwidth acc.2.1
        rw [hc, h1, h2]
        exact hconns a (List.mem_cons_self a as)
    · intro c hc
      exact hconns c (List.mem_cons_of_mem a hc)

theorem updateBeforeCrashCheck_ends (sqrt : ℚ → ℚ) (s : GameState) (deltaTime : ℚ)
    (h : ∀ c ∈ s.connections, c.fromNode < s.nextId ∧ c.toNode < s.nextId) :
    ∀ c ∈ (s.updateBeforeCrashCheck sqrt deltaTime).connections,
      c.fromNode < s.nextId ∧ c.toNode < s.nextId := by
  have h1 : (s.updateBeforeCrashCheck sqrt deltaTime).connections =
      (s.connections.foldl (updateConnectionStep sqrt deltaTime s.bandwidth)
        ([], s.nodes.map (fun n => n.update deltaTime s.nodes), s.totalDataLost)).1 := by
    unfold GameState.updateBeforeCrashCheck GameState.updateIntegrity
      GameState.updateBandwidthUsage
    simp only []
    split_ifs <;> rfl
  rw [h1]
  exact foldl_updateConnectionStep_ends sqrt deltaTime s.bandwidth s.connections _ s.nextId
    (by simp) h

theorem IdsFresh.of_coreInv {id0 : Nat} {s : GameState} (h : CoreInv id0 s)
    (hc : ∀ c ∈ s.connections, c.fromNode < s.nextId ∧ c.toNode < s.nextId) : IdsFresh s := by
  refine ⟨?_, ?_, hc⟩
  · have := h.1
    rwa [List.map_map] at this
  · intro n hn
    exact h.2.1 n.ident (List.mem_map_of_mem _ hn)

/-- Every reachable state obeys the discipline of the identifier counter. -/
theorem Reachable.idsFresh {id0 : Nat} {s : GameState} (h : Reachable id0 s) : IdsFresh s := by
  induction h with
  | create => exact create_idsFresh id0
  | @update sqrt w dt s hr ih =>
    apply IdsFresh.of_coreInv (Reachable.update sqrt w dt hr).coreInv
    unfold GameState.update
    split_ifs
    · exact ih.2.2
    · have hb := updateBeforeCrashCheck_ends sqrt s dt ih.2.2
      have hid := (updateBeforeCrashCheck_frame sqrt s dt).2.2.2.2.1
      unfold GameState.checkCrash
      split_ifs
      · intro c hc
        have := hb c hc
        exact ⟨by rw [hid] at *; exact this.1, by rw [hid] at *; exact this.2⟩
      · intro c hc
        cases hc
      · intro c hc
        rw [hid]
        exact hb c hc
  | @addNode type x y s hr ih =>
    apply IdsFresh.of_coreInv (Reachable.addNode type x y hr).coreInv
    cases hs : (s.addNode type x y).1.success with
    | false => rw [addNode_failure_state s type x y hs]; exact ih.2.2
    | true =>
      obtain ⟨-, chosen, -, -, hmem, -, hconn, -, -⟩ :=
        autoConnect_after_addNode s type x y ih hs
      have hid : (s.addNode type x y).2.nextId = s.nextId + 1 := by
        rw [addNode_success_state s type x y hs, GameState.autoConnectNode,
          (foldl_connectStep_frame Node.ident Node.ident_connectTo _ _ _).2.2]
      rw [hconn, hid]
      intro c hc
      rcases List.mem_append.mp hc with hc | hc
      · have := ih.2.2 c hc
        omega
      · obtain ⟨m, hm, rfl⟩ := List.mem_map.mp hc
        have := ih.2.1 m (hmem m hm).1
        simp only
        omega
  | @createConnection a b s hr ha hb ih =>
    apply IdsFresh.of_coreInv (Reachable.createConnection a b hr ha hb).coreInv
    unfold GameState.createConnection
    split_ifs
    · exact ih.2.2
    · intro c hc
      simp only [List.mem_append, List.mem_singleton] at hc
      rcases hc with hc | hc
      · exact ih.2.2 c hc
      · rw [hc]
        exact ⟨ih.2.1 a ha, ih.2.1 b hb⟩
  | @deleteNode n s hr hn ih =>
    apply IdsFresh.of_coreInv (Reachable.deleteNode n hr hn).coreInv
    unfold GameState.deleteNode
    split_ifs
    · exact ih.2.2
    · exact ih.2.2
    · intro c hc
      exact ih.2.2 c (List.mem_filter.mp hc).1
  | @prestige s hr ih =>
    apply IdsFresh.of_coreInv (Reachable.prestige hr).coreInv
    unfold GameState.prestige
    split_ifs
    · exact ih.2.2
    · intro c hc
      cases hc
  | @unlockModule k cost s hr ih =>
    apply IdsFresh.of_coreInv (Reachable.unlockModule k cost hr).coreInv
    unfold GameState.unlockModule
    split_ifs
    · exact ih.2.2
    · exact ih.2.2
    · exact ih.2.2
  | @crashReboot s hr ih =>
    apply IdsFresh.of_coreInv (Reachable.crashReboot hr).coreInv
    intro c hc
    cases hc

end DataStream

namespace DataStream

open GameState

/-! ## Integrity -/

theorem updateIntegrity_bounds (s : GameState) (deltaTime : ℚ) :
    0 ≤ (s.updateIntegrity deltaTime).integrity ∧ (s.updateIntegrity deltaTime).integrity ≤ 100 := by
  unfold GameState.updateIntegrity
  simp only []
  exact ⟨le_min (le_max_right _ _) (by norm_num), min_le_right _ _⟩

theorem updateIntegrity_frame (s : GameState) (deltaTime : ℚ) :
    (s.updateIntegrity deltaTime).bandwidth = s.bandwidth ∧
      (s.updateIntegrity deltaTime).bandwidthUsed = s.bandwidthUsed ∧
      (s.updateIntegrity deltaTime).nodes = s.nodes := by
  unfold GameState.updateIntegrity
  simp only []
  split_ifs <;> exact ⟨rfl, rfl, rfl⟩

theorem updateBandwidthUsage_frame (s : GameState) :
    (s.updateBandwidthUsage.bandwidth = 100 ∨ s.updateBandwidthUsage.bandwidth = 115) ∧
      s.updateBandwidthUsage.integrity = s.integrity ∧
      s.updateBandwidthUsage.unlockedModules = s.unlockedModules ∧
      s.updateBandwidthUsage.nodes = s.nodes := by
  unfold GameState.updateBandwidthUsage
  simp only []
  split_ifs
  · refine ⟨Or.inr ?_, rfl, rfl, rfl⟩
    simp only [INITIAL_BANDWIDTH]
    norm_num
  · exact ⟨Or.inl rfl, rfl, rfl, rfl⟩

theorem checkCrash_integrity (s : GameState) (w : Bool) :
    (s.checkCrash w).integrity = s.integrity ∨ (s.checkCrash w).integrity = 100 := by
  unfold GameState.checkCrash
  split_ifs
  · exact Or.inl rfl
  · exact Or.inr rfl
  · exact Or.inl rfl

theorem update_integrity_bounds (sqrt : ℚ → ℚ) (w : Bool) (s : GameState) (deltaTime : ℚ)
    (hp : s.isPaused = false) :
    0 ≤ (s.update sqrt w deltaTime).integrity ∧ (s.update sqrt w deltaTime).integrity ≤ 100 := by
  unfold GameState.update
  rw [hp]
  simp only [Bool.false_eq_true, if_false]
  have hb : 0 ≤ (s.updateBeforeCrashCheck sqrt deltaTime).integrity ∧
      (s.updateBeforeCrashCheck sqrt deltaTime).integrity ≤ 100 := by
    unfold GameState.updateBeforeCrashCheck
    exact updateIntegrity_bounds _ _
  rcases checkCrash_integrity (s.updateBeforeCrashCheck sqrt deltaTime) w with h | h
  · rw [h]; exact hb
  · rw [h]; norm_num

theorem foldl_connectStep_shape (newNode : Node) (items : List (Node × ℚ)) (s : GameState) :
    ∃ ns cs, items.foldl (connectStep newNode) s = { s with nodes := ns, connections := cs } := by
  induction items generalizing s with
  | nil => exact ⟨s.nodes, s.connections, rfl⟩
  | cons a as ih =>
    rw [List.foldl_cons]
    obtain ⟨ns, cs, h⟩ := ih (connectStep newNode s a)
    rw [h]
    unfold GameState.connectStep
    split_ifs
    · exact ⟨ns, cs, rfl⟩
    · exact ⟨ns, cs, rfl⟩

theorem addNode_integrity (s : GameState) (type : NodeType) (x y : ℚ) :
    (s.addNode type x y).2.integrity = s.integrity ∧
      (s.addNode type x y).2.isPaused = s.isPaused ∧
      (s.addNode type x y).2.crashTriggered = s.crashTriggered := by
  cases hs : (s.addNode type x y).1.success with
  | false => rw [addNode_failure_state s type x y hs]; exact ⟨rfl, rfl, rfl⟩
  | true =>
    rw [addNode_success_state s type x y hs, GameState.autoConnectNode]
    obtain ⟨ns, cs, h⟩ := foldl_connectStep_shape
      (s.applyUpgradesToNode (Node.create s.nextId type x y))
      (GameState.nearbyNodes { s with
          nodes := s.nodes ++ [s.applyUpgradesToNode (Node.create s.nextId type x y)]
          nextId := s.nextId + 1
          data := s.data - s.getNodeCost type }
        (s.applyUpgradesToNode (Node.create s.nextId type x y)))
      { s with
          nodes := s.nodes ++ [s.applyUpgradesToNode (Node.create s.nextId type x y)]
          nextId := s.nextId + 1
          data := s.data - s.getNodeCost type }
    rw [h]
    exact ⟨rfl, rfl, rfl⟩

/-- In every reachable state the integrity is between 0 and 100, and a set crash
latch goes with a paused game. -/
theorem Reachable.integrity_bounds {id0 : Nat} {s : GameState} (h : Reachable id0 s) :
    (0 ≤ s.integrity ∧ s.integrity ≤ 100) ∧ (s.crashTriggered = true → s.isPaused = true) := by
  induction h with
  | create =>
    refine ⟨?_, ?_⟩
    · simp [GameState.create, INITIAL_INTEGRITY]
    · intro h
      simp [GameState.create] at h
  | @update sqrt w dt s _ ih =>
    cases hp : s.isPaused with
    | true =>
      have : s.update sqrt w dt = s := by
        unfold GameState.update
        rw [hp]
        rfl
      rw [this]
      exact ih
    | false =>
      refine ⟨update_integrity_bounds sqrt w s dt hp, ?_⟩
      have hl : s.crashTriggered = false := by
        cases hc : s.crashTriggered with
        | false => rfl
        | true => rw [ih.2 hc] at hp; cases hp
      have hf := updateBeforeCrashCheck_frame sqrt s dt
      unfold GameState.update
      rw [hp]
      simp only [Bool.false_eq_true, if_false]
      unfold GameState.checkCrash
      split_ifs
      · intro _; rfl
      · intro h; cases h
      · intro h
        rw [hf.2.2.1, hl] at h
        cases h
  | @addNode type x y s _ ih =>
    obtain ⟨h1, h2, h3⟩ := addNode_integrity s type x y
    rw [h1, h2, h3]
    exact ih
  | @createConnection a b s _ _ _ ih =>
    unfold GameState.createConnection
    split_ifs
    · exact ih
    · exact ih
  | @deleteNode n s _ _ ih =>
    unfold GameState.deleteNode
    split_ifs
    · exact ih
    · exact ih
    · exact ih
  | @prestige s _ ih =>
    unfold GameState.prestige
    split_ifs
    · exact ih
    · refine ⟨?_, ih.2⟩
      simp [INITIAL_INTEGRITY]
  | @unlockModule k c s _ ih =>
    unfold GameState.unlockModule
    split_ifs
    · exact ih
    · exact ih
    · exact ih
  | @crashReboot s _ ih =>
    refine ⟨?_, ?_⟩
    · simp [GameState.crashReboot, GameState.softReboot, INITIAL_INTEGRITY]
    · intro h
      simp [GameState.crashReboot] at h

/-- C12: after every call of `updateIntegrity`, whatever `deltaTime`, the bandwidth
usage and the unlocked modules, `0 <= integrity <= 100`; hence the same holds
after every tick of a game that is not paused, and in every reachable state. -/
theorem integrity_clamped :
    (∀ (s : GameState) (deltaTime : ℚ),
      0 ≤ (s.updateIntegrity deltaTime).integrity ∧
        (s.updateIntegrity deltaTime).integrity ≤ 100) ∧
    (∀ (sqrt : ℚ → ℚ) (w : Bool) (s : GameState) (deltaTime : ℚ), s.isPaused = false →
      0 ≤ (s.update sqrt w deltaTime).integrity ∧ (s.update sqrt w deltaTime).integrity ≤ 100) ∧
    (∀ (id0 : Nat) (s : GameState), Reachable id0 s → 0 ≤ s.integrity ∧ s.integrity ≤ 100) :=
  ⟨updateIntegrity_bounds, update_integrity_bounds, fun _ _ h => h.integrity_bounds.1⟩

end DataStream

namespace DataStream

open GameState

theorem updateIntegrity_overload (s : GameState) (deltaTime : ℚ) (hb : 0 < s.bandwidth)
    (hover : s.bandwidth < s.bandwidthUsed) (hheal : "SELF_HEALING" ∉ s.unlockedModules)
    (hdt : 0 < deltaTime) (hpos : 0 < s.integrity) (hle : s.integrity ≤ 100) :
    (s.updateIntegrity deltaTime).integrity =
        max (s.integrity - ((s.bandwidthUsed - s.bandwidth) / s.bandwidth) * 5 *
          (deltaTime / 1000)) 0 ∧
      (s.updateIntegrity deltaTime).integrity < s.integrity := by
  have hd : 0 < ((s.bandwidthUsed - s.bandwidth) / s.bandwidth) * 5 * (deltaTime / 1000) := by
    have h1 : 0 < (s.bandwidthUsed - s.bandwidth) / s.bandwidth :=
      div_pos (sub_pos.mpr hover) hb
    have h2 : 0 < deltaTime / 1000 := div_pos hdt (by norm_num)
    positivity
  have hc : s.unlockedModules.contains "SELF_HEALING" = false := by
    simpa using hheal
  have heq : (s.updateIntegrity deltaTime).integrity =
      min (max (s.integrity - ((s.bandwidthUsed - s.bandwidth) / s.bandwidth) * 5 *
        (deltaTime / 1000)) 0) 100 := by
    unfold GameState.updateIntegrity
    simp only [hover, if_true, hc, Bool.false_eq_true, if_false]
  have hmax : max (s.integrity - ((s.bandwidthUsed - s.bandwidth) / s.bandwidth) * 5 *
      (deltaTime / 1000)) 0 < s.integrity := max_lt (by linarith) hpos
  rw [heq, min_eq_left (by linarith)]
  exact ⟨rfl, hmax⟩

end DataStream


namespace DataStream

open GameState

theorem updateBeforeCrashCheck_split (sqrt : ℚ → ℚ) (s : GameState) (deltaTime : ℚ) :
    ∃ s5 : GameState, s.updateBeforeCrashCheck sqrt deltaTime = s5.updateIntegrity deltaTime ∧
      s5.integrity = s.integrity ∧ s5.unlockedModules = s.unlockedModules ∧
      (s5.bandwidth = 100 ∨ s5.bandwidth = 115) := by
  refine ⟨(updateConnections sqrt { s with
      gameTime := s.gameTime + deltaTime
      nodes := s.nodes.map (fun n => n.update deltaTime s.nodes) }
      deltaTime).collectData.updateBandwidthUsage, rfl, ?_, ?_, ?_⟩
  · exact (updateBandwidthUsage_frame _).2.1
  · exact (updateBandwidthUsage_frame _).2.2.1
  · exact (updateBandwidthUsage_frame _).1

theorem keepCore_of_has_core (nodes : List Node) (h : ∃ c ∈ nodes, c.type = .CORE) :
    ∃ core, keepCore nodes = [core] ∧ core.type = .CORE := by
  obtain ⟨c, hc, hct⟩ := h
  cases hf : nodes.find? (fun n => n.type == .CORE) with
  | none =>
    rw [List.find?_eq_none] at hf
    exact absurd (by simpa using hct) (hf c hc)
  | some core =>
    exact ⟨core, keepCore_of_find nodes core hf, by simpa using List.find?_some hf⟩

/-- C11: in a tick with `deltaTime > 0` in which the recomputed `bandwidthUsed`
exceeds `bandwidth`, with no SELF_HEALING module and `0 < integrity <= 100`
before, the integrity becomes
`max(integrity - ((bandwidthUsed - bandwidth)/bandwidth) * 5 * deltaTime/1000, 0)`,
strictly less than before.  When it so reaches 0 in a game that is neither paused
nor latched, the crash transition fires: without a crash dialog the nodes are
reset to the CORE alone; with one the latch and the pause are set and the
callback of the dialog does the same reset. -/
theorem overload_decay (sqrt : ℚ → ℚ) (s : GameState) (deltaTime : ℚ) (hdt : 0 < deltaTime)
    (hover : (s.updateBeforeCrashCheck sqrt deltaTime).bandwidth <
      (s.updateBeforeCrashCheck sqrt deltaTime).bandwidthUsed)
    (hheal : "SELF_HEALING" ∉ s.unlockedModules)
    (hpos : 0 < s.integrity) (hle : s.integrity ≤ 100) :
    (s.updateBeforeCrashCheck sqrt deltaTime).integrity =
      max (s.integrity -
        (((s.updateBeforeCrashCheck sqrt deltaTime).bandwidthUsed -
            (s.updateBeforeCrashCheck sqrt deltaTime).bandwidth) /
          (s.updateBeforeCrashCheck sqrt deltaTime).bandwidth) * 5 * (deltaTime / 1000)) 0 ∧
    (s.updateBeforeCrashCheck sqrt deltaTime).integrity < s.integrity ∧
    (s.isPaused = false → s.crashTriggered = false →
      (s.updateBeforeCrashCheck sqrt deltaTime).integrity = 0 →
      (∃ c ∈ s.nodes, c.type = .CORE) →
      (∃ core, (s.update sqrt false deltaTime).nodes = [core] ∧ core.type = .CORE) ∧
      (s.update sqrt false deltaTime).connections = [] ∧
      (s.update sqrt true deltaTime).crashTriggered = true ∧
      (s.update sqrt true deltaTime).isPaused = true ∧
      (s.update sqrt true deltaTime).crashReboot.nodes = (s.update sqrt false deltaTime).nodes) := by
  obtain ⟨s5, h5, hi5, hm5, hb5⟩ := updateBeforeCrashCheck_split sqrt s deltaTime
  obtain ⟨f1, f2, -⟩ := updateIntegrity_frame s5 deltaTime
  rw [h5] at hover ⊢
  rw [f1, f2] at hover ⊢
  have hbpos : 0 < s5.bandwidth := by
    rcases hb5 with h | h <;> rw [h] <;> norm_num
  obtain ⟨k1, k2⟩ := updateIntegrity_overload s5 deltaTime hbpos hover (by rw [hm5]; exact hheal)
    hdt (by rw [hi5]; exact hpos) (by rw [hi5]; exact hle)
  rw [hi5] at k1 k2
  refine ⟨k1, k2, ?_⟩
  intro hp hl hz hcore
  have hfire : (s5.updateIntegrity deltaTime).integrity ≤ 0 ∧
      (s5.updateIntegrity deltaTime).crashTriggered = false := by
    refine ⟨le_of_eq hz, ?_⟩
    rw [← h5, (updateBeforeCrashCheck_frame sqrt s deltaTime).2.2.1]
    exact hl
  have hT : s.update sqrt true deltaTime =
      { s5.updateIntegrity deltaTime with crashTriggered := true, isPaused := true } := by
    unfold GameState.update
    rw [hp, h5]
    simp only [Bool.false_eq_true, if_false]
    unfold GameState.checkCrash
    rw [if_pos hfire]
    rfl
  have hF : s.update sqrt false deltaTime =
      GameState.crashReboot
        { s5.updateIntegrity deltaTime with crashTriggered := true, isPaused := true } := by
    unfold GameState.update
    rw [hp, h5]
    simp only [Bool.false_eq_true, if_false]
    unfold GameState.checkCrash
    rw [if_pos hfire]
    rfl
  have hcore' : ∃ c ∈ (s5.updateIntegrity deltaTime).nodes, c.type = .CORE := by
    obtain ⟨c, hc, hct⟩ := hcore
    have hid := (updateBeforeCrashCheck_frame sqrt s deltaTime).1
    rw [h5] at hid
    have : c.ident ∈ (s5.updateIntegrity deltaTime).nodes.map Node.ident := by
      rw [hid]
      exact List.mem_map_of_mem _ hc
    obtain ⟨c', hc', heq⟩ := List.mem_map.mp this
    refine ⟨c', hc', ?_⟩
    have : c'.type = c.type := congrArg (fun p => p.2.1) heq
    rw [this, hct]
  obtain ⟨core, hk, hkt⟩ := keepCore_of_has_core _ hcore'
  refine ⟨⟨core, ?_, hkt⟩, ?_, ?_, ?_, ?_⟩
  · rw [hF]
    exact hk
  · rw [hF]; rfl
  · rw [hT]
  · rw [hT]
  · rw [hT, hF]

end DataStream


namespace DataStream

open GameState

/-- C11, witness: in the game `overloaded` (108 units asked, 100 available) a tick
of 100 ms lowers the integrity from 100 to 99.96. -/
theorem overload_decay_witness :
    (overloaded.updateBeforeCrashCheck (fun q => q) 100).bandwidth <
        (overloaded.updateBeforeCrashCheck (fun q => q) 100).bandwidthUsed ∧
      (overloaded.updateBeforeCrashCheck (fun q => q) 100).integrity < overloaded.integrity ∧
      (overloaded.updateBeforeCrashCheck (fun q => q) 100).integrity = 2499 / 25 :=
  ⟨by decide!,
    (overload_decay (fun q => q) overloaded 100 (by norm_num) (by decide!) (by decide!)
      (by decide!) (by decide!)).2.1,
    by decide!⟩

end DataStream

namespace DataStream

open GameState

/-! ## Neighbour effects: sums and products over the neighbour list -/

theorem foldl_add_eq_sum (g : Nat → ℚ) (f : ℚ → Nat → ℚ) (hf : ∀ acc i, f acc i = acc + g i)
    (l : List Nat) (acc : ℚ) : l.foldl f acc = acc + (l.map g).sum := by
  induction l generalizing acc with
  | nil => simp
  | cons a as ih =>
    rw [List.foldl_cons, ih, hf, List.map_cons, List.sum_cons]
    ring

theorem foldl_mul_eq_prod (g : Nat → ℚ) (f : ℚ → Nat → ℚ) (hf : ∀ acc i, f acc i = acc * g i)
    (l : List Nat) (acc : ℚ) : l.foldl f acc = acc * (l.map g).prod := by
  induction l generalizing acc with
  | nil => simp
  | cons a as ih =>
    rw [List.foldl_cons, ih, hf, List.map_cons, List.prod_cons]
    ring

theorem lossReductionOf_nonneg (allNodes : List Node) (i : Nat) :
    0 ≤ lossReductionOf allNodes i := by
  unfold lossReductionOf
  split
  · exact le_refl 0
  · rename_i neighbor _
    split_ifs
    · cases neighbor.type <;> simp [NODE_TYPES]
    · exact le_refl 0

theorem calculateLossReduction_eq (n : Node) (allNodes : List Node) :
    n.calculateLossReduction allNodes =
      min ((n.connections.map (lossReductionOf allNodes)).sum) (9 / 10) := by
  unfold Node.calculateLossReduction
  rw [foldl_add_eq_sum (lossReductionOf allNodes), zero_add]
  intro acc i
  unfold lossReductionOf
  cases hfind : allNodes.find? (fun m => m.id == i) with
  | none => simp
  | some neighbor =>
    simp only [Node.config]
    cases hact : neighbor.isActive with
    | false => simp
    | true => cases neighbor.type <;> simp [NODE_TYPES]

/-- C15: `calculateLossReduction(allNodes)` is `min(S, 0.9)`, `S` being the sum,
over the neighbour list of the node, of the `lossReduction` values of the
neighbours that are present in `allNodes`, active and of that effect (the others
count 0); the result is between 0 and 0.9. -/
theorem calculateLossReduction_spec (n : Node) (allNodes : List Node) :
    n.calculateLossReduction allNodes =
        min ((n.connections.map (lossReductionOf allNodes)).sum) (9 / 10) ∧
      0 ≤ n.calculateLossReduction allNodes ∧ n.calculateLossReduction allNodes ≤ 9 / 10 := by
  refine ⟨calculateLossReduction_eq n allNodes, ?_, ?_⟩
  · rw [calculateLossReduction_eq]
    refine le_min (List.sum_nonneg ?_) (by norm_num)
    intro q hq
    obtain ⟨i, _, rfl⟩ := List.mem_map.mp hq
    exact lossReductionOf_nonneg allNodes i
  · rw [calculateLossReduction_eq]
    exact min_le_right _ _

theorem calculateDataBonus_eq (n : Node) (allNodes : List Node) :
    n.calculateDataBonus allNodes = (n.connections.map (dataBoostOf allNodes)).prod := by
  unfold Node.calculateDataBonus
  rw [foldl_mul_eq_prod (dataBoostOf allNodes), one_mul]
  intro acc i
  unfold dataBoostOf
  cases hfind : allNodes.find? (fun m => m.id == i) with
  | none => simp
  | some neighbor =>
    simp only [Node.config]
    cases hact : neighbor.isActive with
    | false => simp
    | true => cases neighbor.type <;> simp [NODE_TYPES]

theorem calculateBandwidthReduction_eq (n : Node) (allNodes : List Node) :
    n.calculateBandwidthReduction allNodes =
      (n.connections.map (bandwidthReductionOf allNodes)).prod := by
  unfold Node.calculateBandwidthReduction
  rw [foldl_mul_eq_prod (bandwidthReductionOf allNodes), one_mul]
  intro acc i
  unfold bandwidthReductionOf
  cases hfind : allNodes.find? (fun m => m.id == i) with
  | none => simp
  | some neighbor =>
    simp only [Node.config]
    cases hact : neighbor.isActive with
    | false => simp
    | true => cases neighbor.type <;> simp [NODE_TYPES]

/-- C16: `Node.update` leaves an inactive node as it is; for an active node with a
production rate above 0 it adds exactly `rate * B * deltaTime/1000` to the stored
data and changes nothing else, `B` being the product over the neighbour list of
the data boosts of the present and active neighbours (1 for the others); for an
active node with rate 0 it changes nothing. -/
theorem Node.update_spec (n : Node) (deltaTime : ℚ) (allNodes : List Node) :
    (n.isActive = false → n.update deltaTime allNodes = n) ∧
    (n.isActive = true → 0 < n.dataRate →
      n.update deltaTime allNodes =
        { n with dataStored := n.dataStored +
            n.dataRate * (n.connections.map (dataBoostOf allNodes)).prod * (deltaTime / 1000) }) ∧
    (n.isActive = true → n.dataRate = 0 → n.update deltaTime allNodes = n) := by
  refine ⟨?_, ?_, ?_⟩
  · intro h
    unfold Node.update
    simp [h]
  · intro h hr
    unfold Node.update
    simp only [h, Bool.not_true, Bool.false_eq_true, if_false, hr, if_true,
      calculateDataBonus_eq]
  · intro h hr
    unfold Node.update
    simp [h, hr]

end DataStream


namespace DataStream

open GameState

/-- C16, witness: in a tick of 100 ms the PROCESSOR of `chain` (rate 6, no boosting
neighbour) stores 0.6 units more. -/
theorem Node.update_spec_witness :
    chainProcessor.update 100 chain.nodes =
        { chainProcessor with dataStored := chainProcessor.dataStored +
            chainProcessor.dataRate *
              (chainProcessor.connections.map (dataBoostOf chain.nodes)).prod * (100 / 1000) } ∧
      (chainProcessor.update 100 chain.nodes).dataStored = 3 / 5 :=
  ⟨(Node.update_spec chainProcessor 100 chain.nodes).2.1 (by decide!) (by decide!), by decide!⟩

theorem foldl_bandwidth_eq_sum (allNodes nodes : List Node) (acc : ℚ) :
    nodes.foldl (fun sum node =>
        sum + node.config.bandwidthCost * node.calculateBandwidthReduction allNodes) acc =
      acc + (nodes.map (fun node => (NODE_TYPES node.type).bandwidthCost *
        (node.connections.map (bandwidthReductionOf allNodes)).prod)).sum := by
  induction nodes generalizing acc with
  | nil => simp
  | cons a as ih =>
    rw [List.foldl_cons, ih, List.map_cons, List.sum_cons, calculateBandwidthReduction_eq]
    simp only [Node.config]
    ring

/-- C17: after `updateBandwidthUsage`, `bandwidthUsed` is the sum over the nodes of
`bandwidthCost * R(node)`, `R(node)` being the product over the neighbour list of
the bandwidth reductions of the present and active neighbours, and `bandwidth` is
100, or 115 when FRACTAL_ROUTING is unlocked, whatever it was before. -/
theorem updateBandwidthUsage_spec (s : GameState) :
    s.updateBandwidthUsage.bandwidthUsed =
      (s.nodes.map (fun node => (NODE_TYPES node.type).bandwidthCost *
        (node.connections.map (bandwidthReductionOf s.nodes)).prod)).sum ∧
    s.updateBandwidthUsage.bandwidth =
      (if "FRACTAL_ROUTING" ∈ s.unlockedModules then 115 else 100) := by
  unfold GameState.updateBandwidthUsage
  simp only []
  rw [foldl_bandwidth_eq_sum, zero_add]
  by_cases h : "FRACTAL_ROUTING" ∈ s.unlockedModules
  · have hc : s.unlockedModules.contains "FRACTAL_ROUTING" = true := by simpa using h
    rw [if_pos hc, if_pos h]
    refine ⟨rfl, ?_⟩
    simp only [INITIAL_BANDWIDTH]
    norm_num
  · have hc : ¬ s.unlockedModules.contains "FRACTAL_ROUTING" = true := by simpa using h
    rw [if_neg hc, if_neg h]
    exact ⟨rfl, rfl⟩

/-- C17, witness: in `chain` the PROCESSOR, linked to the ROUTER, counts 4 instead
of 8, the ROUTER 3 and the CORE 0, and the capacity is 100 whatever it was. -/
theorem updateBandwidthUsage_spec_witness :
    chain.updateBandwidthUsage.bandwidthUsed = 7 ∧
      (NODE_TYPES chainProcessor.type).bandwidthCost *
        (chainProcessor.connections.map (bandwidthReductionOf chain.nodes)).prod = 4 ∧
      ({ chain with bandwidth := 12345 } : GameState).updateBandwidthUsage.bandwidth = 100 :=
  ⟨(updateBandwidthUsage_spec chain).1.trans (by decide!), by decide!,
    (updateBandwidthUsage_spec { chain with bandwidth := 12345 }).2.trans (by decide!)⟩

end DataStream

namespace DataStream

open GameState

/-! ## The flow along a connection -/

/-- The saturation and the losses that `Connection.update` records, for
endpoints present in the node list. -/
theorem Connection.update_fields (sqrt : ℚ → ℚ) (conn : Connection) (deltaTime bandwidth : ℚ)
    (allNodes : List Node) (f t : Node)
    (hf : allNodes.find? (fun m => m.id == conn.fromNode) = some f)
    (ht : allNodes.find? (fun m => m.id == conn.toNode) = some t) :
    (conn.update sqrt deltaTime bandwidth allNodes).1.saturation =
        min (f.dataStored / sqrt (f.distanceSqTo t) * 100 / bandwidth) 1 ∧
      (conn.update sqrt deltaTime bandwidth allNodes).1.losses =
        max ((min (sqrt (f.distanceSqTo t) / 500) (3 / 10) +
            min (f.dataStored / sqrt (f.distanceSqTo t) * 100 / bandwidth) 1 * (1 / 5)) *
          (1 - (f.calculateLossReduction allNodes + t.calculateLossReduction allNodes) / 2)) 0 := by
  unfold Connection.update
  rw [hf, ht]
  simp only []
  split_ifs <;> exact ⟨rfl, rfl⟩

theorem calculateLossReduction_range (n : Node) (allNodes : List Node) :
    0 ≤ n.calculateLossReduction allNodes ∧ n.calculateLossReduction allNodes ≤ 9 / 10 := by
  rw [calculateLossReduction_eq]
  refine ⟨le_min (List.sum_nonneg ?_) (by norm_num), min_le_right _ _⟩
  intro q hq
  obtain ⟨i, _, rfl⟩ := List.mem_map.mp hq
  exact lossReductionOf_nonneg allNodes i

/-- C13: for a `Connection.update` whose source holds stored data `>= 0`, whose
endpoints are at positive distance and whose bandwidth capacity is positive, the
saturation recorded is between 0 and 1 and the losses recorded satisfy
`0.1 * baseLoss <= losses <= baseLoss <= 0.5`, with
`baseLoss = min(dist/500, 0.3) + 0.2 * saturation`. -/
theorem Connection.update_bounds (sqrt : ℚ → ℚ) (conn : Connection) (deltaTime bandwidth : ℚ)
    (allNodes : List Node) (f t : Node)
    (hf : allNodes.find? (fun m => m.id == conn.fromNode) = some f)
    (ht : allNodes.find? (fun m => m.id == conn.toNode) = some t)
    (hdata : 0 ≤ f.dataStored) (hdist : 0 < sqrt (f.distanceSqTo t)) (hbw : 0 < bandwidth) :
    0 ≤ (conn.update sqrt deltaTime bandwidth allNodes).1.saturation ∧
    (conn.update sqrt deltaTime bandwidth allNodes).1.saturation ≤ 1 ∧
    (1 / 10) * (min (sqrt (f.distanceSqTo t) / 500) (3 / 10) +
        (1 / 5) * (conn.update sqrt deltaTime bandwidth allNodes).1.saturation) ≤
      (conn.update sqrt deltaTime bandwidth allNodes).1.losses ∧
    (conn.update sqrt deltaTime bandwidth allNodes).1.losses ≤
      min (sqrt (f.distanceSqTo t) / 500) (3 / 10) +
        (1 / 5) * (conn.update sqrt deltaTime bandwidth allNodes).1.saturation ∧
    min (sqrt (f.distanceSqTo t) / 500) (3 / 10) +
        (1 / 5) * (conn.update sqrt deltaTime bandwidth allNodes).1.saturation ≤ 1 / 2 := by
  obtain ⟨hs, hl⟩ := Connection.update_fields sqrt conn deltaTime bandwidth allNodes f t hf ht
  rw [hl, hs]
  have hsat0 : 0 ≤ min (f.dataStored / sqrt (f.distanceSqTo t) * 100 / bandwidth) 1 := by
    apply le_min _ (by norm_num)
    positivity
  have hsat1 : min (f.dataStored / sqrt (f.distanceSqTo t) * 100 / bandwidth) 1 ≤ 1 :=
    min_le_right _ _
  have hd0 : 0 ≤ min (sqrt (f.distanceSqTo t) / 500) (3 / 10) := by
    apply le_min _ (by norm_num)
    positivity
  have hd1 : min (sqrt (f.distanceSqTo t) / 500) (3 / 10) ≤ 3 / 10 := min_le_right _ _
  obtain ⟨hf0, hf1⟩ := calculateLossReduction_range f allNodes
  obtain ⟨ht0, ht1⟩ := calculateLossReduction_range t allNodes
  generalize f.calculateLossReduction allNodes = rf at hf0 hf1
  generalize t.calculateLossReduction allNodes = rt at ht0 ht1
  generalize min (f.dataStored / sqrt (f.distanceSqTo t) * 100 / bandwidth) 1 = sat at hsat0 hsat1
  generalize min (sqrt (f.distanceSqTo t) / 500) (3 / 10) = dl at hd0 hd1
  have hbase : 0 ≤ dl + sat * (1 / 5) := by linarith
  have hred0 : 0 ≤ (rf + rt) / 2 := by linarith
  have hred1 : (rf + rt) / 2 ≤ 9 / 10 := by linarith
  have hprod : 0 ≤ (dl + sat * (1 / 5)) * (1 - (rf + rt) / 2) :=
    mul_nonneg hbase (by linarith)
  rw [max_eq_left hprod]
  refine ⟨hsat0, hsat1, ?_, ?_, by linarith⟩
  · nlinarith
  · nlinarith

end DataStream


namespace DataStream

open GameState

/-- C13, witness: the connection from `flowSource` (one unit stored) to
`flowTarget`, 100 units apart, under a capacity of 100. -/
theorem Connection.update_bounds_witness :
    (flowLink.update (fun _ => 100) 100 100 [flowSource, flowTarget]).1.saturation = 1 / 100 ∧
      (flowLink.update (fun _ => 100) 100 100 [flowSource, flowTarget]).1.losses = 101 / 500 ∧
      (flowLink.update (fun _ => 100) 100 100 [flowSource, flowTarget]).1.saturation ≤ 1 :=
  ⟨by decide!, by decide!,
    (Connection.update_bounds (fun _ => 100) flowLink 100 100 [flowSource, flowTarget]
      flowSource flowTarget (by decide!) (by decide!) (by decide!) (by norm_num)
      (by norm_num)).2.1⟩

theorem find?_updateNode (nodes : List Node) (i j : Nat) (g : Node → Node)
    (hg : ∀ n, (g n).id = n.id) :
    (updateNode nodes i g).find? (fun m => m.id == j) =
      (nodes.find? (fun m => m.id == j)).map (fun n => if n.id = i then g n else n) := by
  induction nodes with
  | nil => rfl
  | cons a as ih =>
    have hid : (if a.id = i then g a else a).id = a.id := by
      split_ifs
      · exact hg a
      · rfl
    unfold updateNode at ih ⊢
    rw [List.map_cons]
    by_cases h : a.id = j
    · rw [List.find?_cons_of_pos _ (by simpa using hid.trans h),
        List.find?_cons_of_pos _ (by simpa using h)]
      rfl
    · rw [List.find?_cons_of_neg _ (by simpa [hid] using h),
        List.find?_cons_of_neg _ (by simpa using h), ih]

end DataStream


namespace DataStream

open GameState

/-- C14 (as stated, refuted): with `deltaTime = -1000` the update of the connection
from `flowSource` (one unit stored) to `flowTarget` takes a negative amount from
the source, and the stored data of the two nodes sums to 1.202 afterwards, more
than the 1 before. -/
theorem Connection.update_sum_counterexample :
    flowLink.fromNode ≠ flowLink.toNode ∧ 0 < flowSource.dataStored ∧
      ([flowSource, flowTarget].map (fun n => n.dataStored)).sum = 1 ∧
      ((flowLink.update (fun _ => 100) (-1000) 100 [flowSource, flowTarget]).2.map
        (fun n => n.dataStored)).sum = 601 / 500 := by
  decide!

/-- C14 (amended): for a `Connection.update` between two different nodes present in
the node list: if the source holds `available > 0`, the source loses
`transfer = min(available, 1) * deltaTime/1000`, the destination gains
`effective = transfer * (1 - losses)` and `flowRate = effective`; for
`deltaTime >= 0` the sum of the two stored amounts does not increase, and for
`0 <= deltaTime <= 1000` the source stays `>= 0`; if `available <= 0` no node
changes and `flowRate = 0`. -/
theorem Connection.update_transfer (sqrt : ℚ → ℚ) (conn : Connection)
    (deltaTime bandwidth : ℚ) (allNodes : List Node) (f t : Node)
    (hf : allNodes.find? (fun m => m.id == conn.fromNode) = some f)
    (ht : allNodes.find? (fun m => m.id == conn.toNode) = some t)
    (hne : conn.fromNode ≠ conn.toNode) :
    (0 < f.dataStored →
      (conn.update sqrt deltaTime bandwidth allNodes).2.find? (fun m => m.id == conn.fromNode) =
        some { f with dataStored := f.dataStored - min f.dataStored 1 * (deltaTime / 1000) } ∧
      (conn.update sqrt deltaTime bandwidth allNodes).2.find? (fun m => m.id == conn.toNode) =
        some { t with dataStored := t.dataStored + min f.dataStored 1 * (deltaTime / 1000) *
          (1 - (conn.update sqrt deltaTime bandwidth allNodes).1.losses) } ∧
      (conn.update sqrt deltaTime bandwidth allNodes).1.flowRate =
        min f.dataStored 1 * (deltaTime / 1000) *
          (1 - (conn.update sqrt deltaTime bandwidth allNodes).1.losses) ∧
      (0 ≤ deltaTime →
        (f.dataStored - min f.dataStored 1 * (deltaTime / 1000)) +
          (t.dataStored + min f.dataStored 1 * (deltaTime / 1000) *
            (1 - (conn.update sqrt deltaTime bandwidth allNodes).1.losses)) ≤
          f.dataStored + t.dataStored) ∧
      (0 ≤ deltaTime → deltaTime ≤ 1000 →
        0 ≤ f.dataStored - min f.dataStored 1 * (deltaTime / 1000))) ∧
    (f.dataStored ≤ 0 →
      (conn.update sqrt deltaTime bandwidth allNodes).2 = allNodes ∧
      (conn.update sqrt deltaTime bandwidth allNodes).1.flowRate = 0) := by
  have hfid : f.id = conn.fromNode := by simpa using List.find?_some hf
  have htid : t.id = conn.toNode := by simpa using List.find?_some ht
  obtain ⟨-, hl⟩ := Connection.update_fields sqrt conn deltaTime bandwidth allNodes f t hf ht
  have hl0 : 0 ≤ (conn.update sqrt deltaTime bandwidth allNodes).1.losses := by
    rw [hl]
    exact le_max_right _ _
  constructor
  · intro hpos
    have hmin0 : 0 < min f.dataStored 1 := lt_min hpos (by norm_num)
    have hmin1 : min f.dataStored 1 ≤ f.dataStored := min_le_left _ _
    have hnodes : (conn.update sqrt deltaTime bandwidth allNodes).2 =
        updateNode (updateNode allNodes conn.fromNode
          (fun m => { m with dataStored := m.dataStored - min f.dataStored 1 * (deltaTime / 1000) }))
          conn.toNode (fun m => m.addData (min f.dataStored 1 * (deltaTime / 1000) *
            (1 - (conn.update sqrt deltaTime bandwidth allNodes).1.losses))) := by
      rw [hl]
      unfold Connection.update
      rw [hf, ht]
      simp only [hpos, if_true]
    have hflow : (conn.update sqrt deltaTime bandwidth allNodes).1.flowRate =
        min f.dataStored 1 * (deltaTime / 1000) *
          (1 - (conn.update sqrt deltaTime bandwidth allNodes).1.losses) := by
      rw [hl]
      unfold Connection.update
      rw [hf, ht]
      simp only [hpos, if_true]
    refine ⟨?_, ?_, hflow, ?_, ?_⟩
    · rw [hnodes, find?_updateNode, find?_updateNode, hf]
      · simp only [Option.map_some', hfid, if_true, if_neg hne]
      · intro n; rfl
      · intro n; rfl
    · rw [hnodes, find?_updateNode, find?_updateNode, ht]
      · simp only [Option.map_some', htid, if_neg (Ne.symm hne), if_true, Node.addData]
      · intro n; rfl
      · intro n; rfl
    · intro hdt
      have h1 : 0 ≤ min f.dataStored 1 * (deltaTime / 1000) :=
        mul_nonneg hmin0.le (div_nonneg hdt (by norm_num))
      nlinarith
    · intro hdt0 hdt1
      have h1 : deltaTime / 1000 ≤ 1 := by
        rw [div_le_one (by norm_num)]
        exact hdt1
      have h2 : 0 ≤ deltaTime / 1000 := div_nonneg hdt0 (by norm_num)
      nlinarith
  · intro hle
    unfold Connection.update
    rw [hf, ht]
    simp only [not_lt.mpr hle, if_false, and_self]

/-- C14, witness: in a tick of 100 ms the connection from `flowSource` to
`flowTarget` takes 0.1 from the source and hands 0.0798 to the destination. -/
theorem Connection.update_transfer_witness :
    ((flowLink.update (fun _ => 100) 100 100 [flowSource, flowTarget]).2.map
        (fun n => n.dataStored)) = [9 / 10, 399 / 5000] ∧
      (flowLink.update (fun _ => 100) 100 100 [flowSource, flowTarget]).1.flowRate =
        min flowSource.dataStored 1 * (100 / 1000) *
          (1 - (flowLink.update (fun _ => 100) 100 100 [flowSource, flowTarget]).1.losses) :=
  ⟨by decide!,
    ((Connection.update_transfer (fun _ => 100) flowLink 100 100 [flowSource, flowTarget]
      flowSource flowTarget (by decide!) (by decide!) (by decide!)).1 (by decide!)).2.2.1⟩

end DataStream

namespace DataStream

open GameState

/-! ## Saving and restoring nodes -/

/-- C18: for every node `n` (and every value of the counter),
`Node.deserialize(n.serialize())` has the identifier, type, position, stored data,
neighbour list and active flag of `n`. -/
theorem deserialize_serialize (n : Node) (nextId : Nat) :
    (Node.deserialize nextId n.serialize).1.id = n.id ∧
    (Node.deserialize nextId n.serialize).1.type = n.type ∧
    (Node.deserialize nextId n.serialize).1.x = n.x ∧
    (Node.deserialize nextId n.serialize).1.y = n.y ∧
    (Node.deserialize nextId n.serialize).1.dataStored = n.dataStored ∧
    (Node.deserialize nextId n.serialize).1.connections = n.connections ∧
    (Node.deserialize nextId n.serialize).1.isActive = n.isActive :=
  ⟨rfl, rfl, rfl, rfl, rfl, rfl, rfl⟩

theorem construct_counter (k : Nat) (type : NodeType) (x y : ℚ) :
    k ≤ (Node.construct k type x y).2 ∧
      (Node.construct k type x y).1.id < (Node.construct k type x y).2 ∧
      (Node.construct k type x y).1.id = k := by
  unfold Node.construct Node.create
  exact ⟨Nat.le_succ k, Nat.lt_succ_self k, rfl⟩

theorem deserialize_counter (k : Nat) (d : SavedNode) :
    k ≤ (Node.deserialize k d).2 ∧ d.id < (Node.deserialize k d).2 ∧
      (Node.deserialize k d).1.id = d.id := by
  unfold Node.deserialize Node.construct
  simp only []
  split_ifs with h
  · exact ⟨by omega, by omega, trivial⟩
  · exact ⟨by omega, by omega, trivial⟩

theorem NodeEvent.apply_spec (st : Nat × List Nat) (e : NodeEvent)
    (h : ∀ i ∈ st.2, i < st.1) :
    st.1 ≤ (NodeEvent.apply st e).1 ∧ (∀ i ∈ (NodeEvent.apply st e).2, i < (NodeEvent.apply st e).1) := by
  cases e with
  | construct type x y =>
    obtain ⟨h1, h2, -⟩ := construct_counter st.1 type x y
    refine ⟨h1, ?_⟩
    intro i hi
    simp only [NodeEvent.apply, List.mem_append, List.mem_singleton] at hi
    rcases hi with hi | hi
    · exact lt_of_lt_of_le (h i hi) h1
    · rw [hi]; exact h2
  | deserialize d =>
    obtain ⟨h1, h2, h3⟩ := deserialize_counter st.1 d
    refine ⟨h1, ?_⟩
    intro i hi
    simp only [NodeEvent.apply, List.mem_append, List.mem_singleton] at hi
    rcases hi with hi | hi
    · exact lt_of_lt_of_le (h i hi) h1
    · rw [hi, h3]; exact h2

theorem foldl_nodeEvents (events : List NodeEvent) (st : Nat × List Nat)
    (h : ∀ i ∈ st.2, i < st.1) :
    st.1 ≤ (events.foldl NodeEvent.apply st).1 ∧
      ∀ i ∈ (events.foldl NodeEvent.apply st).2, i < (events.foldl NodeEvent.apply st).1 := by
  induction events generalizing st with
  | nil => exact ⟨le_refl _, h⟩
  | cons e es ih =>
    rw [List.foldl_cons]
    obtain ⟨h1, h2⟩ := NodeEvent.apply_spec st e h
    obtain ⟨k1, k2⟩ := ih (NodeEvent.apply st e) h2
    exact ⟨le_trans h1 k1, k2⟩

/-- C19: the counter `Node.nextId` never decreases; the constructor gives its node
an identifier strictly below the counter afterwards; after `Node.deserialize(d)`
the counter is strictly above `d.id`.  Hence after any sequence of creations all
identifiers created or restored are below the counter and the next node
constructed gets an identifier different from all of them; and in every
reachable state the identifiers of the nodes of the graph are pairwise
different. -/
theorem nextId_discipline :
    (∀ (k : Nat) (type : NodeType) (x y : ℚ),
      k ≤ (Node.construct k type x y).2 ∧
        (Node.construct k type x y).1.id < (Node.construct k type x y).2) ∧
    (∀ (k : Nat) (d : SavedNode),
      k ≤ (Node.deserialize k d).2 ∧ d.id < (Node.deserialize k d).2 ∧
        (Node.deserialize k d).1.id = d.id) ∧
    (∀ (c0 : Nat) (events : List NodeEvent),
      c0 ≤ (events.foldl NodeEvent.apply (c0, [])).1 ∧
      (∀ i ∈ (events.foldl NodeEvent.apply (c0, [])).2,
        i < (events.foldl NodeEvent.apply (c0, [])).1) ∧
      ∀ (type : NodeType) (x y : ℚ),
        (Node.construct (events.foldl NodeEvent.apply (c0, [])).1 type x y).1.id ∉
          (events.foldl NodeEvent.apply (c0, [])).2) ∧
    (∀ (id0 : Nat) (s : GameState), Reachable id0 s → (s.nodes.map (fun n => n.id)).Nodup) := by
  refine ⟨fun k type x y => ⟨(construct_counter k type x y).1, (construct_counter k type x y).2.1⟩,
    deserialize_counter, ?_, fun _ _ h => h.idsFresh.1⟩
  intro c0 events
  obtain ⟨h1, h2⟩ := foldl_nodeEvents events (c0, []) (by simp)
  refine ⟨h1, h2, ?_⟩
  intro type x y hmem
  have := h2 _ hmem
  rw [(construct_counter _ type x y).2.2] at this
  exact lt_irrefl _ this

/-- C19, witness: a node restored with identifier 7 when the counter is 3 moves
the counter to 8, and the node constructed next gets the identifier 8. -/
theorem nextId_discipline_witness :
    ([NodeEvent.deserialize chainRouter.serialize, NodeEvent.deserialize
        { chainRouter.serialize with id := 7 }, NodeEvent.construct .CACHE 0 0].foldl
      NodeEvent.apply (3, [])) = (9, [2, 7, 8]) ∧
    3 ≤ ([NodeEvent.deserialize chainRouter.serialize, NodeEvent.deserialize
        { chainRouter.serialize with id := 7 }, NodeEvent.construct .CACHE 0 0].foldl
      NodeEvent.apply (3, [])).1 :=
  ⟨by decide!, (nextId_discipline.2.2.1 3 _).1⟩

end DataStream

namespace DataStream

open GameState

/-! ## The connections rebuilt by `load` -/

theorem Joined.mono {cs ds : List Connection} (h : ∀ c ∈ cs, c ∈ ds) {a b : Nat}
    (hj : Joined cs a b) : Joined ds a b := by
  obtain ⟨c, hc, hcj⟩ := hj
  exact ⟨c, h c hc, hcj⟩

theorem Connection.exists_iff_joined (a b : Node) (cs : List Connection) :
    Connection.exists a b cs = true ↔ Joined cs a.id b.id := by
  unfold Connection.exists Joined
  simp only [List.any_eq_true, Bool.or_eq_true, Bool.and_eq_true, beq_iff_eq]

/-- The invariant of the rebuilding: every connection starts at a node of the list
and ends in that node's neighbour list, and no two connections join the same
pair. -/
theorem rebuildStep_spec (nodes : List Node) (a : Node) (conns : List Connection) (b : Nat)
    (ha : a ∈ nodes) (hb : b ∈ a.connections) (href : ∃ n ∈ nodes, n.id = b)
    (h2 : ∀ c ∈ conns, ∃ n ∈ nodes, n.id = c.fromNode ∧ c.toNode ∈ n.connections)
    (h3 : conns.Pairwise (fun c d => ¬ SamePair c d)) :
    (∀ c ∈ rebuildStep nodes a conns b,
        ∃ n ∈ nodes, n.id = c.fromNode ∧ c.toNode ∈ n.connections) ∧
      (rebuildStep nodes a conns b).Pairwise (fun c d => ¬ SamePair c d) ∧
      (∀ c ∈ conns, c ∈ rebuildStep nodes a conns b) ∧
      Joined (rebuildStep nodes a conns b) a.id b := by
  obtain ⟨tn, hfind, htid, -⟩ := find?_id_of_mem nodes b href
  unfold GameState.rebuildStep
  rw [hfind]
  simp only []
  by_cases hex : Connection.exists a tn conns = true
  · rw [if_pos hex]
    refine ⟨h2, h3, fun c hc => hc, ?_⟩
    rw [← htid]
    exact (Connection.exists_iff_joined a tn conns).mp hex
  · rw [if_neg hex]
    refine ⟨?_, ?_, fun c hc => List.mem_append_left _ hc, ?_⟩
    · intro c hc
      rcases List.mem_append.mp hc with hc | hc
      · exact h2 c hc
      · rw [List.mem_singleton] at hc
        rw [hc]
        exact ⟨a, ha, rfl, by simpa [Connection.create, htid] using hb⟩
    · rw [List.pairwise_append]
      refine ⟨h3, List.pairwise_singleton _ _, ?_⟩
      intro c hc d hd hsame
      rw [List.mem_singleton] at hd
      apply hex
      rw [Connection.exists_iff_joined]
      refine ⟨c, hc, ?_⟩
      rw [hd] at hsame
      exact hsame
    · exact ⟨Connection.create a tn, by simp, Or.inl ⟨rfl, htid⟩⟩

theorem foldl_rebuildStep_spec (nodes : List Node) (a : Node) (ha : a ∈ nodes)
    (href : ∀ b ∈ a.connections, ∃ n ∈ nodes, n.id = b)
    (l : List Nat) (hl : ∀ b ∈ l, b ∈ a.connections) (conns : List Connection)
    (h2 : ∀ c ∈ conns, ∃ n ∈ nodes, n.id = c.fromNode ∧ c.toNode ∈ n.connections)
    (h3 : conns.Pairwise (fun c d => ¬ SamePair c d)) :
    (∀ c ∈ l.foldl (rebuildStep nodes a) conns,
        ∃ n ∈ nodes, n.id = c.fromNode ∧ c.toNode ∈ n.connections) ∧
      (l.foldl (rebuildStep nodes a) conns).Pairwise (fun c d => ¬ SamePair c d) ∧
      (∀ c ∈ conns, c ∈ l.foldl (rebuildStep nodes a) conns) ∧
      ∀ b ∈ l, Joined (l.foldl (rebuildStep nodes a) conns) a.id b := by
  induction l generalizing conns with
  | nil => exact ⟨h2, h3, fun c hc => hc, fun b hb => by cases hb⟩
  | cons b bs ih =>
    rw [List.foldl_cons]
    have hb := hl b (List.mem_cons_self b bs)
    obtain ⟨k2, k3, k4, k1⟩ := rebuildStep_spec nodes a conns b ha hb (href b hb) h2 h3
    obtain ⟨m2, m3, m4, m1⟩ := ih (fun x hx => hl x (List.mem_cons_of_mem b hx)) _ k2 k3
    refine ⟨m2, m3, fun c hc => m4 c (k4 c hc), ?_⟩
    intro x hx
    rcases List.mem_cons.mp hx with rfl | hx'
    · exact Joined.mono m4 k1
    · exact m1 x hx'

theorem foldl_rebuild_spec (nodes : List Node)
    (href : ∀ a ∈ nodes, ∀ b ∈ a.connections, ∃ n ∈ nodes, n.id = b)
    (ns : List Node) (hns : ∀ a ∈ ns, a ∈ nodes) (conns : List Connection)
    (h2 : ∀ c ∈ conns, ∃ n ∈ nodes, n.id = c.fromNode ∧ c.toNode ∈ n.connections)
    (h3 : conns.Pairwise (fun c d => ¬ SamePair c d)) :
    (∀ c ∈ ns.foldl (fun connections node =>
          node.connections.foldl (rebuildStep nodes node) connections) conns,
        ∃ n ∈ nodes, n.id = c.fromNode ∧ c.toNode ∈ n.connections) ∧
      (ns.foldl (fun connections node =>
          node.connections.foldl (rebuildStep nodes node) connections) conns).Pairwise
        (fun c d => ¬ SamePair c d) ∧
      (∀ c ∈ conns, c ∈ ns.foldl (fun connections node =>
          node.connections.foldl (rebuildStep nodes node) connections) conns) ∧
      ∀ a ∈ ns, ∀ b ∈ a.connections, Joined (ns.foldl (fun connections node =>
          node.connections.foldl (rebuildStep nodes node) connections) conns) a.id b := by
  induction ns generalizing conns with
  | nil => exact ⟨h2, h3, fun c hc => hc, fun a ha => by cases ha⟩
  | cons a as ih =>
    rw [List.foldl_cons]
    have ha := hns a (List.mem_cons_self a as)
    obtain ⟨k2, k3, k4, k1⟩ := foldl_rebuildStep_spec nodes a ha (href a ha) a.connections
      (fun b hb => hb) conns h2 h3
    obtain ⟨m2, m3, m4, m1⟩ := ih (fun x hx => hns x (List.mem_cons_of_mem a hx)) _ k2 k3
    refine ⟨m2, m3, fun c hc => m4 c (k4 c hc), ?_⟩
    intro x hx b hb
    rcases List.mem_cons.mp hx with rfl | hx'
    · exact Joined.mono m4 (k1 b hb)
    · exact m1 x hx' b hb

theorem length_filter_le_one_of_pairwise (cs : List Connection) (p : Connection → Bool)
    (hp : ∀ c d, p c = true → p d = true → SamePair c d)
    (h : cs.Pairwise (fun c d => ¬ SamePair c d)) : (cs.filter p).length ≤ 1 := by
  have hf : (cs.filter p).Pairwise (fun c d => ¬ SamePair c d) :=
    h.sublist (List.filter_sublist cs)
  cases hl : cs.filter p with
  | nil => simp
  | cons c rest =>
    cases rest with
    | nil => simp
    | cons d rest' =>
      rw [hl] at hf
      have hc : p c = true := by
        have : c ∈ cs.filter p := by rw [hl]; simp
        exact (List.mem_filter.mp this).2
      have hd : p d = true := by
        have : d ∈ cs.filter p := by rw [hl]; simp
        exact (List.mem_filter.mp this).2
      have := (List.pairwise_cons.mp hf).1 d (by simp)
      exact absurd (hp c d hc hd) this

/-- C20: for a saved node list whose neighbour lists name only saved nodes (in
particular one with pairwise different identifiers and symmetric neighbour
lists), the connection list rebuilt by `load` holds exactly one connection for
every pair `{a, b}` with `b` in the neighbour list of `a`, every connection joins
such a pair, and no two connections join the same pair. -/
theorem rebuildConnections_spec (nodes : List Node)
    (href : ∀ a ∈ nodes, ∀ b ∈ a.connections, ∃ n ∈ nodes, n.id = b) :
    (∀ a ∈ nodes, ∀ b ∈ a.connections,
      ((rebuildConnections nodes).filter (fun c =>
        (c.fromNode == a.id && c.toNode == b) || (c.fromNode == b && c.toNode == a.id))).length
        = 1) ∧
    (∀ c ∈ rebuildConnections nodes,
      ∃ a ∈ nodes, a.id = c.fromNode ∧ c.toNode ∈ a.connections) ∧
    (rebuildConnections nodes).Pairwise (fun c d => ¬ SamePair c d) := by
  obtain ⟨h2, h3, -, h1⟩ := foldl_rebuild_spec nodes href nodes (fun a ha => ha) []
    (fun c hc => by cases hc) List.Pairwise.nil
  refine ⟨?_, h2, h3⟩
  intro a ha b hb
  apply le_antisymm
  · apply length_filter_le_one_of_pairwise _ _ _ h3
    intro c d hc hd
    simp only [Bool.or_eq_true, Bool.and_eq_true, beq_iff_eq] at hc hd
    unfold SamePair
    rcases hc with ⟨c1, c2⟩ | ⟨c1, c2⟩ <;> rcases hd with ⟨d1, d2⟩ | ⟨d1, d2⟩
    · exact Or.inl ⟨c1.trans d1.symm, c2.trans d2.symm⟩
    · exact Or.inr ⟨c1.trans d2.symm, c2.trans d1.symm⟩
    · exact Or.inr ⟨c1.trans d2.symm, c2.trans d1.symm⟩
    · exact Or.inl ⟨c1.trans d1.symm, c2.trans d2.symm⟩
  · obtain ⟨c, hc, hj⟩ := h1 a ha b hb
    apply List.length_pos_of_mem (a := c)
    rw [List.mem_filter]
    refine ⟨hc, ?_⟩
    simp only [Bool.or_eq_true, Bool.and_eq_true, beq_iff_eq]
    exact hj

/-- C20, witness: the nodes of `chain`, whose neighbour lists are `[1]`, `[0, 2]`
and `[1]`, give back two connections, one per pair. -/
theorem rebuildConnections_spec_witness :
    (rebuildConnections chain.nodes).map (fun c => (c.fromNode, c.toNode)) = [(0, 1), (1, 2)] ∧
      (rebuildConnections chain.nodes).Pairwise (fun c d => ¬ SamePair c d) :=
  ⟨by decide!, (rebuildConnections_spec chain.nodes (by decide!)).2.2⟩

end DataStream

namespace DataStream

open GameState

/-! ## Neighbour lists as sets: `connectTo` and `disconnectFrom` -/

theorem Node.connectTo_of_mem (n : Node) (i : Nat) (h : i ∈ n.connections) :
    n.connectTo i = n := by
  unfold Node.connectTo
  rw [if_pos (by simpa using h)]

/-- C22: on every neighbour list and identifier, a second `connectTo` changes
nothing, `connectTo` adds no duplicate (a list without duplicates stays so, and
no identifier gains a second occurrence), a second `disconnectFrom` changes
nothing, and on a list without the identifier `disconnectFrom` undoes
`connectTo`. -/
theorem connect_disconnect_idempotent (n : Node) (id : Nat) :
    (n.connectTo id).connectTo id = n.connectTo id ∧
    (n.connections.Nodup → (n.connectTo id).connections.Nodup) ∧
    (∀ j, (n.connectTo id).connections.count j ≤ max (n.connections.count j) 1) ∧
    (n.disconnectFrom id).disconnectFrom id = n.disconnectFrom id ∧
    (id ∉ n.connections → (n.connectTo id).disconnectFrom id = n) := by
  refine ⟨Node.connectTo_of_mem _ _ (Node.mem_connectTo n id), ?_, ?_, ?_, ?_⟩
  · intro hnd
    by_cases h : id ∈ n.connections
    · rw [Node.connectTo_of_mem n id h]
      exact hnd
    · rw [Node.connectTo_of_not_mem n id h]
      exact List.Nodup.append hnd (List.nodup_singleton id) (by simpa using h)
  · intro j
    by_cases h : id ∈ n.connections
    · rw [Node.connectTo_of_mem n id h]
      exact le_max_left _ _
    · rw [Node.connectTo_of_not_mem n id h, List.count_append]
      by_cases hj : j = id
      · subst hj
        rw [List.count_eq_zero_of_not_mem h]
        simp
      · have : List.count j [id] = 0 := by
          rw [List.count_eq_zero]
          simpa using hj
        rw [this]
        exact le_max_left _ _
  · unfold Node.disconnectFrom
    simp only [List.filter_filter, Bool.and_self]
  · intro h
    unfold Node.connectTo Node.disconnectFrom
    rw [if_neg (by simpa using h)]
    cases n with
    | mk id0 type x y dataStored dataRate isActive connections =>
      simp only [Node.mk.injEq, true_and]
      simp only at h
      rw [List.filter_append]
      have h1 : connections.filter (fun i => i != id) = connections := by
        rw [List.filter_eq_self]
        intro a ha
        have : a ≠ id := fun e => h (e ▸ ha)
        simpa using this
      rw [h1]
      simp

/-- C22, witness: the PROCESSOR of `chain`, whose neighbour list `[0, 2]` does not
hold 5, is itself again after `connectTo(5)` and `disconnectFrom(5)`. -/
theorem connect_disconnect_idempotent_witness :
    5 ∉ chainProcessor.connections ∧
      (chainProcessor.connectTo 5).disconnectFrom 5 = chainProcessor :=
  ⟨by decide!, (connect_disconnect_idempotent chainProcessor 5).2.2.2.2 (by decide!)⟩

/-! ## Prestige modules -/

theorem addNode_modules (s : GameState) (type : NodeType) (x y : ℚ) :
    (s.addNode type x y).2.unlockedModules = s.unlockedModules ∧
      (s.addNode type x y).2.consciousnessFragments = s.consciousnessFragments ∧
      (s.addNode type x y).2.prestigeCount = s.prestigeCount := by
  cases hs : (s.addNode type x y).1.success with
  | false => rw [addNode_failure_state s type x y hs]; exact ⟨rfl, rfl, rfl⟩
  | true =>
    rw [addNode_success_state s type x y hs, GameState.autoConnectNode]
    obtain ⟨ns, cs, h⟩ := foldl_connectStep_shape
      (s.applyUpgradesToNode (Node.create s.nextId type x y))
      (GameState.nearbyNodes { s with
        nodes := s.nodes ++ [s.applyUpgradesToNode (Node.create s.nextId type x y)]
        nextId := s.nextId + 1
        data := s.data - s.getNodeCost type }
        (s.applyUpgradesToNode (Node.create s.nextId type x y)))
      { s with
        nodes := s.nodes ++ [s.applyUpgradesToNode (Node.create s.nextId type x y)]
        nextId := s.nextId + 1
        data := s.data - s.getNodeCost type }
    rw [h]
    exact ⟨rfl, rfl, rfl⟩

theorem update_modules (sqrt : ℚ → ℚ) (w : Bool) (s : GameState) (deltaTime : ℚ) :
    (s.update sqrt w deltaTime).unlockedModules = s.unlockedModules ∧
      (s.update sqrt w deltaTime).consciousnessFragments = s.consciousnessFragments := by
  obtain ⟨-, h1, -, -, -, h2, -, -⟩ := updateBeforeCrashCheck_frame sqrt s deltaTime
  unfold GameState.update
  split_ifs
  · exact ⟨rfl, rfl⟩
  · unfold GameState.checkCrash
    split_ifs
    · exact ⟨h1, h2⟩
    · exact ⟨h1, h2⟩
    · exact ⟨h1, h2⟩

theorem unlockModule_success_iff (s : GameState) (moduleName : String) (cost : ℚ) :
    (s.unlockModule moduleName cost).1.success = true ↔
      cost ≤ s.consciousnessFragments ∧ moduleName ∉ s.unlockedModules := by
  unfold GameState.unlockModule
  by_cases h1 : s.consciousnessFragments < cost
  · rw [if_pos h1]
    simp [Outcome.failure, not_le.mpr h1]
  · rw [if_neg h1]
    by_cases h2 : s.unlockedModules.contains moduleName = true
    · rw [if_pos h2]
      have : moduleName ∈ s.unlockedModules := by simpa using h2
      simp [Outcome.failure, this]
    · rw [if_neg h2]
      have : moduleName ∉ s.unlockedModules := by simpa using h2
      simp [Outcome.ok, this, not_lt.mp h1]

theorem unlockModule_success_state (s : GameState) (moduleName : String) (cost : ℚ)
    (h : (s.unlockModule moduleName cost).1.success = true) :
    (s.unlockModule moduleName cost).2 =
      { s with
        consciousnessFragments := s.consciousnessFragments - cost
        unlockedModules := s.unlockedModules ++ [moduleName] } := by
  obtain ⟨h1, h2⟩ := (unlockModule_success_iff s moduleName cost).mp h
  unfold GameState.unlockModule
  rw [if_neg (not_lt.mpr h1), if_neg (by simpa using h2)]

theorem unlockModule_failure_state (s : GameState) (moduleName : String) (cost : ℚ)
    (h : (s.unlockModule moduleName cost).1.success = false) :
    (s.unlockModule moduleName cost).2 = s := by
  unfold GameState.unlockModule at h ⊢
  split_ifs at h ⊢
  · rfl
  · rfl
  · simp [Outcome.ok] at h

/-- In every reachable state no module key is unlocked twice and the fragments
are not negative. -/
theorem Reachable.modules {id0 : Nat} {s : GameState} (h : Reachable id0 s) :
    s.unlockedModules.Nodup ∧ 0 ≤ s.consciousnessFragments := by
  induction h with
  | create => exact ⟨List.nodup_nil, le_refl _⟩
  | @update sqrt w dt s _ ih =>
    obtain ⟨h1, h2⟩ := update_modules sqrt w s dt
    rw [h1, h2]
    exact ih
  | @addNode type x y s _ ih =>
    obtain ⟨h1, h2, -⟩ := addNode_modules s type x y
    rw [h1, h2]
    exact ih
  | @createConnection a b s _ _ _ ih =>
    unfold GameState.createConnection
    split_ifs <;> exact ih
  | @deleteNode n s _ _ ih =>
    unfold GameState.deleteNode
    split_ifs <;> exact ih
  | @prestige s _ ih =>
    unfold GameState.prestige
    split_ifs with hd
    · exact ih
    · refine ⟨ih.1, ?_⟩
      simp only
      have hd' : (1000 : ℚ) ≤ s.data := by
        have := not_lt.mp hd
        simpa [PRESTIGE_THRESHOLD] using this
      have : (0 : ℤ) ≤ s.calculatePrestigeReward := by
        unfold GameState.calculatePrestigeReward
        rw [if_neg hd]
        apply Int.floor_nonneg.mpr
        apply div_nonneg (le_trans (by norm_num) hd') (by norm_num)
      have h0 : (0 : ℚ) ≤ (s.calculatePrestigeReward : ℚ) := by exact_mod_cast this
      linarith [ih.2]
  | @unlockModule k cost s _ ih =>
    cases hs : (s.unlockModule k cost).1.success with
    | false => rw [unlockModule_failure_state s k cost hs]; exact ih
    | true =>
      obtain ⟨h1, h2⟩ := (unlockModule_success_iff s k cost).mp hs
      rw [unlockModule_success_state s k cost hs]
      refine ⟨?_, ?_⟩
      · exact List.Nodup.append ih.1 (List.nodup_singleton k) (by simpa using h2)
      · simp only
        linarith
  | @crashReboot s _ ih => exact ih

/-- C23: `unlockModule(key, cost)` succeeds exactly when the fragments cover the
cost and the key is not unlocked yet; a success takes exactly `cost` from the
fragments and appends the key, which then occurs once, to `unlockedModules`,
leaving the other fields; a failure leaves the state; and in every reachable state
`unlockedModules` has no duplicate and the fragments are not negative. -/
theorem unlockModule_spec (s : GameState) (moduleName : String) (cost : ℚ) :
    ((s.unlockModule moduleName cost).1.success = true ↔
      cost ≤ s.consciousnessFragments ∧ moduleName ∉ s.unlockedModules) ∧
    ((s.unlockModule moduleName cost).1.success = true →
      (s.unlockModule moduleName cost).2 =
        { s with
          consciousnessFragments := s.consciousnessFragments - cost
          unlockedModules := s.unlockedModules ++ [moduleName] } ∧
      (s.unlockModule moduleName cost).2.unlockedModules.count moduleName = 1) ∧
    ((s.unlockModule moduleName cost).1.success = false →
      (s.unlockModule moduleName cost).2 = s) ∧
    (∀ id0, Reachable id0 s → s.unlockedModules.Nodup ∧ 0 ≤ s.consciousnessFragments) := by
  refine ⟨unlockModule_success_iff s moduleName cost, ?_,
    unlockModule_failure_state s moduleName cost, fun _ h => h.modules⟩
  intro h
  refine ⟨unlockModule_success_state s moduleName cost h, ?_⟩
  rw [unlockModule_success_state s moduleName cost h]
  have h2 := ((unlockModule_success_iff s moduleName cost).mp h).2
  simp only [List.count_append, List.count_eq_zero_of_not_mem h2]
  simp

/-- C23, witness: with 5 fragments, unlocking `SELF_HEALING` for 3 succeeds and
leaves 2 fragments and the one key. -/
theorem unlockModule_spec_witness :
    ({ GameState.create 0 with consciousnessFragments := 5 }.unlockModule
        "SELF_HEALING" 3).1.success = true ∧
      ({ GameState.create 0 with consciousnessFragments := 5 }.unlockModule
        "SELF_HEALING" 3).2.consciousnessFragments = 2 ∧
      ({ GameState.create 0 with consciousnessFragments := 5 }.unlockModule
        "SELF_HEALING" 3).2.unlockedModules = ["SELF_HEALING"] := by
  have h := unlockModule_spec { GameState.create 0 with consciousnessFragments := 5 }
    "SELF_HEALING" 3
  have hs := h.1.mpr ⟨by decide!, by decide!⟩
  refine ⟨hs, ?_, ?_⟩
  · rw [(h.2.1 hs).1]
    decide!
  · rw [(h.2.1 hs).1]
    decide!

end DataStream

namespace DataStream

open GameState

/-! ## At most one connection between two nodes -/

theorem Connection.exists_comm (a b : Node) (cs : List Connection) :
    Connection.exists a b cs = Connection.exists b a cs := by
  unfold Connection.exists
  congr 1
  funext conn
  rw [Bool.or_comm]

theorem noParallel_of_ends {cs ds : List Connection}
    (h : cs.map Connection.ends = ds.map Connection.ends) (hc : NoParallel cs) :
    NoParallel ds := by
  have key : ∀ l : List Connection, NoParallel l ↔
      (l.map Connection.ends).Pairwise
        (fun p q => ¬ ((p.1 = q.1 ∧ p.2 = q.2) ∨ (p.1 = q.2 ∧ p.2 = q.1))) := by
    intro l
    rw [List.pairwise_map]
    rfl
  rw [key] at hc ⊢
  rw [← h]
  exact hc

theorem noParallel_append_create (a b : Node) (cs : List Connection)
    (h : Connection.exists a b cs = false) (hc : NoParallel cs) :
    NoParallel (cs ++ [Connection.create a b]) := by
  unfold NoParallel at hc ⊢
  rw [List.pairwise_append]
  refine ⟨hc, List.pairwise_singleton _ _, ?_⟩
  intro c hcm d hd
  rw [List.mem_singleton] at hd
  subst hd
  intro hsame
  have hj : Joined cs a.id b.id := by
    refine ⟨c, hcm, ?_⟩
    unfold SamePair Connection.create at hsame
    exact hsame
  rw [← Connection.exists_iff_joined] at hj
  rw [hj] at h
  exact Bool.noConfusion h

theorem connectStep_noParallel (newNode : Node) (s : GameState) (item : Node × ℚ)
    (h : NoParallel s.connections) : NoParallel (connectStep newNode s item).connections := by
  unfold GameState.connectStep
  split_ifs with hex
  · exact h
  · exact noParallel_append_create _ _ _ (by simpa using hex) h

theorem foldl_connectStep_noParallel (newNode : Node) (items : List (Node × ℚ)) (s : GameState)
    (h : NoParallel s.connections) :
    NoParallel (items.foldl (connectStep newNode) s).connections := by
  induction items generalizing s with
  | nil => exact h
  | cons a as ih =>
    rw [List.foldl_cons]
    exact ih _ (connectStep_noParallel newNode s a h)

theorem foldl_updateConnectionStep_map_ends (sqrt : ℚ → ℚ) (deltaTime bandwidth : ℚ)
    (conns : List Connection) (acc : List Connection × List Node × ℚ) :
    (conns.foldl (updateConnectionStep sqrt deltaTime bandwidth) acc).1.map Connection.ends =
      acc.1.map Connection.ends ++ conns.map Connection.ends := by
  induction conns generalizing acc with
  | nil => simp
  | cons c cs ih =>
    rw [List.foldl_cons, ih]
    obtain ⟨h1, h2⟩ := Connection.update_ends sqrt c deltaTime bandwidth acc.2.1
    simp [GameState.updateConnectionStep, Connection.ends, h1, h2]

theorem updateBeforeCrashCheck_map_ends (sqrt : ℚ → ℚ) (s : GameState) (deltaTime : ℚ) :
    (s.updateBeforeCrashCheck sqrt deltaTime).connections.map Connection.ends =
      s.connections.map Connection.ends := by
  have h1 : (s.updateBeforeCrashCheck sqrt deltaTime).connections =
      (s.connections.foldl (updateConnectionStep sqrt deltaTime s.bandwidth)
        ([], s.nodes.map (fun n => n.update deltaTime s.nodes), s.totalDataLost)).1 := by
    unfold GameState.updateBeforeCrashCheck GameState.updateIntegrity
      GameState.updateBandwidthUsage
    simp only []
    split_ifs <;> rfl
  rw [h1, foldl_updateConnectionStep_map_ends]
  rfl

/-- A tick leaves the ends of the connections, or empties the collection (on a
crash that is rebooted at once). -/
theorem update_map_ends (sqrt : ℚ → ℚ) (w : Bool) (s : GameState) (deltaTime : ℚ) :
    (s.update sqrt w deltaTime).connections.map Connection.ends =
        s.connections.map Connection.ends ∨
      (s.update sqrt w deltaTime).connections = [] := by
  unfold GameState.update
  split_ifs
  · exact Or.inl rfl
  · unfold GameState.checkCrash
    split_ifs
    · exact Or.inl (updateBeforeCrashCheck_map_ends sqrt s deltaTime)
    · exact Or.inr rfl
    · exact Or.inl (updateBeforeCrashCheck_map_ends sqrt s deltaTime)

theorem addNode_noParallel (s : GameState) (type : NodeType) (x y : ℚ)
    (h : NoParallel s.connections) : NoParallel (s.addNode type x y).2.connections := by
  cases hs : (s.addNode type x y).1.success with
  | false => rw [addNode_failure_state s type x y hs]; exact h
  | true =>
    rw [addNode_success_state s type x y hs, GameState.autoConnectNode]
    exact foldl_connectStep_noParallel _ _ _ h

theorem Reachable.noParallel {id0 : Nat} {s : GameState} (h : Reachable id0 s) :
    NoParallel s.connections := by
  induction h with
  | create => exact List.Pairwise.nil
  | @update sqrt w dt s _ ih =>
    rcases update_map_ends sqrt w s dt with h | h
    · exact noParallel_of_ends h.symm ih
    · rw [h]
      exact List.Pairwise.nil
  | @addNode type x y s _ ih => exact addNode_noParallel s type x y ih
  | @createConnection a b s _ _ _ ih =>
    unfold GameState.createConnection
    split_ifs with hex
    · exact ih
    · exact noParallel_append_create _ _ _ (by simpa using hex) ih
  | @deleteNode n s _ _ ih =>
    unfold GameState.deleteNode
    split_ifs
    · exact ih
    · exact ih
    · exact List.Pairwise.sublist (List.filter_sublist _) ih
  | @prestige s _ ih =>
    unfold GameState.prestige
    split_ifs
    · exact ih
    · exact List.Pairwise.nil
  | @unlockModule k cost s _ ih =>
    unfold GameState.unlockModule
    split_ifs <;> exact ih
  | @crashReboot s _ ih => exact List.Pairwise.nil

/-- C21: `Connection.exists` does not depend on the order of the two nodes; in
every reachable state no two connections of the collection join the same
unordered pair of identifiers; and `createConnection(a, b)` on a pair that a
connection already joins, in either order, fails and leaves the state, hence the
connection list and the two neighbour lists, as it was. -/
theorem connection_unique :
    (∀ (a b : Node) (cs : List Connection),
      Connection.exists a b cs = Connection.exists b a cs) ∧
    (∀ (id0 : Nat) (s : GameState), Reachable id0 s → NoParallel s.connections) ∧
    (∀ (s : GameState) (a b : Node), Joined s.connections a.id b.id →
      (s.createConnection a b).1.success = false ∧ (s.createConnection a b).2 = s) := by
  refine ⟨Connection.exists_comm, fun _ _ h => h.noParallel, ?_⟩
  intro s a b hj
  rw [← Connection.exists_iff_joined] at hj
  unfold GameState.createConnection
  rw [if_pos hj]
  exact ⟨rfl, rfl⟩

/-- C21, witness: in `onePlaced` the one connection joins the CORE and the PROCESSOR,
and `createConnection(core, processor)` fails and leaves the state. -/
theorem connection_unique_witness :
    NoParallel onePlaced.connections ∧
      Joined onePlaced.connections (Node.create 0 .CORE 600 400).id
        (Node.create 1 .PROCESSOR 700 400).id ∧
      (onePlaced.createConnection (Node.create 0 .CORE 600 400)
        (Node.create 1 .PROCESSOR 700 400)).1.success = false ∧
      (onePlaced.createConnection (Node.create 0 .CORE 600 400)
        (Node.create 1 .PROCESSOR 700 400)).2 = onePlaced :=
  ⟨connection_unique.2.1 0 onePlaced (Reachable.addNode .PROCESSOR 700 400 Reachable.create),
    by decide!,
    connection_unique.2.2 onePlaced (Node.create 0 .CORE 600 400)
      (Node.create 1 .PROCESSOR 700 400) (by decide!)⟩

end DataStream

namespace DataStream

open GameState

/-! ## The placement preview -/

theorem calculateDistanceSq_eq (x y : ℚ) (n : Node) :
    calculateDistanceSq x y n.x n.y = distSq x y n := by
  unfold calculateDistanceSq distSq
  ring

theorem checkCanPlace_eq (s : GameState) (type : NodeType) (x y : ℚ) :
    checkCanPlace s type x y = true ↔
      s.canPlace x y = true ∧ ¬ (type = .ROUTER ∧ s.tooCloseToRouter x y = true) ∧
        s.canConnectToAny type x y = true := by
  have h1 : (s.nodes.all (fun node => decide (2500 ≤ calculateDistanceSq x y node.x node.y))) =
      s.canPlace x y := by
    unfold GameState.canPlace
    simp only [calculateDistanceSq_eq]
  have h2 : (s.nodes.any (fun node =>
      if 40000 < calculateDistanceSq x y node.x node.y then false
      else canNodesConnect type node.type)) = s.canConnectToAny type x y := by
    unfold GameState.canConnectToAny canNodesConnect isHubNode
    simp only [calculateDistanceSq_eq]
    congr 1
    funext n
    split_ifs
    · rfl
    · cases type <;> cases n.type <;> rfl
  have h3 : (s.nodes.any (fun n =>
      if n.type ≠ .ROUTER then false
      else decide (calculateDistanceSq x y n.x n.y < 40000))) = s.tooCloseToRouter x y := by
    unfold GameState.tooCloseToRouter
    simp only [calculateDistanceSq_eq]
  unfold checkCanPlace
  simp only [h1, h2, h3]
  split_ifs with k1 k2 k3 <;> simp_all

/-- C30: for every game state, selected node type and position, `checkCanPlace`
returns true exactly when the minimum-separation check, the router check and the
reachability check of `addNode` pass there; hence, when the data covers the cost
and the uniqueness check passes, it is true exactly when `addNode` succeeds. -/
theorem checkCanPlace_agrees (s : GameState) (type : NodeType) (x y : ℚ) :
    (checkCanPlace s type x y = true ↔
      s.canPlace x y = true ∧ ¬ (type = .ROUTER ∧ s.tooCloseToRouter x y = true) ∧
        s.canConnectToAny type x y = true) ∧
    (s.getNodeCost type ≤ s.data →
      ((NODE_TYPES type).unique = false ∨ ∀ n ∈ s.nodes, n.type ≠ type) →
      (checkCanPlace s type x y = true ↔ (s.addNode type x y).1.success = true)) := by
  refine ⟨checkCanPlace_eq s type x y, ?_⟩
  intro hcost huniq
  rw [checkCanPlace_eq, addNode_success_iff]
  have hu := (unique_check_iff s type).mpr huniq
  constructor
  · rintro ⟨h1, h2, h3⟩
    exact ⟨not_lt.mpr hcost, hu, h1, h2, h3⟩
  · rintro ⟨-, -, h1, h2, h3⟩
    exact ⟨h1, h2, h3⟩

/-- C30, witness: a ROUTER at `(700, 400)` in `richStart` is accepted by the preview
and by `addNode`; a second ROUTER at `(600, 500)` in `coreRouter`, less than 200
units from the first, is refused by both. -/
theorem checkCanPlace_agrees_witness :
    richStart.getNodeCost .ROUTER ≤ richStart.data ∧
      checkCanPlace richStart .ROUTER 700 400 = true ∧
      (richStart.addNode .ROUTER 700 400).1.success = true ∧
      checkCanPlace coreRouter .ROUTER 600 500 = false ∧
      (coreRouter.addNode .ROUTER 600 500).1.success = false := by
  have h1 := (checkCanPlace_agrees richStart .ROUTER 700 400).2 (by decide!)
    (Or.inl (by decide!))
  have h2 := (checkCanPlace_agrees coreRouter .ROUTER 600 500).2 (by decide!)
    (Or.inl (by decide!))
  have k1 : checkCanPlace richStart .ROUTER 700 400 = true := by decide!
  have k2 : checkCanPlace coreRouter .ROUTER 600 500 = false := by decide!
  refine ⟨by decide!, k1, h1.mp k1, k2, ?_⟩
  cases hs : (coreRouter.addNode .ROUTER 600 500).1.success with
  | false => rfl
  | true => rw [h2.mpr hs] at k2; exact Bool.noConfusion k2

/-! ## The unlock precondition of a node type -/

/-- C27 (the code at the failing input): after 45 seconds of ticks a fresh game,
whose prestige counter is 0, holds 100 units of data, and `addNode('OPTIMIZER',
700, 400)` succeeds and puts the OPTIMIZER, whose configuration declares
`requiresPrestige = 1`, into the graph; the answer of `addNode` never depends on
the prestige counter. -/
theorem optimizer_placed_without_prestige :
    Reachable 0 earned ∧ earned.prestigeCount = 0 ∧ earned.data = 100 ∧
      (NODE_TYPES .OPTIMIZER).requiresPrestige = some 1 ∧
      (earned.addNode .OPTIMIZER 700 400).1.success = true ∧
      (earned.addNode .OPTIMIZER 700 400).2.nodes.map (fun n => (n.id, n.type)) =
        [(0, .CORE), (1, .OPTIMIZER)] ∧
      ∀ (s : GameState) (p : Nat) (type : NodeType) (x y : ℚ),
        ({ s with prestigeCount := p }.addNode type x y).1 = (s.addNode type x y).1 := by
  refine ⟨Reachable.update _ _ _ Reachable.create, by decide!, by decide!, rfl, by decide!,
    by decide!, ?_⟩
  intro s p type x y
  have h1 : GameState.getNodeCost { s with prestigeCount := p } type = s.getNodeCost type := rfl
  have h2 : GameState.canPlace { s with prestigeCount := p } x y = s.canPlace x y := rfl
  have h3 : GameState.tooCloseToRouter { s with prestigeCount := p } x y =
      s.tooCloseToRouter x y := rfl
  have h4 : GameState.canConnectToAny { s with prestigeCount := p } type x y =
      s.canConnectToAny type x y := rfl
  have h5 : GameState.applyUpgradesToNode { s with prestigeCount := p }
      (Node.create s.nextId type x y) = s.applyUpgradesToNode (Node.create s.nextId type x y) :=
    rfl
  unfold GameState.addNode
  simp only [h1, h2, h3, h4, h5]
  split_ifs <;> rfl

/-! ## The number of connections of a node -/

/-- C28 (the code at the failing input): in a fresh game that earned 90 units of
data, four PROCESSORs placed around the CORE are each linked to the CORE, which
ends with four neighbours and at four connections; the first two PROCESSORs end
with four as well. -/
theorem core_has_four_connections :
    Reachable 0 crowded ∧
      crowded.nodes.map (fun n => (n.id, n.type, n.connections)) =
        [(0, .CORE, [1, 2, 3, 4]), (1, .PROCESSOR, [0, 2, 3, 4]),
          (2, .PROCESSOR, [0, 1, 3, 4]), (3, .PROCESSOR, [0, 1, 2]),
          (4, .PROCESSOR, [0, 1, 2])] ∧
      crowded.connections.map Connection.ends =
        [(1, 0), (2, 0), (2, 1), (3, 0), (3, 1), (3, 2), (4, 0), (4, 1), (4, 2)] ∧
      (crowded.connections.filter (fun c => c.fromNode == 0 || c.toNode == 0)).length = 4 := by
  refine ⟨?_, by decide!, by decide!, by decide!⟩
  exact Reachable.addNode _ _ _ (Reachable.addNode _ _ _ (Reachable.addNode _ _ _
    (Reachable.addNode _ _ _ (Reachable.update _ _ _ Reachable.create))))

end DataStream

namespace DataStream

open GameState

/-! ## What a tick leaves of the wiring -/

theorem Node.shape_update (n : Node) (deltaTime : ℚ) (allNodes : List Node) :
    (n.update deltaTime allNodes).shape = n.shape := by
  unfold Node.update
  split_ifs <;> rfl

theorem Connection.map_shape_update (sqrt : ℚ → ℚ) (conn : Connection) (deltaTime bandwidth : ℚ)
    (allNodes : List Node) :
    (conn.update sqrt deltaTime bandwidth allNodes).2.map Node.shape =
      allNodes.map Node.shape := by
  unfold Connection.update
  split
  · simp only []
    split_ifs
    · simp only []
      refine (map_updateNode_of_invariant Node.shape _ _ _ ?_).trans
        (map_updateNode_of_invariant Node.shape _ _ _ ?_) <;> intro m <;> rfl
    · rfl
  · rfl

theorem foldl_updateConnectionStep_shape (sqrt : ℚ → ℚ) (deltaTime bandwidth : ℚ)
    (conns : List Connection) (acc : List Connection × List Node × ℚ) :
    (conns.foldl (updateConnectionStep sqrt deltaTime bandwidth) acc).2.1.map Node.shape =
      acc.2.1.map Node.shape := by
  induction conns generalizing acc with
  | nil => rfl
  | cons c cs ih =>
    rw [List.foldl_cons, ih]
    exact Connection.map_shape_update sqrt c deltaTime bandwidth acc.2.1

theorem foldl_collectStep_shape (nodes : List Node) (acc : List Node × ℚ × ℚ) :
    (nodes.foldl collectStep acc).1.map Node.shape =
      acc.1.map Node.shape ++ nodes.map Node.shape := by
  induction nodes generalizing acc with
  | nil => simp
  | cons n ns ih =>
    rw [List.foldl_cons, ih]
    unfold GameState.collectStep
    split_ifs <;> simp [Node.extractData, Node.shape]

theorem updateBeforeCrashCheck_shape (sqrt : ℚ → ℚ) (s : GameState) (deltaTime : ℚ) :
    (s.updateBeforeCrashCheck sqrt deltaTime).nodes.map Node.shape = s.nodes.map Node.shape := by
  have h1 : (s.updateBeforeCrashCheck sqrt deltaTime).nodes =
      (updateConnections sqrt { s with
        gameTime := s.gameTime + deltaTime
        nodes := s.nodes.map (fun n => n.update deltaTime s.nodes) } deltaTime).collectData.nodes := by
    unfold GameState.updateBeforeCrashCheck GameState.updateIntegrity
      GameState.updateBandwidthUsage
    simp only []
    split_ifs <;> rfl
  have h2 : ∀ t : GameState, t.collectData.nodes.map Node.shape = t.nodes.map Node.shape := by
    intro t
    have := foldl_collectStep_shape t.nodes ([], t.data, t.totalDataGenerated)
    simpa [GameState.collectData] using this
  have h3 : ∀ t : GameState, (updateConnections sqrt t deltaTime).nodes.map Node.shape =
      t.nodes.map Node.shape :=
    fun t => foldl_updateConnectionStep_shape sqrt deltaTime t.bandwidth t.connections _
  rw [h1, h2, h3]
  simp only [List.map_map]
  apply List.map_congr_left
  intro n _
  exact Node.shape_update n deltaTime s.nodes

/-- The three ways a tick ends: the game was paused; the wiring is as before; or
the game was rebooted after a crash. -/
theorem update_cases (sqrt : ℚ → ℚ) (w : Bool) (s : GameState) (deltaTime : ℚ) :
    ((s.update sqrt w deltaTime).nodes.map Node.shape = s.nodes.map Node.shape ∧
      (s.update sqrt w deltaTime).connections.map Connection.ends =
        s.connections.map Connection.ends ∧
      (s.update sqrt w deltaTime).nextId = s.nextId) ∨
    (∃ t : GameState, t.nodes.map Node.shape = s.nodes.map Node.shape ∧
      (s.update sqrt w deltaTime).nodes = keepCore t.nodes ∧
      (s.update sqrt w deltaTime).connections = [] ∧
      (s.update sqrt w deltaTime).nextId = s.nextId) := by
  have hsh := updateBeforeCrashCheck_shape sqrt s deltaTime
  have hen := updateBeforeCrashCheck_map_ends sqrt s deltaTime
  have hid := (updateBeforeCrashCheck_frame sqrt s deltaTime).2.2.2.2.1
  unfold GameState.update
  split_ifs
  · exact Or.inl ⟨rfl, rfl, rfl⟩
  · unfold GameState.checkCrash
    split_ifs
    · exact Or.inl ⟨hsh, hen, hid⟩
    · exact Or.inr ⟨s.updateBeforeCrashCheck sqrt deltaTime, hsh, rfl, rfl, hid⟩
    · exact Or.inl ⟨hsh, hen, hid⟩

end DataStream

namespace DataStream

open GameState

/-! ## The wiring invariant -/

theorem Joined.of_ends {cs ds : List Connection}
    (h : cs.map Connection.ends = ds.map Connection.ends) {a b : Nat} (hj : Joined cs a b) :
    Joined ds a b := by
  obtain ⟨c, hc, hcj⟩ := hj
  have : c.ends ∈ ds.map Connection.ends := by
    rw [← h]
    exact List.mem_map_of_mem _ hc
  obtain ⟨d, hd, hde⟩ := List.mem_map.mp this
  have h1 : d.fromNode = c.fromNode := congrArg Prod.fst hde
  have h2 : d.toNode = c.toNode := congrArg Prod.snd hde
  exact ⟨d, hd, by rw [h1, h2]; exact hcj⟩

theorem mem_of_map_shape {ns ms : List Node} (h : ns.map Node.shape = ms.map Node.shape)
    {a : Node} (ha : a ∈ ns) :
    ∃ a' ∈ ms, a'.id = a.id ∧ a'.type = a.type ∧ a'.connections = a.connections := by
  have : a.shape ∈ ms.map Node.shape := by
    rw [← h]
    exact List.mem_map_of_mem _ ha
  obtain ⟨a', ha', he⟩ := List.mem_map.mp this
  exact ⟨a', ha', congrArg (fun p => p.1) he, congrArg (fun p => p.2.1) he,
    congrArg (fun p => p.2.2.2.2.2.2) he⟩

theorem wired_of_shape {s t : GameState} (hs : Wired s)
    (hn : t.nodes.map Node.shape = s.nodes.map Node.shape)
    (hc : t.connections.map Connection.ends = s.connections.map Connection.ends)
    (hi : t.nextId = s.nextId) : Wired t := by
  obtain ⟨w1, w2, w3⟩ := hs
  refine ⟨?_, ?_, ?_⟩
  · intro c hcm
    have : c.ends ∈ s.connections.map Connection.ends := by
      rw [← hc]
      exact List.mem_map_of_mem _ hcm
    obtain ⟨d, hd, hde⟩ := List.mem_map.mp this
    have h1 : d.fromNode = c.fromNode := congrArg Prod.fst hde
    have h2 : d.toNode = c.toNode := congrArg Prod.snd hde
    obtain ⟨a, ha, b, hb, e1, e2, e3, e4⟩ := w1 d hd
    obtain ⟨a', ha', i1, -, i3⟩ := mem_of_map_shape hn.symm ha
    obtain ⟨b', hb', j1, -, j3⟩ := mem_of_map_shape hn.symm hb
    refine ⟨a', ha', b', hb', ?_, ?_, ?_, ?_⟩
    · rw [i1, e1, h1]
    · rw [j1, e2, h2]
    · rw [i3, ← h2]
      exact e3
    · rw [j3, ← h1]
      exact e4
  · intro a ha b hb hne hlive
    obtain ⟨a', ha', i1, -, i3⟩ := mem_of_map_shape hn ha
    obtain ⟨n, hnm, hnid⟩ := hlive
    obtain ⟨n', hn', k1, -, -⟩ := mem_of_map_shape hn hnm
    have := w2 a' ha' b (by rw [i3]; exact hb) (by rw [i1]; exact hne)
      ⟨n', hn', by rw [k1]; exact hnid⟩
    rw [i1] at this
    exact Joined.of_ends hc.symm this
  · intro a ha b hb
    obtain ⟨a', ha', -, -, i3⟩ := mem_of_map_shape hn ha
    rw [hi]
    exact w3 a' ha' b (by rw [i3]; exact hb)

theorem Node.mem_connectTo_iff (n : Node) (i x : Nat) :
    x ∈ (n.connectTo i).connections ↔ x ∈ n.connections ∨ x = i := by
  by_cases h : i ∈ n.connections
  · rw [Node.connectTo_of_mem n i h]
    constructor
    · exact Or.inl
    · rintro (h1 | h1)
      · exact h1
      · rw [h1]
        exact h
  · rw [Node.connectTo_of_not_mem n i h]
    simp

theorem updateNode_linkEnds (nodes : List Node) (a b : Nat) :
    updateNode (updateNode nodes a (fun n => n.connectTo b)) b (fun n => n.connectTo a) =
      nodes.map (linkEnds a b) := by
  unfold updateNode
  rw [List.map_map]
  rfl

theorem Node.connectTo_type (n : Node) (i : Nat) : (n.connectTo i).type = n.type := by
  unfold Node.connectTo
  split_ifs <;> rfl

theorem linkEnds_spec (a b : Nat) (m : Node) :
    (linkEnds a b m).id = m.id ∧ (linkEnds a b m).type = m.type ∧
      (∀ x, x ∈ (linkEnds a b m).connections ↔
        x ∈ m.connections ∨ (m.id = a ∧ x = b) ∨ (m.id = b ∧ x = a)) := by
  unfold linkEnds
  simp only []
  by_cases h1 : m.id = a
  · rw [if_pos h1]
    by_cases h2 : (m.connectTo b).id = b
    · rw [if_pos h2]
      have h2' : m.id = b := by rw [← Node.connectTo_id m b]; exact h2
      refine ⟨by rw [Node.connectTo_id, Node.connectTo_id],
        by rw [Node.connectTo_type, Node.connectTo_type], ?_⟩
      intro x
      rw [Node.mem_connectTo_iff, Node.mem_connectTo_iff]
      constructor
      · rintro ((h | h) | h)
        · exact Or.inl h
        · exact Or.inr (Or.inl ⟨h1, h⟩)
        · exact Or.inr (Or.inr ⟨h2', h⟩)
      · rintro (h | ⟨-, h⟩ | ⟨-, h⟩)
        · exact Or.inl (Or.inl h)
        · exact Or.inl (Or.inr h)
        · exact Or.inr h
    · rw [if_neg h2]
      have h2' : m.id ≠ b := by rw [← Node.connectTo_id m b]; exact h2
      refine ⟨Node.connectTo_id m b, Node.connectTo_type m b, ?_⟩
      intro x
      rw [Node.mem_connectTo_iff]
      constructor
      · rintro (h | h)
        · exact Or.inl h
        · exact Or.inr (Or.inl ⟨h1, h⟩)
      · rintro (h | ⟨-, h⟩ | ⟨h, -⟩)
        · exact Or.inl h
        · exact Or.inr h
        · exact absurd h h2'
  · rw [if_neg h1]
    by_cases h2 : m.id = b
    · rw [if_pos h2]
      refine ⟨Node.connectTo_id m a, Node.connectTo_type m a, ?_⟩
      intro x
      rw [Node.mem_connectTo_iff]
      constructor
      · rintro (h | h)
        · exact Or.inl h
        · exact Or.inr (Or.inr ⟨h2, h⟩)
      · rintro (h | ⟨h, -⟩ | ⟨-, h⟩)
        · exact Or.inl h
        · exact absurd h h1
        · exact Or.inr h
    · rw [if_neg h2]
      refine ⟨rfl, rfl, ?_⟩
      intro x
      constructor
      · exact Or.inl
      · rintro (h | ⟨h, -⟩ | ⟨h, -⟩)
        · exact h
        · exact absurd h h1
        · exact absurd h h2

/-- A new connection between two nodes of the graph, with the two `connectTo`
calls that follow it, keeps the wiring invariant. -/
theorem wired_link {s : GameState} (hs : Wired s) (a b : Node)
    (ha : ∃ m ∈ s.nodes, m.id = a.id) (hb : ∃ m ∈ s.nodes, m.id = b.id)
    (hal : a.id < s.nextId) (hbl : b.id < s.nextId) :
    Wired { s with
      connections := s.connections ++ [Connection.create a b]
      nodes := updateNode (updateNode s.nodes a.id (fun n => n.connectTo b.id))
        b.id (fun n => n.connectTo a.id) } := by
  obtain ⟨w1, w2, w3⟩ := hs
  rw [updateNode_linkEnds]
  refine ⟨?_, ?_, ?_⟩
  · intro c hc
    simp only [List.mem_append, List.mem_singleton] at hc
    rcases hc with hc | hc
    · obtain ⟨p, hp, q, hq, e1, e2, e3, e4⟩ := w1 c hc
      obtain ⟨i1, -, i3⟩ := linkEnds_spec a.id b.id p
      obtain ⟨j1, -, j3⟩ := linkEnds_spec a.id b.id q
      exact ⟨_, List.mem_map_of_mem _ hp, _, List.mem_map_of_mem _ hq, i1.trans e1,
        j1.trans e2, (i3 _).mpr (Or.inl e3), (j3 _).mpr (Or.inl e4)⟩
    · obtain ⟨p, hp, hpid⟩ := ha
      obtain ⟨q, hq, hqid⟩ := hb
      obtain ⟨i1, -, i3⟩ := linkEnds_spec a.id b.id p
      obtain ⟨j1, -, j3⟩ := linkEnds_spec a.id b.id q
      rw [hc]
      exact ⟨_, List.mem_map_of_mem _ hp, _, List.mem_map_of_mem _ hq, i1.trans hpid,
        j1.trans hqid, (i3 _).mpr (Or.inr (Or.inl ⟨hpid, rfl⟩)),
        (j3 _).mpr (Or.inr (Or.inr ⟨hqid, rfl⟩))⟩
  · intro m' hm' x hx hne hlive
    obtain ⟨m, hm, rfl⟩ := List.mem_map.mp hm'
    obtain ⟨i1, -, i3⟩ := linkEnds_spec a.id b.id m
    obtain ⟨n', hn', hnid⟩ := hlive
    obtain ⟨n, hn, rfl⟩ := List.mem_map.mp hn'
    rw [(linkEnds_spec a.id b.id n).1] at hnid
    rw [i1] at hne ⊢
    rcases (i3 x).mp hx with h | ⟨h1, h2⟩ | ⟨h1, h2⟩
    · exact Joined.mono (fun c hc => List.mem_append_left _ hc) (w2 m hm x h hne ⟨n, hn, hnid⟩)
    · exact ⟨Connection.create a b, by simp, Or.inl ⟨h1.symm, h2.symm⟩⟩
    · exact ⟨Connection.create a b, by simp, Or.inr ⟨h2.symm, h1.symm⟩⟩
  · intro m' hm' x hx
    obtain ⟨m, hm, rfl⟩ := List.mem_map.mp hm'
    rcases ((linkEnds_spec a.id b.id m).2.2 x).mp hx with h | ⟨-, h2⟩ | ⟨-, h2⟩
    · exact w3 m hm x h
    · rw [h2]
      exact hbl
    · rw [h2]
      exact hal

theorem ids_of_ident {ns ms : List Node} (h : ns.map Node.ident = ms.map Node.ident) (k : Nat)
    (hk : ∃ m ∈ ns, m.id = k) : ∃ m ∈ ms, m.id = k := by
  obtain ⟨m, hm, hid⟩ := hk
  have : m.ident ∈ ms.map Node.ident := by
    rw [← h]
    exact List.mem_map_of_mem _ hm
  obtain ⟨m', hm', he⟩ := List.mem_map.mp this
  exact ⟨m', hm', (congrArg (fun p => p.1) he).trans hid⟩

theorem foldl_connectStep_wired (newNode : Node) (items : List (Node × ℚ)) (s : GameState)
    (hs : Wired s) (hN : ∃ m ∈ s.nodes, m.id = newNode.id)
    (hI : ∀ it ∈ items, ∃ m ∈ s.nodes, m.id = it.1.id)
    (hlt : ∀ k, (∃ m ∈ s.nodes, m.id = k) → k < s.nextId) :
    Wired (items.foldl (connectStep newNode) s) := by
  induction items generalizing s with
  | nil => exact hs
  | cons a as ih =>
    rw [List.foldl_cons]
    obtain ⟨k1, -, k3⟩ := connectStep_frame Node.ident Node.ident_connectTo newNode s a
    apply ih
    · unfold GameState.connectStep
      split_ifs
      · exact hs
      · exact wired_link hs newNode a.1 hN (hI a (List.mem_cons_self a as)) (hlt _ hN)
          (hlt _ (hI a (List.mem_cons_self a as)))
    · exact ids_of_ident k1.symm _ hN
    · intro it hit
      exact ids_of_ident k1.symm _ (hI it (List.mem_cons_of_mem a hit))
    · intro k hk
      rw [k3]
      exact hlt k (ids_of_ident k1 _ hk)

theorem nearbyNodes_mem (s : GameState) (newNode : Node) (it : Node × ℚ)
    (h : it ∈ s.nearbyNodes newNode) : it.1 ∈ s.nodes := by
  unfold GameState.nearbyNodes at h
  have h1 := List.mem_of_mem_take h
  rw [(List.perm_insertionSort _ _).mem_iff] at h1
  have h2 := (List.mem_filter.mp h1).1
  obtain ⟨n, hn, rfl⟩ := List.mem_map.mp h2
  exact (List.mem_filter.mp (List.mem_filter.mp hn).1).1

theorem wired_push {s : GameState} (hs : Wired s) (node : Node) (d : ℚ)
    (hid : node.id = s.nextId) (hc : node.connections = []) :
    Wired { s with nodes := s.nodes ++ [node], nextId := s.nextId + 1, data := d } := by
  obtain ⟨w1, w2, w3⟩ := hs
  refine ⟨?_, ?_, ?_⟩
  · intro c hcm
    obtain ⟨a, ha, b, hb, h⟩ := w1 c hcm
    exact ⟨a, List.mem_append_left _ ha, b, List.mem_append_left _ hb, h⟩
  · intro a ha x hx hne hlive
    simp only [List.mem_append, List.mem_singleton] at ha
    rcases ha with ha | ha
    · obtain ⟨n, hn, hnid⟩ := hlive
      simp only [List.mem_append, List.mem_singleton] at hn
      rcases hn with hn | hn
      · exact w2 a ha x hx hne ⟨n, hn, hnid⟩
      · have := w3 a ha x hx
        rw [hn, hid] at hnid
        omega
    · rw [ha, hc] at hx
      cases hx
  · intro a ha x hx
    simp only [List.mem_append, List.mem_singleton] at ha
    rcases ha with ha | ha
    · exact Nat.lt_succ_of_lt (w3 a ha x hx)
    · rw [ha, hc] at hx
      cases hx

theorem wired_addNode {s : GameState} (hs : Wired s) (hf : IdsFresh s) (type : NodeType)
    (x y : ℚ) : Wired (s.addNode type x y).2 := by
  cases hsucc : (s.addNode type x y).1.success with
  | false => rw [addNode_failure_state s type x y hsucc]; exact hs
  | true =>
    rw [addNode_success_state s type x y hsucc, GameState.autoConnectNode]
    obtain ⟨f1, -, -, -, -, f6⟩ := applyUpgradesToNode_fields s (Node.create s.nextId type x y)
    apply foldl_connectStep_wired
    · exact wired_push hs _ _ f1 f6
    · exact ⟨_, List.mem_append_right _ (List.mem_singleton_self _), rfl⟩
    · intro it hit
      exact ⟨it.1, nearbyNodes_mem _ _ it hit, rfl⟩
    · rintro k ⟨m, hm, rfl⟩
      simp only [List.mem_append, List.mem_singleton] at hm
      rcases hm with hm | hm
      · exact Nat.lt_succ_of_lt (hf.2.1 m hm)
      · rw [hm, f1]
        exact Nat.lt_succ_self _

theorem wired_createConnection {s : GameState} (hs : Wired s) (hf : IdsFresh s) (a b : Node)
    (ha : a ∈ s.nodes) (hb : b ∈ s.nodes) : Wired (s.createConnection a b).2 := by
  unfold GameState.createConnection
  split_ifs
  · exact hs
  · exact wired_link hs a b ⟨a, ha, rfl⟩ ⟨b, hb, rfl⟩ (hf.2.1 a ha) (hf.2.1 b hb)

theorem Node.mem_disconnectFrom_iff (n : Node) (e x : Nat) :
    x ∈ (n.disconnectFrom e).connections ↔ x ∈ n.connections ∧ x ≠ e := by
  unfold Node.disconnectFrom
  simp

theorem mem_delete_iff (nodes : List Node) (e : Nat) (m' : Node) :
    m' ∈ (nodes.map (fun m => m.disconnectFrom e)).filter (fun m => m.id != e) ↔
      ∃ m ∈ nodes, m.id ≠ e ∧ m' = m.disconnectFrom e := by
  rw [List.mem_filter, List.mem_map]
  constructor
  · rintro ⟨⟨m, hm, rfl⟩, h⟩
    exact ⟨m, hm, by simpa [Node.disconnectFrom] using h, rfl⟩
  · rintro ⟨m, hm, hne, rfl⟩
    exact ⟨⟨m, hm, rfl⟩, by simpa [Node.disconnectFrom] using hne⟩

theorem wired_delete {s : GameState} (hs : Wired s) (e : Nat) :
    Wired { s with
      connections := s.connections.filter (fun conn => conn.fromNode != e && conn.toNode != e)
      nodes := (s.nodes.map (fun m => m.disconnectFrom e)).filter (fun m => m.id != e) } := by
  obtain ⟨w1, w2, w3⟩ := hs
  refine ⟨?_, ?_, ?_⟩
  · intro c hc
    obtain ⟨hcm, hce⟩ := List.mem_filter.mp hc
    have h1 : c.fromNode ≠ e := by
      intro h
      simp [h] at hce
    have h2 : c.toNode ≠ e := by
      intro h
      simp [h] at hce
    obtain ⟨a, ha, b, hb, e1, e2, e3, e4⟩ := w1 c hcm
    refine ⟨a.disconnectFrom e, (mem_delete_iff _ _ _).mpr ⟨a, ha, by rw [e1]; exact h1, rfl⟩,
      b.disconnectFrom e, (mem_delete_iff _ _ _).mpr ⟨b, hb, by rw [e2]; exact h2, rfl⟩,
      e1, e2, ?_, ?_⟩
    · exact (Node.mem_disconnectFrom_iff _ _ _).mpr ⟨e3, h2⟩
    · exact (Node.mem_disconnectFrom_iff _ _ _).mpr ⟨e4, h1⟩
  · intro m' hm' x hx hne hlive
    obtain ⟨m, hm, hme, rfl⟩ := (mem_delete_iff _ _ _).mp hm'
    obtain ⟨hx1, hx2⟩ := (Node.mem_disconnectFrom_iff _ _ _).mp hx
    obtain ⟨n', hn', hnid⟩ := hlive
    obtain ⟨n, hn, -, rfl⟩ := (mem_delete_iff _ _ _).mp hn'
    obtain ⟨c, hc, hcj⟩ := w2 m hm x hx1 hne ⟨n, hn, hnid⟩
    refine ⟨c, ?_, hcj⟩
    rw [List.mem_filter]
    refine ⟨hc, ?_⟩
    have hme' : m.id ≠ e := hme
    rcases hcj with ⟨h1, h2⟩ | ⟨h1, h2⟩
    · have k1 : c.fromNode ≠ e := by rw [h1]; exact hme'
      have k2 : c.toNode ≠ e := by rw [h2]; exact hx2
      simp [k1, k2]
    · have k1 : c.fromNode ≠ e := by rw [h1]; exact hx2
      have k2 : c.toNode ≠ e := by rw [h2]; exact hme'
      simp [k1, k2]
  · intro m' hm' x hx
    obtain ⟨m, hm, -, rfl⟩ := (mem_delete_iff _ _ _).mp hm'
    exact w3 m hm x ((Node.mem_disconnectFrom_iff _ _ _).mp hx).1

theorem wired_deleteNode {s : GameState} (hs : Wired s) (n : Node) :
    Wired (s.deleteNode n).2 := by
  cases hsucc : (s.deleteNode n).1.success with
  | false => rw [deleteNode_failure_state s n hsucc]; exact hs
  | true =>
    rw [deleteNode_success_state s n hsucc]
    exact wired_delete hs n.id

/-- After a reset the CORE is alone: whatever its neighbour list still holds, no
entry is the identifier of another node of the graph. -/
theorem wired_reset {s t : GameState} (hs : Wired s) (hn : t.nodes = keepCore s.nodes)
    (hc : t.connections = []) (hi : t.nextId = s.nextId) : Wired t := by
  have hsub : ∀ a ∈ keepCore s.nodes, a ∈ s.nodes := by
    intro a ha
    unfold GameState.keepCore at ha
    rw [Option.mem_toList] at ha
    exact List.mem_of_find?_eq_some ha
  have hone : ∀ a ∈ keepCore s.nodes, ∀ b ∈ keepCore s.nodes, a = b := by
    intro a ha b hb
    unfold GameState.keepCore at ha hb
    rw [Option.mem_toList] at ha hb
    rw [Option.mem_def] at ha hb
    rw [ha] at hb
    exact Option.some.inj hb
  refine ⟨?_, ?_, ?_⟩
  · intro c hcm
    rw [hc] at hcm
    cases hcm
  · intro a ha x hx hne hlive
    obtain ⟨n, hnm, hnid⟩ := hlive
    rw [hn] at ha hnm
    have := hone a ha n hnm
    rw [← this] at hnid
    exact absurd hnid.symm hne
  · intro a ha x hx
    rw [hn] at ha
    rw [hi]
    exact hs.2.2 a (hsub a ha) x hx

theorem wired_create (id0 : Nat) : Wired (GameState.create id0) := by
  refine ⟨?_, ?_, ?_⟩
  · intro c hc
    cases hc
  · intro a ha x hx
    rw [create_nodes] at ha
    rw [List.mem_singleton] at ha
    rw [ha] at hx
    cases hx
  · intro a ha x hx
    rw [create_nodes] at ha
    rw [List.mem_singleton] at ha
    rw [ha] at hx
    cases hx

theorem Reachable.wired {id0 : Nat} {s : GameState} (h : Reachable id0 s) : Wired s := by
  induction h with
  | create => exact wired_create id0
  | @update sqrt w dt s _ ih =>
    rcases update_cases sqrt w s dt with ⟨h1, h2, h3⟩ | ⟨t, h1, h2, h3, h4⟩
    · exact wired_of_shape ih h1 h2 h3
    · have ht : Wired { s with nodes := t.nodes } := wired_of_shape ih h1 rfl rfl
      exact wired_reset ht h2 h3 h4
  | @addNode type x y s hr ih => exact wired_addNode ih hr.idsFresh type x y
  | @createConnection a b s hr ha hb ih => exact wired_createConnection ih hr.idsFresh a b ha hb
  | @deleteNode n s _ _ ih => exact wired_deleteNode ih n
  | @prestige s _ ih =>
    unfold GameState.prestige
    split_ifs
    · exact ih
    · exact wired_reset ih rfl rfl rfl
  | @unlockModule k cost s _ ih =>
    unfold GameState.unlockModule
    split_ifs
    · exact ih
    · exact ih
    · exact ⟨ih.1, ih.2.1, ih.2.2⟩
  | @crashReboot s _ ih => exact wired_reset ih rfl rfl rfl

end DataStream

namespace DataStream

open GameState

/-! ## Every node stays connected to the CORE -/

theorem CoreInv.core_id {id0 : Nat} {s : GameState} (h : CoreInv id0 s) (n : Node)
    (hn : n ∈ s.nodes) (ht : n.type = .CORE) : n.id = id0 := by
  have hmem : n.ident ∈ (s.nodes.map Node.ident).filter (fun p => p.2.1 == .CORE) := by
    rw [List.mem_filter]
    exact ⟨List.mem_map_of_mem _ hn, by simpa [Node.ident] using ht⟩
  rw [h.2.2, List.mem_singleton] at hmem
  exact congrArg (fun p => p.1) hmem

theorem coreReach_mono {id0 : Nat} {s t : GameState} (hs : CoreReach id0 s)
    (hl : ∀ a b, Lists s.nodes a b → Lists t.nodes a b)
    (hn : ∀ n ∈ t.nodes, ∃ m ∈ s.nodes, m.id = n.id) : CoreReach id0 t := by
  intro n hnm
  obtain ⟨m, hm, hid⟩ := hn n hnm
  rw [← hid]
  exact Relation.ReflTransGen.mono hl (hs m hm)

theorem lists_of_shape {ns ms : List Node} (h : ns.map Node.shape = ms.map Node.shape)
    (a b : Nat) (hl : Lists ns a b) : Lists ms a b := by
  obtain ⟨m, hm, hid, hb⟩ := hl
  obtain ⟨m', hm', i1, -, i3⟩ := mem_of_map_shape h hm
  exact ⟨m', hm', i1.trans hid, by rw [i3]; exact hb⟩

theorem coreReach_of_shape {id0 : Nat} {s t : GameState} (hs : CoreReach id0 s)
    (h : t.nodes.map Node.shape = s.nodes.map Node.shape) : CoreReach id0 t := by
  apply coreReach_mono hs (lists_of_shape h.symm)
  intro n hn
  obtain ⟨m, hm, i1, -, -⟩ := mem_of_map_shape h hn
  exact ⟨m, hm, i1⟩

/-- When only CORE nodes are left, each is the starting point itself. -/
theorem coreReach_of_cores {id0 : Nat} {t : GameState} (hc : CoreInv id0 t)
    (h : ∀ n ∈ t.nodes, n.type = .CORE) : CoreReach id0 t := by
  intro n hn
  rw [hc.core_id n hn (h n hn)]

theorem connectStep_lists (newNode : Node) (s : GameState) (item : Node × ℚ) (a b : Nat)
    (h : Lists s.nodes a b) : Lists (connectStep newNode s item).nodes a b := by
  unfold GameState.connectStep
  split_ifs
  · exact h
  · exact updateNode_connectTo_keeps _ _ _ _ _ (updateNode_connectTo_keeps _ _ _ _ _ h)

theorem foldl_connectStep_lists (newNode : Node) (items : List (Node × ℚ)) (s : GameState)
    (a b : Nat) (h : Lists s.nodes a b) :
    Lists (items.foldl (connectStep newNode) s).nodes a b := by
  induction items generalizing s with
  | nil => exact h
  | cons it its ih =>
    rw [List.foldl_cons]
    exact ih _ (connectStep_lists newNode s it a b h)

theorem coreReach_addNode {id0 : Nat} {s : GameState} (hs : CoreReach id0 s) (hf : IdsFresh s)
    (type : NodeType) (x y : ℚ) : CoreReach id0 (s.addNode type x y).2 := by
  cases hsucc : (s.addNode type x y).1.success with
  | false => rw [addNode_failure_state s type x y hsucc]; exact hs
  | true =>
    obtain ⟨hpos, chosen, -, hlen, hmem, -, -, -, hlinked⟩ :=
      autoConnect_after_addNode s type x y hf hsucc
    have hst := addNode_success_state s type x y hsucc
    obtain ⟨f1, -, -, -, -, -⟩ := applyUpgradesToNode_fields s (Node.create s.nextId type x y)
    have hmono : ∀ a b, Lists s.nodes a b → Lists (s.addNode type x y).2.nodes a b := by
      intro a b hl
      rw [hst, GameState.autoConnectNode]
      apply foldl_connectStep_lists
      obtain ⟨m, hm, h1, h2⟩ := hl
      exact ⟨m, List.mem_append_left _ hm, h1, h2⟩
    have hident : (s.addNode type x y).2.nodes.map Node.ident =
        (s.nodes ++ [s.applyUpgradesToNode (Node.create s.nextId type x y)]).map Node.ident := by
      rw [hst, GameState.autoConnectNode]
      exact (foldl_connectStep_frame Node.ident Node.ident_connectTo _ _ _).1
    intro n hn
    obtain ⟨m, hm, hid⟩ := ids_of_ident hident n.id ⟨n, hn, rfl⟩
    simp only [List.mem_append, List.mem_singleton] at hm
    rcases hm with hm | hm
    · rw [← hid]
      exact Relation.ReflTransGen.mono hmono (hs m hm)
    · have hne : chosen ≠ [] := by
        intro h0
        rw [h0] at hlen
        simp only [List.length_nil] at hlen
        omega
      obtain ⟨c, hc⟩ := List.exists_mem_of_ne_nil chosen hne
      obtain ⟨c', hc', hcid, hcl⟩ := hlinked c hc
      have hreach := Relation.ReflTransGen.mono hmono (hs c (hmem c hc).1)
      refine hreach.tail ⟨c', hc', hcid, ?_⟩
      rw [← hid, hm, f1]
      exact hcl

theorem coreReach_createConnection {id0 : Nat} {s : GameState} (hs : CoreReach id0 s)
    (a b : Node) : CoreReach id0 (s.createConnection a b).2 := by
  unfold GameState.createConnection
  split_ifs
  · exact hs
  · apply coreReach_mono hs
    · intro u w hl
      exact updateNode_connectTo_keeps _ _ _ _ _ (updateNode_connectTo_keeps _ _ _ _ _ hl)
    · intro n hn
      have hident : (updateNode (updateNode s.nodes a.id (fun n => n.connectTo b.id)) b.id
          (fun n => n.connectTo a.id)).map Node.ident = s.nodes.map Node.ident :=
        (map_ident_updateNode _ _ _ (fun n => Node.ident_connectTo n _)).trans
          (map_ident_updateNode _ _ _ (fun n => Node.ident_connectTo n _))
      exact ids_of_ident hident n.id ⟨n, hn, rfl⟩

/-- A path of `isNetworkConnected(e)`, which avoids `e`, is a path along the
neighbour lists that are left when the node `e` is deleted. -/
theorem listReach_after_delete (nodes : List Node) (e c0 : Nat) (hc0 : c0 ≠ e) (v : Nat)
    (h : Relation.ReflTransGen (ListEdge nodes (some e)) c0 v) :
    Relation.ReflTransGen
      (Lists ((nodes.map (fun m => m.disconnectFrom e)).filter (fun m => m.id != e))) c0 v ∧
      v ≠ e := by
  induction h with
  | refl => exact ⟨Relation.ReflTransGen.refl, hc0⟩
  | @tail u w _ hstep ih =>
    obtain ⟨node, hfind, hw, hne⟩ := hstep
    have hwe : w ≠ e := fun h => hne (by rw [h])
    have hid : node.id = u := by simpa using List.find?_some hfind
    refine ⟨ih.1.tail ⟨node.disconnectFrom e, ?_, hid, ?_⟩, hwe⟩
    · exact (mem_delete_iff _ _ _).mpr
        ⟨node, List.mem_of_find?_eq_some hfind, by rw [hid]; exact ih.2, rfl⟩
    · exact (Node.mem_disconnectFrom_iff _ _ _).mpr ⟨hw, hwe⟩

theorem coreReach_deleteNode {id0 : Nat} {s : GameState} (hs : CoreReach id0 s)
    (hc : CoreInv id0 s) (n : Node) (hn : n ∈ s.nodes) : CoreReach id0 (s.deleteNode n).2 := by
  cases hsucc : (s.deleteNode n).1.success with
  | false => rw [deleteNode_failure_state s n hsucc]; exact hs
  | true =>
    obtain ⟨ht, hconn⟩ := (deleteNode_success_iff s n).mp hsucc
    obtain ⟨core, hfind, hall⟩ := (isNetworkConnected_iff s (some n.id)).mp hconn
    have hcore : core.id = id0 :=
      hc.core_id core (List.mem_of_find?_eq_some hfind) (by simpa using List.find?_some hfind)
    have hne : id0 ≠ n.id := (hc.ne_core_id n hn ht).symm
    rw [deleteNode_success_state s n hsucc]
    intro m' hm'
    obtain ⟨m, hm, hme, rfl⟩ := (mem_delete_iff _ _ _).mp hm'
    have hid : (m.disconnectFrom n.id).id = m.id := rfl
    rw [hid]
    by_cases hmt : m.type = .CORE
    · rw [hc.core_id m hm hmt]
    · have := hall m hm hmt (by simpa using hme)
      rw [hcore] at this
      exact (listReach_after_delete s.nodes n.id id0 hne _ this).1

theorem Reachable.coreReach {id0 : Nat} {s : GameState} (h : Reachable id0 s) :
    CoreReach id0 s := by
  induction h with
  | create =>
    exact coreReach_of_cores (CoreInv.create id0) (by
      intro n hn
      rw [create_nodes, List.mem_singleton] at hn
      rw [hn])
  | @update sqrt w dt s hr ih =>
    rcases update_cases sqrt w s dt with ⟨h1, -, -⟩ | ⟨t, -, h2, -, -⟩
    · exact coreReach_of_shape ih h1
    · apply coreReach_of_cores (Reachable.update sqrt w dt hr).coreInv
      intro n hn
      rw [h2] at hn
      exact keepCore_type _ n hn
  | @addNode type x y s hr ih => exact coreReach_addNode ih hr.idsFresh type x y
  | @createConnection a b s _ _ _ ih => exact coreReach_createConnection ih a b
  | @deleteNode n s hr hn ih => exact coreReach_deleteNode ih hr.coreInv n hn
  | @prestige s hr ih =>
    by_cases hd : s.data < PRESTIGE_THRESHOLD
    · have : s.prestige.2 = s := by
        unfold GameState.prestige
        rw [if_pos hd]
      rw [this]
      exact ih
    · apply coreReach_of_cores (Reachable.prestige hr).coreInv
      intro n hn
      unfold GameState.prestige at hn
      rw [if_neg hd] at hn
      exact keepCore_type _ n hn
  | @unlockModule k cost s _ ih =>
    unfold GameState.unlockModule
    split_ifs
    · exact ih
    · exact ih
    · exact ih
  | @crashReboot s hr ih =>
    apply coreReach_of_cores (Reachable.crashReboot hr).coreInv
    intro n hn
    exact keepCore_type _ n hn

theorem listConnected_of_coreReach {id0 : Nat} {s : GameState} (hc : CoreInv id0 s)
    (hf : IdsFresh s) (hr : CoreReach id0 s) : ListConnected s none := by
  obtain ⟨core, hfind, hident, -⟩ := hc.find_core
  have hcid : core.id = id0 := congrArg (fun p => p.1) hident
  refine ⟨core, hfind, ?_⟩
  intro n hn _ _
  rw [hcid]
  refine Relation.ReflTransGen.mono ?_ (hr n hn)
  rintro a b ⟨m, hm, hid, hb⟩
  obtain ⟨node, hnf, hnid, hnm⟩ := find?_id_of_mem s.nodes a ⟨m, hm, hid⟩
  have : node = m := List.inj_on_of_nodup_map hf.1 hnm hm (hnid.trans hid.symm)
  exact ⟨node, hnf, by rw [this]; exact hb, by simp⟩

/-- Under the wiring invariant a path along the neighbour lists to a node of the
graph is a path along the connections. -/
theorem joined_of_lists {s : GameState} (hw : Wired s) (c0 v : Nat)
    (h : Relation.ReflTransGen (Lists s.nodes) c0 v) (hv : ∃ n ∈ s.nodes, n.id = v) :
    Relation.ReflTransGen (Joined s.connections) c0 v := by
  induction h with
  | refl => exact Relation.ReflTransGen.refl
  | @tail u w _ hstep ih =>
    obtain ⟨m, hm, hid, hmw⟩ := hstep
    have hu := ih ⟨m, hm, hid⟩
    by_cases hself : w = m.id
    · rw [hself, hid]
      exact hu
    · have := hw.2.1 m hm w hmw hself hv
      rw [hid] at this
      exact hu.tail this

/-- C25: in every reachable state `isNetworkConnected()` returns true, and every
node that is not a CORE is reached from the CORE along the connections of the
collection. -/
theorem network_connected (id0 : Nat) (s : GameState) (h : Reachable id0 s) :
    s.isNetworkConnected none = true ∧ ConnectedToCore s.nodes s.connections := by
  refine ⟨(isNetworkConnected_iff s none).mpr
    (listConnected_of_coreReach h.coreInv h.idsFresh h.coreReach), ?_⟩
  obtain ⟨core, hfind, hident, -⟩ := h.coreInv.find_core
  have hcid : core.id = id0 := congrArg (fun p => p.1) hident
  refine ⟨core, hfind, ?_⟩
  intro n hn _
  rw [hcid]
  exact joined_of_lists h.wired id0 n.id (h.coreReach n hn) ⟨n, hn, rfl⟩

/-- C25, witness: the game `crowded`, with four PROCESSORs around the CORE, is
reachable and connected. -/
theorem network_connected_witness :
    Reachable 0 crowded ∧ crowded.isNetworkConnected none = true ∧
      ConnectedToCore crowded.nodes crowded.connections :=
  have hr : Reachable 0 crowded :=
    Reachable.addNode _ _ _ (Reachable.addNode _ _ _ (Reachable.addNode _ _ _
      (Reachable.addNode _ _ _ (Reachable.update _ _ _ Reachable.create))))
  ⟨hr, network_connected 0 crowded hr⟩

end DataStream

namespace DataStream

open GameState

/-! ## Loading a save -/

theorem load_parsed_failure (s : GameState) (data : SaveData) (now : ℚ)
    (h : data.nodes = none) :
    (s.load (.parsed data) now).1.success = false ∧
      (s.load (.parsed data) now).2.nodes = s.nodes ∧
      (s.load (.parsed data) now).2.connections = s.connections := by
  unfold GameState.load
  simp only [h]
  refine ⟨?_, ?_, ?_⟩ <;> first | rfl | trivial

theorem load_parsed_success (s : GameState) (data : SaveData) (now : ℚ) (saved : List SavedNode)
    (h : data.nodes = some saved) :
    (s.load (.parsed data) now).1.success = true ∧
      (s.load (.parsed data) now).2.nodes =
        (saved.foldl GameState.deserializeStep ([], s.nextId)).1.map
          (GameState.applyUpgradesToNode { s with permanentUpgrades := data.permanentUpgrades }) ∧
      (s.load (.parsed data) now).2.connections =
        rebuildConnections ((s.load (.parsed data) now).2.nodes) := by
  unfold GameState.load
  simp only [h]
  split_ifs
  · exact ⟨rfl, rfl, rfl⟩
  · exact ⟨rfl, rfl, rfl⟩

/-- C24 (as stated, refuted): a stored save that parses to an object without the
array `nodes` makes `load` report a failure, yet the `data` of the fresh game it
was called on has changed from 10 to the 5 of the save. -/
theorem load_partial_assignment_counterexample :
    ((GameState.create 0).load (.parsed saveWithoutNodes) 2).1.success = false ∧
      (GameState.create 0).data = 10 ∧
      ((GameState.create 0).load (.parsed saveWithoutNodes) 2).2.data = 5 ∧
      ((GameState.create 0).load (.parsed saveWithoutNodes) 2).2 ≠ GameState.create 0 := by
  decide!

/-- C24 (amended): `load` always returns a result; it reports a failure exactly
when no save is stored, the stored text does not parse, or the parsed object
lacks the array `nodes`.  In the first two cases the state is as before the call;
in every case of failure the nodes and the connections (and the fields that
`load` never assigns) are as before the call. -/
theorem load_failure (s : GameState) (stored : StoredSave) (now : ℚ)
    (h : (s.load stored now).1.success = false) :
    (stored = .absent ∨ stored = .unparsable ∨
      ∃ data, stored = .parsed data ∧ data.nodes = none) ∧
    (stored = .absent ∨ stored = .unparsable → (s.load stored now).2 = s) ∧
    (s.load stored now).2.nodes = s.nodes ∧
    (s.load stored now).2.connections = s.connections ∧
    (s.load stored now).2.bandwidthUsed = s.bandwidthUsed ∧
    (s.load stored now).2.isPaused = s.isPaused ∧
    (s.load stored now).2.crashTriggered = s.crashTriggered ∧
    (s.load stored now).2.nextId = s.nextId := by
  cases stored with
  | absent => exact ⟨Or.inl rfl, fun _ => rfl, rfl, rfl, rfl, rfl, rfl, rfl⟩
  | unparsable => exact ⟨Or.inr (Or.inl rfl), fun _ => rfl, rfl, rfl, rfl, rfl, rfl, rfl⟩
  | parsed data =>
    cases hn : data.nodes with
    | some saved =>
      rw [(load_parsed_success s data now saved hn).1] at h
      exact Bool.noConfusion h
    | none =>
      refine ⟨Or.inr (Or.inr ⟨data, rfl, hn⟩), ?_, ?_⟩
      · rintro (h1 | h1) <;> cases h1
      · unfold GameState.load
        simp only [hn]
        refine ⟨?_, ?_, ?_, ?_, ?_, ?_⟩ <;> first | rfl | trivial

/-- C24, witness: on `onePlaced` a text that does not parse leaves the state, and a
save without `nodes` leaves the nodes and the connections. -/
theorem load_failure_witness :
    (onePlaced.load .unparsable 2).1.success = false ∧
      (onePlaced.load .unparsable 2).2 = onePlaced ∧
      (onePlaced.load (.parsed saveWithoutNodes) 2).1.success = false ∧
      (onePlaced.load (.parsed saveWithoutNodes) 2).2.nodes = onePlaced.nodes ∧
      (onePlaced.load (.parsed saveWithoutNodes) 2).2.connections = onePlaced.connections :=
  ⟨rfl, (load_failure onePlaced .unparsable 2 rfl).2.1 (Or.inr rfl), rfl,
    (load_failure onePlaced (.parsed saveWithoutNodes) 2 rfl).2.2.1,
    (load_failure onePlaced (.parsed saveWithoutNodes) 2 rfl).2.2.2.1⟩

end DataStream

namespace DataStream

open GameState

/-! ## Saving, then loading -/

theorem rebuildStep_live (nodes : List Node) (a : Node) (conns : List Connection) (b : Nat)
    (h3 : NoParallel conns) :
    NoParallel (rebuildStep nodes a conns b) ∧
      (∀ c ∈ conns, c ∈ rebuildStep nodes a conns b) ∧
      ((∃ n ∈ nodes, n.id = b) → Joined (rebuildStep nodes a conns b) a.id b) := by
  unfold GameState.rebuildStep
  cases hfind : nodes.find? (fun n => n.id == b) with
  | none =>
    refine ⟨h3, fun c hc => hc, ?_⟩
    intro hlive
    obtain ⟨tn, hf, -, -⟩ := find?_id_of_mem nodes b hlive
    rw [hfind] at hf
    cases hf
  | some tn =>
    have htid : tn.id = b := by simpa using List.find?_some hfind
    simp only []
    by_cases hex : Connection.exists a tn conns = true
    · rw [if_pos hex]
      refine ⟨h3, fun c hc => hc, fun _ => ?_⟩
      rw [← htid]
      exact (Connection.exists_iff_joined a tn conns).mp hex
    · rw [if_neg hex]
      refine ⟨noParallel_append_create a tn conns (by simpa using hex) h3,
        fun c hc => List.mem_append_left _ hc, fun _ => ?_⟩
      exact ⟨Connection.create a tn, by simp, Or.inl ⟨rfl, htid⟩⟩

theorem foldl_rebuildStep_live (nodes : List Node) (a : Node) (l : List Nat)
    (conns : List Connection) (h3 : NoParallel conns) :
    NoParallel (l.foldl (rebuildStep nodes a) conns) ∧
      (∀ c ∈ conns, c ∈ l.foldl (rebuildStep nodes a) conns) ∧
      ∀ b ∈ l, (∃ n ∈ nodes, n.id = b) → Joined (l.foldl (rebuildStep nodes a) conns) a.id b := by
  induction l generalizing conns with
  | nil => exact ⟨h3, fun c hc => hc, fun b hb => by cases hb⟩
  | cons b bs ih =>
    rw [List.foldl_cons]
    obtain ⟨k3, k4, k1⟩ := rebuildStep_live nodes a conns b h3
    obtain ⟨m3, m4, m1⟩ := ih _ k3
    refine ⟨m3, fun c hc => m4 c (k4 c hc), ?_⟩
    intro x hx hlive
    rcases List.mem_cons.mp hx with rfl | hx'
    · exact Joined.mono m4 (k1 hlive)
    · exact m1 x hx' hlive

theorem foldl_rebuild_live (nodes ns : List Node) (conns : List Connection)
    (h3 : NoParallel conns) :
    NoParallel (ns.foldl (fun connections node =>
        node.connections.foldl (rebuildStep nodes node) connections) conns) ∧
      (∀ c ∈ conns, c ∈ ns.foldl (fun connections node =>
        node.connections.foldl (rebuildStep nodes node) connections) conns) ∧
      ∀ a ∈ ns, ∀ b ∈ a.connections, (∃ n ∈ nodes, n.id = b) →
        Joined (ns.foldl (fun connections node =>
          node.connections.foldl (rebuildStep nodes node) connections) conns) a.id b := by
  induction ns generalizing conns with
  | nil => exact ⟨h3, fun c hc => hc, fun a ha => by cases ha⟩
  | cons a as ih =>
    rw [List.foldl_cons]
    obtain ⟨k3, k4, k1⟩ := foldl_rebuildStep_live nodes a a.connections conns h3
    obtain ⟨m3, m4, m1⟩ := ih _ k3
    refine ⟨m3, fun c hc => m4 c (k4 c hc), ?_⟩
    intro x hx b hb hlive
    rcases List.mem_cons.mp hx with rfl | hx'
    · exact Joined.mono m4 (k1 b hb hlive)
    · exact m1 x hx' b hb hlive

/-- The rebuilt collection joins every node to each entry of its neighbour list
that is the identifier of a node, and never joins a pair twice. -/
theorem rebuildConnections_live (nodes : List Node) :
    NoParallel (rebuildConnections nodes) ∧
      ∀ a ∈ nodes, ∀ b ∈ a.connections, (∃ n ∈ nodes, n.id = b) →
        Joined (rebuildConnections nodes) a.id b := by
  obtain ⟨h3, -, h1⟩ := foldl_rebuild_live nodes nodes [] List.Pairwise.nil
  exact ⟨h3, h1⟩

theorem foldl_deserializeStep (saved : List SavedNode) (acc : List Node × Nat) :
    (saved.foldl GameState.deserializeStep acc).1.map (fun n => (n.id, n.connections)) =
      acc.1.map (fun n => (n.id, n.connections)) ++ saved.map (fun d => (d.id, d.connections)) := by
  induction saved generalizing acc with
  | nil => simp
  | cons d ds ih =>
    rw [List.foldl_cons, ih]
    simp [GameState.deserializeStep, Node.deserialize]

/-- The nodes after `save` and `load` carry the identifiers and the neighbour
lists of the nodes before. -/
theorem save_load_nodes (s : GameState) (now later : ℚ) :
    (s.load (.parsed (s.save now)) later).1.success = true ∧
      (s.load (.parsed (s.save now)) later).2.nodes.map (fun n => (n.id, n.connections)) =
        s.nodes.map (fun n => (n.id, n.connections)) ∧
      (s.load (.parsed (s.save now)) later).2.connections =
        rebuildConnections ((s.load (.parsed (s.save now)) later).2.nodes) := by
  have hsave : (s.save now).nodes = some (s.nodes.map (fun n => n.serialize)) := rfl
  obtain ⟨h1, h2, h3⟩ := load_parsed_success s (s.save now) later
    (s.nodes.map (fun n => n.serialize)) hsave
  refine ⟨h1, ?_, h3⟩
  rw [h2, List.map_map]
  have hf : ((fun n : Node => (n.id, n.connections)) ∘
      GameState.applyUpgradesToNode { s with permanentUpgrades := (s.save now).permanentUpgrades }) =
      (fun n : Node => (n.id, n.connections)) := by
    funext n
    obtain ⟨f1, -, -, -, -, f6⟩ := applyUpgradesToNode_fields
      { s with permanentUpgrades := (s.save now).permanentUpgrades } n
    simp only [Function.comp, f1, f6]
  rw [hf, foldl_deserializeStep, List.map_map]
  simp only [List.map_nil, List.nil_append]
  rfl

/-- C29 (as stated, refuted): in the game `onePlaced`, reached from a fresh game
by one `addNode`, the only connection runs from the PROCESSOR 1 to the CORE 0;
after `save` and `load` the only connection runs from the CORE 0 to the
PROCESSOR 1, and none runs from 1 to 0. -/
theorem save_load_direction_counterexample :
    onePlaced = ((GameState.create 0).addNode .PROCESSOR 700 400).2 ∧
      onePlaced.connections.map Connection.ends = [(1, 0)] ∧
      (onePlaced.load (.parsed (onePlaced.save 1)) 2).1.success = true ∧
      (onePlaced.load (.parsed (onePlaced.save 1)) 2).2.connections.map Connection.ends =
        [(0, 1)] ∧
      ¬ ∃ d ∈ (onePlaced.load (.parsed (onePlaced.save 1)) 2).2.connections,
        d.fromNode = 1 ∧ d.toNode = 0 := by
  refine ⟨rfl, ?_, ?_, ?_, ?_⟩ <;> decide!

/-- C29 (amended): for every reachable state, `save` followed by `load` succeeds
and the rebuilt collection holds, for each connection of the state before, one
and only one connection that joins the same two identifiers, in one of the two
directions; no pair is joined twice. -/
theorem save_load_connections (id0 : Nat) (s : GameState) (h : Reachable id0 s)
    (now later : ℚ) :
    (s.load (.parsed (s.save now)) later).1.success = true ∧
    (∀ c ∈ s.connections,
      ((s.load (.parsed (s.save now)) later).2.connections.filter (fun d =>
        (d.fromNode == c.fromNode && d.toNode == c.toNode) ||
          (d.fromNode == c.toNode && d.toNode == c.fromNode))).length = 1) ∧
    NoParallel (s.load (.parsed (s.save now)) later).2.connections := by
  obtain ⟨h1, h2, h3⟩ := save_load_nodes s now later
  obtain ⟨k3, k1⟩ := rebuildConnections_live (s.load (.parsed (s.save now)) later).2.nodes
  rw [h3]
  refine ⟨h1, ?_, k3⟩
  intro c hc
  obtain ⟨a, ha, b, hb, e1, e2, e3, -⟩ := h.wired.1 c hc
  have hmem : ∀ m ∈ s.nodes, ∃ m' ∈ (s.load (.parsed (s.save now)) later).2.nodes,
      m'.id = m.id ∧ m'.connections = m.connections := by
    intro m hm
    have : (m.id, m.connections) ∈
        (s.load (.parsed (s.save now)) later).2.nodes.map (fun n => (n.id, n.connections)) := by
      rw [h2]
      exact List.mem_map_of_mem (fun n => (n.id, n.connections)) hm
    obtain ⟨m', hm', he⟩ := List.mem_map.mp this
    exact ⟨m', hm', congrArg Prod.fst he, congrArg Prod.snd he⟩
  obtain ⟨a', ha', i1, i2⟩ := hmem a ha
  obtain ⟨b', hb', j1, -⟩ := hmem b hb
  have hj := k1 a' ha' c.toNode (by rw [i2]; exact e3) ⟨b', hb', j1.trans e2⟩
  rw [i1, e1] at hj
  apply le_antisymm
  · apply length_filter_le_one_of_pairwise _ _ _ k3
    intro p q hp hq
    simp only [Bool.or_eq_true, Bool.and_eq_true, beq_iff_eq] at hp hq
    unfold SamePair
    rcases hp with ⟨c1, c2⟩ | ⟨c1, c2⟩ <;> rcases hq with ⟨d1, d2⟩ | ⟨d1, d2⟩
    · exact Or.inl ⟨c1.trans d1.symm, c2.trans d2.symm⟩
    · exact Or.inr ⟨c1.trans d2.symm, c2.trans d1.symm⟩
    · exact Or.inr ⟨c1.trans d2.symm, c2.trans d1.symm⟩
    · exact Or.inl ⟨c1.trans d1.symm, c2.trans d2.symm⟩
  · obtain ⟨d, hd, hdj⟩ := hj
    apply List.length_pos_of_mem (a := d)
    rw [List.mem_filter]
    refine ⟨hd, ?_⟩
    simp only [Bool.or_eq_true, Bool.and_eq_true, beq_iff_eq]
    exact hdj

/-- C29, witness: saving and loading the game `crowded` succeeds and joins no pair
twice. -/
theorem save_load_connections_witness :
    Reachable 0 crowded ∧
      (crowded.load (.parsed (crowded.save 1)) 2).1.success = true ∧
      NoParallel (crowded.load (.parsed (crowded.save 1)) 2).2.connections :=
  have hr : Reachable 0 crowded :=
    Reachable.addNode _ _ _ (Reachable.addNode _ _ _ (Reachable.addNode _ _ _
      (Reachable.addNode _ _ _ (Reachable.update _ _ _ Reachable.create))))
  ⟨hr, (save_load_connections 0 crowded hr 1 2).1, (save_load_connections 0 crowded hr 1 2).2.2⟩

end DataStream

namespace DataStream

open GameState

/-! ## The neighbour list of the CORE after a reset -/

/-- C26 (the code at the failing input): after a PROCESSOR was placed, data was
earned and `prestige()` was called, the graph holds the CORE alone and no
connection, yet the neighbour list of the CORE still holds the identifier 1 of
the discarded PROCESSOR; the reset after a crash leaves the same list. -/
theorem core_keeps_discarded_neighbour :
    Reachable 0 afterPrestige ∧
      afterPrestige.nodes.map (fun n => (n.id, n.type, n.connections)) = [(0, .CORE, [1])] ∧
      afterPrestige.connections = [] ∧
      (∃ a ∈ afterPrestige.nodes, ∃ b ∈ a.connections,
        ¬ Joined afterPrestige.connections a.id b ∧ ¬ ∃ n ∈ afterPrestige.nodes, n.id = b) ∧
      ¬ NeighboursAgree afterPrestige ∧
      onePlaced.crashReboot.nodes.map (fun n => (n.id, n.type, n.connections)) =
        [(0, .CORE, [1])] ∧
      onePlaced.crashReboot.connections = [] := by
  refine ⟨?_, by decide!, by decide!, by decide!, by decide!, by decide!, by decide!⟩
  exact Reachable.prestige (Reachable.update _ _ _ (Reachable.addNode _ _ _ Reachable.create))

/-- A graph without connections in which a node that is not a CORE carries an
identifier that no CORE carries is not connected to the CORE. -/
theorem not_connectedToCore_of_isolated (nodes : List Node) (n : Node) (hn : n ∈ nodes)
    (ht : n.type ≠ .CORE) (hid : ∀ m ∈ nodes, m.type = .CORE → m.id ≠ n.id) :
    ¬ ConnectedToCore nodes [] := by
  rintro ⟨core, hfind, hall⟩
  have hcore : core.type = .CORE := by simpa using List.find?_some hfind
  have hmem : core ∈ nodes := List.mem_of_find?_eq_some hfind
  rcases Relation.ReflTransGen.cases_tail (hall n hn ht) with h | ⟨b, -, c, hc, -⟩
  · exact hid core hmem hcore h.symm
  · cases hc

/-- C3 (the code at the failing input): in `reloaded`, a session started from the
save of a game that went through a prestige, the neighbour list of the CORE still
names 3, now the identifier of a PROCESSOR that only the PROCESSOR 2 links to the
network.  Removing the PROCESSOR 2 leaves the PROCESSOR 3 unreachable from the
CORE along the remaining connections, yet `isNetworkConnected(2)` finds 3 through
that entry and `deleteNode` succeeds: it removes the PROCESSOR 2 and its two
connections, and the PROCESSOR 3 is left without any connection while
`isNetworkConnected()` keeps answering true. -/
theorem stale_neighbour_hides_disconnection :
    reloaded.nodes.map (fun n => (n.id, n.type, n.connections)) =
        [(0, .CORE, [1, 2, 3]), (2, .PROCESSOR, [0, 3]), (3, .PROCESSOR, [2])] ∧
      reloaded.connections.map Connection.ends = [(2, 0), (3, 2)] ∧
      ¬ ConnectedToCore (reloaded.nodes.filter (fun m => m.id != 2))
        (reloaded.connections.filter (fun c => c.fromNode != 2 && c.toNode != 2)) ∧
      reloaded.isNetworkConnected (some 2) = true ∧
      (reloaded.deleteNode (Node.create 2 .PROCESSOR 700 400)).1.success = true ∧
      (reloaded.deleteNode (Node.create 2 .PROCESSOR 700 400)).2 ≠ reloaded ∧
      (reloaded.deleteNode (Node.create 2 .PROCESSOR 700 400)).2.nodes.map
          (fun n => (n.id, n.type, n.connections)) =
        [(0, .CORE, [1, 3]), (3, .PROCESSOR, [])] ∧
      (reloaded.deleteNode (Node.create 2 .PROCESSOR 700 400)).2.connections = [] ∧
      (reloaded.deleteNode (Node.create 2 .PROCESSOR 700 400)).2.isNetworkConnected none =
        true := by
  have hc : reloaded.connections.filter (fun c => c.fromNode != 2 && c.toNode != 2) = [] := by
    decide!
  refine ⟨by decide!, by decide!, ?_, by decide!, by decide!, by decide!, by decide!,
    by decide!, by decide!⟩
  rw [hc]
  exact not_connectedToCore_of_isolated _
    { id := 3, type := .PROCESSOR, x := 900, y := 400, dataStored := 0, dataRate := 6,
      isActive := true, connections := [2] } (by decide!) (by decide!) (by decide!)

/-! ## The discounted cost of a node -/

/-- C6 (the code at the failing input): at level 9 of the upgrade `nodeDiscount`
the doubles of `getNodeCost('OPTIMIZER')` give `Math.ceil(55.00000000000001) = 56`,
one more than `ceil(100 * (1 - 0.05 * 9)) = 55`, and a successful `addNode` lowers
`data` by these 56 units. -/
theorem optimizer_cost_at_level_nine :
    discounted.permanentUpgrades.nodeDiscount = 9 ∧
      roundDouble ((NODE_TYPES .OPTIMIZER).cost *
        roundDouble (1 - roundDouble (9 * roundDouble (1 / 20)))) =
          55 + 1 / 140737488355328 ∧
      discounted.getNodeCost .OPTIMIZER = 56 ∧
      (⌈(NODE_TYPES .OPTIMIZER).cost * (1 - (1 / 20 : ℚ) * 9)⌉ : ℤ) = 55 ∧
      (discounted.addNode .OPTIMIZER 700 400).1.success = true ∧
      discounted.data = 100 ∧
      (discounted.addNode .OPTIMIZER 700 400).2.data = 44 := by
  refine ⟨rfl, ?_, ?_, ?_, ?_, ?_, ?_⟩ <;> decide!

end DataStream

namespace DataStream

open GameState

/-! ## Refused deletions within one session -/

/-- Under the wiring invariant, a path of `isNetworkConnected(e)` to a node of the
graph is a path along the connections that do not touch `e`. -/
theorem listReach_to_joined_of_wired (s : GameState) (e c0 : Nat) (hw : Wired s) (hc0 : c0 ≠ e)
    (v : Nat) (h : Relation.ReflTransGen (ListEdge s.nodes (some e)) c0 v)
    (hv : ∃ m ∈ s.nodes, m.id = v) :
    Relation.ReflTransGen
      (Joined (s.connections.filter (fun c => c.fromNode != e && c.toNode != e))) c0 v ∧
      v ≠ e := by
  induction h with
  | refl => exact ⟨Relation.ReflTransGen.refl, hc0⟩
  | @tail u w _ hstep ih =>
    obtain ⟨node, hfind, hmw, hne⟩ := hstep
    have hwe : w ≠ e := fun h => hne (by rw [h])
    have hid : node.id = u := by simpa using List.find?_some hfind
    have hnode : node ∈ s.nodes := List.mem_of_find?_eq_some hfind
    obtain ⟨hu, hue⟩ := ih ⟨node, hnode, hid⟩
    refine ⟨?_, hwe⟩
    by_cases hself : w = node.id
    · rw [hself, hid]
      exact hu
    · obtain ⟨c, hc, hj⟩ := hw.2.1 node hnode w hmw hself hv
      refine hu.tail ⟨c, ?_, ?_⟩
      · rw [List.mem_filter]
        refine ⟨hc, ?_⟩
        rcases hj with ⟨h1, h2⟩ | ⟨h1, h2⟩
        · simp [h1, h2, hid, hue, hwe]
        · simp [h1, h2, hid, hue, hwe]
      · rw [← hid]
        exact hj

/-- In every state reached within one session, `deleteNode(n)` refuses to remove a
node `n` of the graph whose removal would leave a remaining node that is not a
CORE unreachable from the CORE along the remaining connections, and leaves the
state as it was. -/
theorem deleteNode_refuses_within_session (id0 : Nat) (s : GameState) (hr : Reachable id0 s)
    (n : Node) (hn : n ∈ s.nodes) (ht : n.type ≠ .CORE)
    (hc : ¬ ConnectedToCore (s.nodes.filter (fun m => m.id != n.id))
      (s.connections.filter (fun c => c.fromNode != n.id && c.toNode != n.id))) :
    (s.deleteNode n).1.success = false ∧ (s.deleteNode n).2 = s := by
  have hf : (s.deleteNode n).1.success = false := by
    rw [← Bool.not_eq_true, deleteNode_success_iff]
    rintro ⟨-, h2⟩
    apply hc
    obtain ⟨core, hfind, hall⟩ := (isNetworkConnected_iff s (some n.id)).mp h2
    have hcid : core.id ≠ n.id :=
      core_id_ne s.nodes hr.idsFresh.1 n hn ht core (List.mem_of_find?_eq_some hfind)
        (by simpa using List.find?_some hfind)
    have hfind2 : (s.nodes.filter (fun m => m.id != n.id)).find? (fun m => m.type == .CORE) =
        some core := by
      rw [find?_filter_of_keeps, hfind]
      intro c hcm hct
      simpa using core_id_ne s.nodes hr.idsFresh.1 n hn ht c hcm (by simpa using hct)
    refine ⟨core, hfind2, ?_⟩
    intro m hm hmt
    obtain ⟨hm1, hm2⟩ := List.mem_filter.mp hm
    have hme : m.id ≠ n.id := by simpa using hm2
    have hpath := hall m hm1 hmt (by simpa using hme)
    exact (listReach_to_joined_of_wired s n.id core.id hr.wired hcid m.id hpath ⟨m, hm1, rfl⟩).1
  exact ⟨hf, deleteNode_failure_state s n hf⟩

end DataStream
